import Mathlib

/-!
Recite (mobile): segmenter, similarity scorer, step plan builder, recitation checker,
playback scheduler

A shallow embedding of the algorithmic core of `src/app1.js`.

Conventions of the embedding:

* JavaScript strings are `String`; character-level code works on `List Char`
  (`new Set(str)` iterates a string by code point, which is what `Char` is).
* Integer settings are `Int`; a JavaScript number is the rational `ℚ` it denotes. Where
  the rounding of double arithmetic decides the integer that is shown or used (the
  percentage of `updateMatches`, the watchdog delay of `speak`), every operation of the
  source is followed by `roundDouble`, the rounding to the nearest binary64 number.
  A score is kept as its exact quotient: compared with a threshold, the double nearest
  to the quotient gives the same answer unless the threshold is that very double and
  lies above the quotient (`roundDouble_compare`).
* The regular expression of `splitSentences` has no `u` flag and works on UTF-16 code
  units: `splitSentencesUnits` is the segmenter on code units, `splitSentences` its
  reading on characters, which agrees with it while every delimiter is one code unit.
* `Number(x) || d` on a number `x` is `d` when `x` is `0` and `x` otherwise.
* A `for (let i = 0; i < n; i++) acc.push(..)` loop is a left fold over `List.range n`
  that appends to the accumulator.
* A property that a JavaScript object literal does not set (`undefined`) is `none`.
* The global `state` is an explicit `AppState` argument; the scheduler works on a
  `Session` that adds `player`, the recited-text box and the check state.
* The `async` loop `runPlayerLoop` is cut at its suspension points: one `loop` event runs
  it from the `while` test to the next `await`, `continue` or `return`, and user commands
  are events of their own that can come in between.
-/

namespace Recite

/-! ## Utilities -/

/-- The function `clamp(v, min, max)` : `Math.min(Math.max(v, min), max)`. -/
def clamp {α : Type} [LinearOrder α] (v lo hi : α) : α := min (max v lo) hi

/-- The JavaScript idiom `Number(x) || d` on a number: `0` is falsy and is replaced by `d`. -/
def numOr {α : Type} [Zero α] [DecidableEq α] (x d : α) : α := if x = 0 then d else x

/-! ## Floating-point numbers -/

/-- Rounding of a rational to the nearest integer, a tie going to the even neighbour: the
rounding rule of IEEE 754 arithmetic. -/
def roundNearestEven (y : ℚ) : Int :=
  if y - ⌊y⌋ < 1 / 2 then ⌊y⌋
  else if 1 / 2 < y - ⌊y⌋ then ⌊y⌋ + 1
  else if ⌊y⌋ % 2 = 0 then ⌊y⌋ else ⌊y⌋ + 1

/-- The exponent of the unit in the last place of `x` in a binary format with `p`
significant bits: `⌊log₂ |x|⌋ - (p - 1)`. -/
def ulpExp (p : Nat) (x : ℚ) : Int := Int.log 2 |x| - ((p : Int) - 1)

/-- The number with `p` significant bits nearest to `x`, ties to even.  The exponent is
not bounded: overflow to infinity and the subnormal range are left out (the counts,
lengths and rates that the program computes with are far from both). -/
def roundFloat (p : Nat) (x : ℚ) : ℚ :=
  if x = 0 then 0 else (roundNearestEven (x / (2 : ℚ) ^ ulpExp p x) : ℚ) * (2 : ℚ) ^ ulpExp p x

/-- The result of a JavaScript arithmetic operation whose exact value is `x` : the nearest
binary64 number (53 significant bits). -/
def roundDouble (x : ℚ) : ℚ := roundFloat 53 x

/-! ## Data model -/

/-- A question/answer record (`state.qas[i]`). -/
structure Qa where
  id : String
  question : String
  answerText : String
deriving DecidableEq, Repr

/-- The settings object `state.settings` (fields used by the core). -/
structure Settings where
  groupSize : Int
  repeatPerGroup : Int
  reviewPrevAfterEach : Bool
  sentenceDelimiters : String
  ttsEnabled : Bool
  autoPlayNextQa : Bool
  forceReciteCheck : Bool
  rate : ℚ
  volume : ℚ
  threshold : ℚ
  fullReadBeforeGroups : Int
  fullReadAfterGroups : Int
  reviewPrevRepeatCount : Int

/-- The persisted application state `state`. -/
structure AppState where
  qas : List Qa
  settings : Settings
  currentQaId : Option String

/-- One playback step.  The source builds three shapes of object literal; a property
that a literal leaves out is `none` here. -/
structure Step where
  qaId : String
  kind : String
  text : String
  review : Bool
  isQuestion : Option Bool
  isFullRead : Option Bool
  fullReadType : Option String
  groupIndex : Option Nat
  groupCount : Option Nat
  round : Option Nat
  roundCount : Option Nat
  sentenceIndexInGroup : Option Nat
  globalSentenceIndex : Option Nat
deriving DecidableEq, Repr

/-- The settings of `defaultState()`. -/
def defaultSettings : Settings where
  groupSize := 3
  repeatPerGroup := 4
  reviewPrevAfterEach := true
  sentenceDelimiters := "。！？!?"
  ttsEnabled := true
  autoPlayNextQa := false
  forceReciteCheck := false
  rate := 1
  volume := 1
  threshold := 65 / 100
  fullReadBeforeGroups := 1
  fullReadAfterGroups := 1
  reviewPrevRepeatCount := 1

/-! ## Text processing -/

/-- Code points removed by `String.prototype.trim`: ECMAScript WhiteSpace and
LineTerminator. -/
def isJsWhitespace (c : Char) : Bool :=
  let n := c.toNat
  n = 0x09 || n = 0x0A || n = 0x0B || n = 0x0C || n = 0x0D || n = 0x20 || n = 0xA0 ||
  n = 0x1680 || (0x2000 ≤ n && n ≤ 0x200A) || n = 0x2028 || n = 0x2029 || n = 0x202F ||
  n = 0x205F || n = 0x3000 || n = 0xFEFF

/-- The method `s.trim()` on the characters of a string. -/
def jsTrimChars (cs : List Char) : List Char :=
  ((cs.dropWhile isJsWhitespace).reverse.dropWhile isJsWhitespace).reverse

/-- The method `s.trim()`. -/
def jsTrim (s : String) : String := String.mk (jsTrimChars s.toList)

/-- The characters of the separator class built by `splitSentences`:
`String(state.settings.sentenceDelimiters || '。！？!?') + '，,;；、'`.  The escaping of
`\`, `]`, `[`, `-`, `^` makes every one of them a literal member of the class. -/
def delimChars (st : AppState) : List Char :=
  (if st.settings.sentenceDelimiters = "" then "。！？!?" else st.settings.sentenceDelimiters).toList
    ++ "，,;；、".toList

/-- The call `text.split(regex)` for a regex `([...])` that matches one element of a class and
captures it: the pieces between separators, with every matched separator spliced in
between as an element of its own.  `cur` is the piece being read.  The elements are the
UTF-16 code units of the string (the regex has no `u` flag), or its characters when no
separator is made of two code units. -/
def splitLoop {α : Type} (isDelim : α → Bool) : List α → List α → List (List α)
  | [], cur => [cur]
  | c :: rest, cur =>
    if isDelim c then cur :: [c] :: splitLoop isDelim rest []
    else splitLoop isDelim rest (cur ++ [c])

/-- The UTF-16 code units of a character: itself, or a surrogate pair above `0xFFFF`. -/
def utf16Encode (c : Char) : List Nat :=
  if c.toNat < 0x10000 then [c.toNat]
  else [0xD800 + (c.toNat - 0x10000) / 0x400, 0xDC00 + (c.toNat - 0x10000) % 0x400]

/-- The code units of a list of characters. -/
def encodeChars (cs : List Char) : List Nat := cs.flatMap utf16Encode

/-- A string as JavaScript holds it: the sequence of its UTF-16 code units. -/
def toUnits (s : String) : List Nat := encodeChars s.toList

/-- Code units removed by `String.prototype.trim` (all white space is in the basic plane). -/
def isJsWhitespaceUnit (n : Nat) : Bool :=
  n = 0x09 || n = 0x0A || n = 0x0B || n = 0x0C || n = 0x0D || n = 0x20 || n = 0xA0 ||
  n = 0x1680 || (0x2000 ≤ n && n ≤ 0x200A) || n = 0x2028 || n = 0x2029 || n = 0x202F ||
  n = 0x205F || n = 0x3000 || n = 0xFEFF

/-- The method `s.trim()` on the code units of a string. -/
def jsTrimUnits (us : List Nat) : List Nat :=
  ((us.dropWhile isJsWhitespaceUnit).reverse.dropWhile isJsWhitespaceUnit).reverse

/-- The members of the separator class as the regex sees them without the `u` flag: the
code units of the delimiter string, a character above `0xFFFF` giving its two surrogates
as two separate members. -/
def delimUnits (st : AppState) : List Nat := encodeChars (delimChars st)

/-- The function `splitSentences(text)` on code units: split, `.map(s => s.trim())`,
`.filter(Boolean)`.  The text is any sequence of code units, the segments as well (a
surrogate pair of the text is cut when one of its halves is a member of the class). -/
def splitSentencesUnits (st : AppState) (text : List Nat) : List (List Nat) :=
  ((splitLoop (fun u => decide (u ∈ delimUnits st)) text []).map jsTrimUnits).filter
    (fun s => !s.isEmpty)

/-- The function `splitSentences(text)` read on characters: split, `.map(s => s.trim())`,
`.filter(Boolean)`.  It is the code-unit function `splitSentencesUnits` as long as every
delimiter is one code unit (every configured delimiter below `0x10000`, as all the
built-in ones are); with a delimiter above `0xFFFF` the source cuts surrogate pairs and
only `splitSentencesUnits` describes it. -/
def splitSentences (st : AppState) (text : String) : List String :=
  (((splitLoop (fun c => decide (c ∈ delimChars st)) text.toList []).map jsTrimChars).filter
    (fun s => !s.isEmpty)).map String.mk

/-- The method `array.slice(i, j)` for `0 ≤ i ≤ j`. -/
def slice {α : Type} (array : List α) (i j : Nat) : List α := (array.drop i).take (j - i)

/-- The loop of `chunk`: `for (let i = 0; i < array.length; i += size) chunks.push(..)`.
The first argument bounds the number of iterations; `none` means the bound was reached
with the loop condition still true. -/
def chunkLoop {α : Type} (array : List α) (size : Nat) :
    Nat → Nat → List (List α) → Option (List (List α))
  | 0, _, _ => none
  | fuel + 1, i, chunks =>
    if i < array.length then
      chunkLoop array size fuel (i + size) (chunks ++ [slice array i (i + size)])
    else some chunks

/-- The function `chunk(array, size)`.  With `size ≥ 1` the loop runs at most `array.length` times, so
`array.length + 1` iterations are always enough; with `size = 0` on a non-empty array the
source loops forever and the model gives `none`. -/
def chunk {α : Type} (array : List α) (size : Nat) : Option (List (List α)) :=
  chunkLoop array size (array.length + 1) 0 []

/-- The value `new Set(iterable)` as the list of its elements in insertion order. -/
def jsSet (xs : List Char) : List Char :=
  xs.foldl (fun acc x => if x ∈ acc then acc else acc ++ [x]) []

/-- The function `diceSimilarity(a, b)`. -/
def diceSimilarity (a b : String) : ℚ :=
  if a = "" ∨ b = "" then 0
  else
    let setA := jsSet a.toList
    let setB := jsSet b.toList
    let intersection := jsSet (setA.filter (fun x => decide (x ∈ setB)))
    (2 * (intersection.length : ℚ)) / ((setA.length : ℚ) + (setB.length : ℚ))

/-! ## Record lookup -/

/-- The method `array.findIndex(p)`, `none` standing for `-1`. -/
def findIndex {α : Type} (p : α → Bool) : List α → Option Nat
  | [] => none
  | x :: xs => if p x then some 0 else (findIndex p xs).map (· + 1)

/-- The function `getQaById(id)` : `state.qas.find((q) => q.id === id) || null`. -/
def getQaById (st : AppState) (id : String) : Option Qa :=
  st.qas.find? (fun q => decide (q.id = id))

/-- The function `getCurrentQa()`; a `null` current id matches no record. -/
def getCurrentQa (st : AppState) : Option Qa :=
  st.currentQaId.bind (getQaById st)

/-- The function `prevQaId(currentId)` : `null` when the index is `-1` or `0`. -/
def prevQaId (st : AppState) (currentId : String) : Option String :=
  match findIndex (fun q => decide (q.id = currentId)) st.qas with
  | none => none
  | some 0 => none
  | some (idx + 1) => (st.qas[idx]?).map Qa.id

/-- The function `nextQaId(currentId)` : `null` when the index is `-1` or the last one. -/
def nextQaId (st : AppState) (currentId : String) : Option String :=
  match findIndex (fun q => decide (q.id = currentId)) st.qas with
  | none => none
  | some idx => if idx + 1 < st.qas.length then (st.qas[idx + 1]?).map Qa.id else none

/-! ## Step plan builder -/

/-- The step pushed by the innermost loop of `buildStepsForQa`. -/
def groupStep (qa : Qa) (review : Bool) (groups : List (List String)) (groupSize roundCount : Nat)
    (g r s : Nat) : Step where
  qaId := qa.id
  groupIndex := some g
  groupCount := some groups.length
  round := some r
  roundCount := some roundCount
  sentenceIndexInGroup := some s
  globalSentenceIndex := some (g * groupSize + s)
  text := (groups.getD g []).getD s ""
  kind := "speak"
  review := review
  isQuestion := none
  isFullRead := none
  fullReadType := none

/-- The three nested `for` loops of `buildStepsForQa`, over already computed groups. -/
def groupSteps (qa : Qa) (review : Bool) (groups : List (List String))
    (groupSize roundCount : Nat) : List Step :=
  (List.range groups.length).foldl (fun steps g =>
    (List.range roundCount).foldl (fun steps r =>
      (List.range (groups.getD g []).length).foldl (fun steps s =>
        steps ++ [groupStep qa review groups groupSize roundCount g r s]) steps) steps) []

/-- The group size used by the builder: `clamp(Number(settings.groupSize) || 3, 1, 10)`. -/
def effGroupSize (st : AppState) : Int := clamp (numOr st.settings.groupSize 3) 1 10

/-- The round count used by the builder: `clamp(Number(settings.repeatPerGroup) || 4, 1, 20)`. -/
def effRoundCount (st : AppState) : Int := clamp (numOr st.settings.repeatPerGroup 4) 1 20

/-- The function `buildStepsForQa(qa, { review })`.  It is `none` only if `chunk` does not return. -/
def buildStepsForQa (st : AppState) (qa : Qa) (review : Bool) : Option (List Step) :=
  let sentences := splitSentences st qa.answerText
  let groupSize := effGroupSize st
  let roundCount := effRoundCount st
  (chunk sentences groupSize.toNat).map fun groups =>
    groupSteps qa review groups groupSize.toNat roundCount.toNat

/-- A full-read step speaking the question. -/
def fullReadQuestionStep (qa : Qa) (phase : String) : Step where
  qaId := qa.id
  kind := "speak"
  text := qa.question
  isQuestion := some true
  review := false
  isFullRead := some true
  fullReadType := some phase
  groupIndex := none
  groupCount := none
  round := none
  roundCount := none
  sentenceIndexInGroup := none
  globalSentenceIndex := none

/-- A full-read step speaking the whole answer. -/
def fullReadAnswerStep (qa : Qa) (phase : String) : Step where
  qaId := qa.id
  kind := "speak"
  text := qa.answerText
  isQuestion := some false
  review := false
  isFullRead := some true
  fullReadType := some phase
  groupIndex := none
  groupCount := none
  round := none
  roundCount := none
  sentenceIndexInGroup := none
  globalSentenceIndex := none

/-- The question-announcement step (`questionStep`, and `reviewQuestionStep` with
`review = true`). -/
def questionStep (qa : Qa) (review : Bool) : Step where
  qaId := qa.id
  kind := "speak"
  text := qa.question
  isQuestion := some true
  review := review
  isFullRead := none
  fullReadType := none
  groupIndex := none
  groupCount := none
  round := none
  roundCount := none
  sentenceIndexInGroup := none
  globalSentenceIndex := none

/-- A full-read loop: `for (let i = 0; i < count; i++) { push(question); push(answer) }`. -/
def fullReadSteps (qa : Qa) (phase : String) (count : Nat) : List Step :=
  (List.range count).foldl (fun steps _ =>
    (steps ++ [fullReadQuestionStep qa phase]) ++ [fullReadAnswerStep qa phase]) []

/-- The constant `beforeCount` : `clamp(Number(settings.fullReadBeforeGroups) || 1, 0, 5)`. -/
def beforeCount (st : AppState) : Int := clamp (numOr st.settings.fullReadBeforeGroups 1) 0 5

/-- The constant `afterCount` : `clamp(Number(settings.fullReadAfterGroups) || 1, 0, 5)`. -/
def afterCount (st : AppState) : Int := clamp (numOr st.settings.fullReadAfterGroups 1) 0 5

/-- The constant `reviewRepeatCount` : `clamp(Number(settings.reviewPrevRepeatCount) || 1, 1, 5)`. -/
def reviewRepeatCount (st : AppState) : Int :=
  clamp (numOr st.settings.reviewPrevRepeatCount 1) 1 5

/-- The test `st.round < reviewRepeatCount` of the review loop; a step without a round
(`undefined < n`) fails it. -/
def roundBelow (reviewRepeatCount : Int) (s : Step) : Bool :=
  match s.round with
  | some r => decide ((r : Int) < reviewRepeatCount)
  | none => false

/-- A step with its `review` flag set. -/
def markReview (s : Step) : Step := { s with review := true }

/-- The loop `for (const st of reviewSteps) if (st.round < reviewRepeatCount)
reviewRounds.push(st)`. -/
def reviewRounds (reviewSteps : List Step) (reviewRepeatCount : Int) : List Step :=
  reviewSteps.foldl (fun acc s =>
    match s.round with
    | some r => if (r : Int) < reviewRepeatCount then acc ++ [s] else acc
    | none => acc) []

/-- The review tail of `buildPlayerStepsForQa`: what is appended after the main plan.
`prevId` is truthy when it is a non-empty string. -/
def reviewTail (st : AppState) (qa : Qa) : Option (List Step) :=
  match prevQaId st qa.id with
  | none => some []
  | some prevId =>
    if st.settings.reviewPrevAfterEach = true ∧ prevId ≠ "" then
      match getQaById st prevId with
      | none => some []
      | some prevQa =>
        (buildStepsForQa st prevQa true).map fun reviewSteps =>
          questionStep prevQa true :: reviewRounds reviewSteps (reviewRepeatCount st)
    else some []

/-- The function `buildPlayerStepsForQa(qa)`. -/
def buildPlayerStepsForQa (st : AppState) (qa : Qa) : Option (List Step) :=
  (buildStepsForQa st qa false).bind fun mainSteps =>
    let beforeFullReadSteps := fullReadSteps qa "before" (beforeCount st).toNat
    let steps := beforeFullReadSteps ++ questionStep qa false :: mainSteps
    let afterFullReadSteps := fullReadSteps qa "after" (afterCount st).toNat
    let steps := steps ++ afterFullReadSteps
    (reviewTail st qa).map fun tail => steps ++ tail

/-! ## The plan order as the specification words it -/

/-- The number of consecutive groups of `n` elements in a list: `⌈length / n⌉`. -/
def groupCountOf {α : Type} (n : Nat) (xs : List α) : Nat := (xs.length + n - 1) / n

/-- The `k`-th consecutive group of `n` elements: positions `k*n .. k*n + n - 1`, cut at
the end of the list. -/
def consecutiveGroup {α : Type} (n : Nat) (xs : List α) (k : Nat) : List α :=
  (xs.drop (k * n)).take n

/-- The consecutive groups of `n` elements, in order. -/
def consecutiveGroups {α : Type} (n : Nat) (xs : List α) : List (List α) :=
  (List.range (groupCountOf n xs)).map (consecutiveGroup n xs)

/-- Round-major order, from the specification: group after group, and inside a group
`rounds` copies of its segments in order. -/
def roundMajorTexts (n rounds : Nat) (segs : List String) : List String :=
  (consecutiveGroups n segs).flatMap fun group => (List.replicate rounds group).flatten

/-- Round-major order with tags: every entry is (group index, round, text), listed group
by group, round by round inside a group, segment by segment inside a round. -/
def roundMajorTagged (n rounds : Nat) (segs : List String) : List (Nat × Nat × String) :=
  (List.range (groupCountOf n segs)).flatMap fun g =>
    (List.range rounds).flatMap fun r =>
      (consecutiveGroup n segs g).map fun t => (g, r, t)

/-! ## Recitation checker -/

/-- The threshold used by the checker: `clamp(Number(settings.threshold) || 0.65, 0, 1)`. -/
def effThreshold (st : AppState) : ℚ := clamp (numOr st.settings.threshold (65 / 100)) 0 1

/-- The per-segment marking of `renderCurrentQaView` for the recited text `recited`:
`sim = recited ? diceSimilarity(recited, s) : 0`, `hit = !!recited && sim >= threshold`. -/
def segmentHit (st : AppState) (recited : String) (s : String) : Bool :=
  let sim : ℚ := if recited = "" then 0 else diceSimilarity recited s
  decide (recited ≠ "") && decide (effThreshold st ≤ sim)

/-- The hit marks (`hit` / `miss`) that `renderCurrentQaView` draws on the segments of the
current record: `none` when there is no current record or the recited text is empty
(`hasRecited = !!recited` : the segments carry no mark then).  A recited text of white
space only is marked like any other.  Not modelled: a record with `answerHtml` shows its
rich answer, without segments, while nothing is recited, masked, locked or played. -/
def segmentMarks (st : AppState) (recited : String) : Option (List Bool) :=
  match getCurrentQa st with
  | none => none
  | some qa =>
    if recited = "" then none
    else some ((splitSentences st qa.answerText).map (segmentHit st recited))

/-- The scores computed by `updateMatches` : `sentences.map((s) => diceSimilarity(recited, s))`. -/
def matchScores (st : AppState) (qa : Qa) (recited : String) : List ℚ :=
  (splitSentences st qa.answerText).map (fun s => diceSimilarity recited s)

/-- The hit count of `updateMatches` : `scores.filter((x) => x >= threshold).length`. -/
def matchHits (st : AppState) (qa : Qa) (recited : String) : Nat :=
  ((matchScores st qa recited).filter (fun x => decide (effThreshold st ≤ x))).length

/-! ## Example states -/

/-- A record whose answer has five segments `s0 .. s4` when the blank is a delimiter. -/
def exampleQa1 : Qa := ⟨"q1", "Q1", "s0 s1 s2 s3 s4"⟩

/-- A second record, positioned right after `exampleQa1`. -/
def exampleQa2 : Qa := ⟨"q2", "Q2", "t0 t1"⟩

/-- Two records, `groupSize = 3`, `repeatPerGroup = 2`, the blank as configured delimiter
(a settings value that an imported document can carry), one full read before and after,
review of the previous record with one round. -/
def exampleState : AppState where
  qas := [exampleQa1, exampleQa2]
  settings := { defaultSettings with groupSize := 3, repeatPerGroup := 2, sentenceDelimiters := " " }
  currentQaId := some "q1"

/-- A record with the one-segment answer `ab`. -/
def exampleQaAb : Qa := ⟨"q1", "Q1", "ab"⟩

/-- The default settings with `fullReadBeforeGroups` stored as `0`, one record. -/
def stateBeforeZero : AppState where
  qas := [exampleQaAb]
  settings := { defaultSettings with fullReadBeforeGroups := 0 }
  currentQaId := some "q1"

/-- The default settings with `fullReadAfterGroups` stored as `0`, one record. -/
def stateAfterZero : AppState where
  qas := [exampleQaAb]
  settings := { defaultSettings with fullReadAfterGroups := 0 }
  currentQaId := some "q1"

/-- The default settings with `threshold` stored as `0`, one record. -/
def stateThresholdZero : AppState where
  qas := [exampleQaAb]
  settings := { defaultSettings with threshold := 0 }
  currentQaId := some "q1"

/-! ## Recitation summary -/

/-- The function `Math.round(x)` on the value `x` of a number: the nearest integer, a half
rounded up (`Math.round` itself is exact). -/
def jsRound (x : ℚ) : Int := ⌊x + 1 / 2⌋

/-- The spread `Math.min(...scores)` over a non-empty array, written as a fold. -/
def minOf (x : ℚ) (xs : List ℚ) : ℚ := xs.foldl min x

/-- The spread `Math.max(...scores)` over a non-empty array, written as a fold. -/
def maxOf (x : ℚ) (xs : List ℚ) : ℚ := xs.foldl max x

/-- The numbers that `updateMatches` puts in the summary line. -/
structure MatchSummary where
  hits : Nat
  total : Nat
  pct : Int
  min : ℚ
  max : ℚ

/-- The function `updateMatches()` for the recited text `recited` (the value of the input
box): `none` when there is no current record or the text is blank, else the summary
`hits`, `total`, `pct = total ? Math.round((hits / total) * 100) : 0`, `min`, `max`. The
quotient `hits / total` and its product with `100` are double operations. -/
def updateMatches (st : AppState) (recited : String) : Option MatchSummary :=
  match getCurrentQa st with
  | none => none
  | some qa =>
    if jsTrim recited = "" then none
    else
      let sentences := splitSentences st qa.answerText
      let scores := matchScores st qa recited
      let hits := matchHits st qa recited
      let total := sentences.length
      let pct : Int := if total = 0 then 0
        else jsRound (roundDouble (roundDouble ((hits : ℚ) / (total : ℚ)) * 100))
      let min : ℚ := match scores with
        | [] => 0
        | x :: xs => minOf x xs
      let max : ℚ := match scores with
        | [] => 0
        | x :: xs => maxOf x xs
      some { hits := hits, total := total, pct := pct, min := min, max := max }

/-- The function `isReciteCheckPassedForQa(qa)`; a missing record (`null`) is `none`. -/
def isReciteCheckPassedForQa (st : AppState) (qa : Option Qa) : Bool :=
  match qa with
  | none => false
  | some qa => decide (0 < (splitSentences st qa.answerText).length)

/-! ## Playback scheduler -/

/-- The object `player`.  An id that is `null` is `none`; `speechUtterance` keeps the text
of the utterance object stored there. -/
structure Player where
  running : Bool
  paused : Bool
  qaId : Option String
  mainQaId : Option String
  steps : List Step
  stepIndex : Nat
  activeSentenceGlobalIndex : Option Nat
  speechUtterance : Option String
  reviewMode : Bool
deriving DecidableEq, Repr

/-- The object `reciteCheck`, the set `lockedSegments` as the list of its elements. -/
structure ReciteCheck where
  lockedSegments : List Nat
  pointerSegment : Nat
  lastUtterance : String
  maskMode : Bool
  manualAuto : Bool
deriving DecidableEq, Repr

/-- The object `cardCheck`. -/
structure CardCheck where
  enabled : Bool
  flipped : Bool
  index : Nat
deriving DecidableEq, Repr

/-- Everything the scheduler reads or writes: `state`, `player`, the recited-text input
box, `reciteCheck`, `cardCheck`, `maskState.showAll`, and whether the browser has
`speechSynthesis`.  Rendering and the list pager are not part of the model. -/
structure Session where
  state : AppState
  player : Player
  inputRecited : String
  reciteCheck : ReciteCheck
  cardCheck : CardCheck
  maskShowAll : Bool
  speechSupported : Bool

/-- Truthiness of an id: `null` and the empty string are falsy. -/
def truthyId (id : Option String) : Bool :=
  match id with
  | none => false
  | some s => decide (s ≠ "")

/-- The function `stopTts()` : cancel speech and clear `player.speechUtterance`. -/
def stopTts (s : Session) : Session :=
  { s with player := { s.player with speechUtterance := none } }

/-- The function `resetReciteCheck()`. -/
def resetReciteCheck (s : Session) : Session :=
  { s with
    reciteCheck :=
      { lockedSegments := [], pointerSegment := 0, lastUtterance := "", maskMode := false,
        manualAuto := false }
    maskShowAll := false }

/-- The function `resetCardCheck()`. -/
def resetCardCheck (s : Session) : Session :=
  { s with cardCheck := { s.cardCheck with flipped := false, index := 0 } }

/-- The synchronous part of `speak(text)`: nothing to say, speech switched off or
unsupported resolve at once; otherwise the utterance is stored in
`player.speechUtterance` and handed to the speech engine. -/
def speakStart (s : Session) (text : String) : Session :=
  if jsTrim text = "" then s
  else if s.state.settings.ttsEnabled = false then s
  else if s.speechSupported = false then s
  else { s with player := { s.player with speechUtterance := some text } }

/-- The function `pausePlayer()`. -/
def pausePlayer (s : Session) : Session :=
  if s.player.running = false then s
  else stopTts { s with player := { s.player with paused := true } }

/-- The function `resumePlayer()`. -/
def resumePlayer (s : Session) : Session :=
  if s.player.running = false then s
  else if s.state.settings.ttsEnabled = false then s
  else { s with player := { s.player with paused := false } }

/-- The function `stopPlayer()`. -/
def stopPlayer (s : Session) : Session :=
  stopTts { s with
    player :=
      { s.player with
        running := false, paused := false, steps := [], stepIndex := 0,
        activeSentenceGlobalIndex := none, qaId := none, mainQaId := none,
        reviewMode := false } }

/-- Where `runPlayerLoop` stands between two events: at the `while` test, suspended in
`await speak(step.text)` with the `startIndex` it saved, or returned. -/
inductive LoopPc where
  | top : LoopPc
  | speaking (startIndex : Nat) : LoopPc
  | exited : LoopPc
deriving DecidableEq, Repr

/-- The three places where the loop ends the session: `running = false`,
`paused = false`, `activeSentenceGlobalIndex = null`. -/
def endSession (s : Session) : Session :=
  { s with
    player :=
      { s.player with running := false, paused := false, activeSentenceGlobalIndex := none } }

/-- The constant `nextId` of the end-of-plan branch:
`(!forceReciteCheck && autoPlayNextQa && finishedQaId) ? nextQaId(finishedQaId) : null`
with `finishedQaId = player.mainQaId || player.qaId`. -/
def autoChainTarget (s : Session) : Option String :=
  let finishedQaId := if truthyId s.player.mainQaId = true then s.player.mainQaId else s.player.qaId
  if s.state.settings.forceReciteCheck = false ∧ s.state.settings.autoPlayNextQa = true ∧
      truthyId finishedQaId = true then
    match finishedQaId with
    | some id => nextQaId s.state id
    | none => none
  else none

/-- The auto-chain branch `if (nextId) { ... continue; }` once `nextQa` is found: switch the
current record, clear the recited text, reset the check state, load the plan. -/
def autoChain (s : Session) (nextId : String) (plan : List Step) : Session :=
  let s1 : Session := { s with state := { s.state with currentQaId := some nextId } }
  let s2 : Session := { s1 with inputRecited := "" }
  let s3 := resetCardCheck (resetReciteCheck s2)
  { s3 with
    player :=
      { s3.player with
        paused := false, qaId := some nextId, mainQaId := some nextId, steps := plan,
        stepIndex := 0, activeSentenceGlobalIndex := none, reviewMode := false } }

/-- The branch `if (!step) { ... }` of the loop: auto-chain to the next record, or end
the session.  It is `none` only if the plan builder does not return. -/
def planExhausted (s : Session) : Option (Session × LoopPc) :=
  match autoChainTarget s with
  | some nextId =>
    if nextId ≠ "" then
      match getQaById s.state nextId with
      | none => some (endSession s, LoopPc.exited)
      | some nextQa =>
        (buildPlayerStepsForQa { s.state with currentQaId := some nextId } nextQa).map
          fun plan => (autoChain s nextId plan, LoopPc.top)
    else some (endSession s, LoopPc.exited)
  | none => some (endSession s, LoopPc.exited)

/-- One pass of the body of `while (player.running)` from the loop test up to the next
`continue`, `return` or `await speak(..)`. -/
def loopTop (s : Session) : Option (Session × LoopPc) :=
  if s.player.running = false then some (s, LoopPc.exited)
  else if s.state.settings.ttsEnabled = false then some (stopTts (endSession s), LoopPc.exited)
  else if s.player.paused = true then some (s, LoopPc.top)
  else
    match s.player.steps[s.player.stepIndex]? with
    | none => planExhausted s
    | some step =>
      match getQaById s.state step.qaId with
      | none =>
        some ({ s with player := { s.player with stepIndex := s.player.stepIndex + 1 } },
          LoopPc.top)
      | some qa =>
        let s1 : Session :=
          { s with
            player :=
              { s.player with
                qaId := some qa.id, activeSentenceGlobalIndex := step.globalSentenceIndex,
                reviewMode := step.review } }
        some (speakStart s1 step.text, LoopPc.speaking s.player.stepIndex)

/-- The rest of the loop body once `await speak(step.text)` resolves. -/
def loopAfterSpeak (s : Session) (startIndex : Nat) : Session × LoopPc :=
  if s.player.running = false then (s, LoopPc.exited)
  else if s.player.paused = true then (s, LoopPc.top)
  else if s.player.stepIndex ≠ startIndex then (s, LoopPc.top)
  else ({ s with player := { s.player with stepIndex := s.player.stepIndex + 1 } }, LoopPc.top)

/-- An event of the scheduler: a user command or the loop running to its next suspension
point. -/
inductive Event where
  | pause : Event
  | resume : Event
  | loop : Event
deriving DecidableEq, Repr

/-- The step relation of the scheduler on a session and the place of the loop. -/
def stepEvent (e : Event) (c : Session × LoopPc) : Option (Session × LoopPc) :=
  match e with
  | Event.pause => some (pausePlayer c.1, c.2)
  | Event.resume => some (resumePlayer c.1, c.2)
  | Event.loop =>
    match c.2 with
    | LoopPc.top => loopTop c.1
    | LoopPc.speaking startIndex => some (loopAfterSpeak c.1 startIndex)
    | LoopPc.exited => some (c.1, LoopPc.exited)

/-- A sequence of events, in order. -/
def runEvents : List Event → Session × LoopPc → Option (Session × LoopPc)
  | [], c => some c
  | e :: es, c => (stepEvent e c).bind (runEvents es)

/-- The function `startPlayer()` up to the launch of the loop: `none` when it refuses to
start or the plan builder does not return. -/
def startPlayer (s : Session) : Option Session :=
  if s.state.settings.ttsEnabled = false then none
  else
    let s1 : Session :=
      match getCurrentQa s.state, s.state.qas with
      | none, q :: _ => { s with state := { s.state with currentQaId := some q.id } }
      | _, _ => s
    match getCurrentQa s1.state with
    | none => none
    | some qa =>
      (buildPlayerStepsForQa s1.state qa).map fun plan =>
        { s1 with
          player :=
            { s1.player with
              running := true, paused := false, qaId := some qa.id, mainQaId := some qa.id,
              stepIndex := 0, activeSentenceGlobalIndex := none, reviewMode := false,
              steps := plan } }

/-- A record whose answer has the four segments `a`, `!`, `a`, `?`. -/
def exampleQaFour : Qa := ⟨"q1", "Q1", "a!a?"⟩

/-- The default settings (threshold 0.65) with the record `exampleQaFour` as current. -/
def stateFourSegments : AppState where
  qas := [exampleQaFour]
  settings := defaultSettings
  currentQaId := some "q1"

/-- A record whose answer has forty one-character segments: twelve `a`, eleven commas and
seventeen exclamation marks. -/
def exampleQaForty : Qa := ⟨"q1", "Q1", "a,a,a,a,a,a,a,a,a,a,a,a!!!!!!!!!!!!!!!!!"⟩

/-- The default settings with the emoji `😀` (code point `0x1F600`, two code units) as
configured delimiter. -/
def stateAstralDelimiter : AppState where
  qas := [exampleQaFour]
  settings := { defaultSettings with sentenceDelimiters := "😀" }
  currentQaId := some "q1"

/-- The default settings (threshold 0.65) with the record `exampleQaForty` as current. -/
def stateFortySegments : AppState where
  qas := [exampleQaForty]
  settings := defaultSettings
  currentQaId := some "q1"

/-! ## Watchdog of `speak` -/

/-- The number of UTF-16 code units of a character: what it adds to `str.length`. -/
def utf16Units (c : Char) : Nat := if c.toNat < 0x10000 then 1 else 2

/-- The property `str.length` of a JavaScript string. -/
def jsLength (s : String) : Nat := (s.toList.map utf16Units).sum

/-- The speech rate of the settings, clamped, as an exact number: the value of
`clamp(Number(settings.rate) || 1, 0.5, 4)` before any rounding. -/
def effRate (st : AppState) : ℚ := clamp (numOr st.settings.rate 1) (1 / 2) 4

/-- The value read back from `u.rate` after `u.rate = clamp(Number(state.settings.rate) || 1,
0.5, 4)`. The setting becomes a double (`Number(..)`), is clamped, and is stored in the
utterance, which keeps `rateBits` significant bits: `24` where `rate` is the `float`
attribute of the Web Speech interface, `53` where the assigned double is kept. -/
def utteranceRate (rateBits : Nat) (st : AppState) : ℚ :=
  roundFloat rateBits (clamp (numOr (roundDouble st.settings.rate) 1) (1 / 2) 4)

/-- The value of `(t.length * 350) / Math.max(0.1, u.rate) + 1500` for a trimmed text of `n`
code units and the utterance rate `rate`: the product, the quotient and the sum are double
operations, `0.1` is the double nearest to one tenth. -/
def estDouble (n : Nat) (rate : ℚ) : ℚ :=
  roundDouble (roundDouble (roundDouble ((n : ℚ) * 350) / max (roundDouble (1 / 10)) rate) + 1500)

/-- The constant `estMs` of `speak` for a trimmed text of `n` code units and the utterance
rate `rate`: `Math.round((t.length * 350) / Math.max(0.1, u.rate) + 1500)`. -/
def estMs (n : Nat) (rate : ℚ) : Int := jsRound (estDouble n rate)

/-- The constant `watchdogMs` of `speak` : `clamp(estMs, 3000, 90000)`. -/
def watchdogMs (n : Nat) (rate : ℚ) : Int := clamp (estMs n rate) 3000 90000

/-- The delay of the watchdog timer that `speak(text)` arms: `none` when `speak` resolves
before arming one (blank text, speech switched off, no `speechSynthesis`). The utterance
keeps its rate with `rateBits` significant bits. -/
def speakWatchdog (rateBits : Nat) (s : Session) (text : String) : Option Int :=
  if jsTrim text = "" then none
  else if s.state.settings.ttsEnabled = false then none
  else if s.speechSupported = false then none
  else some (watchdogMs (jsLength (jsTrim text)) (utteranceRate rateBits s.state))

/-! ## Example sessions -/

/-- The idle player of a fresh page. -/
def idlePlayer : Player where
  running := false
  paused := false
  qaId := none
  mainQaId := none
  steps := []
  stepIndex := 0
  activeSentenceGlobalIndex := none
  speechUtterance := none
  reviewMode := false

/-- A fresh page on `exampleState` with some recited text typed in and a locked segment. -/
def exampleSession : Session where
  state := exampleState
  player := idlePlayer
  inputRecited := "s0 s1"
  reciteCheck :=
    { lockedSegments := [0], pointerSegment := 1, lastUtterance := "s0", maskMode := false,
      manualAuto := false }
  cardCheck := { enabled := false, flipped := false, index := 0 }
  maskShowAll := false
  speechSupported := true

/-- The session `exampleSession` after `startPlayer()` (the plan of `q1` loaded, cursor
at step 0, running). -/
def startedSession : Session := (startPlayer exampleSession).getD exampleSession

/-- The session `startedSession` once the loop has dispatched step 0 and waits in
`await speak(..)`. -/
def speakingSession : Session :=
  ((loopTop startedSession).getD (startedSession, LoopPc.top)).1

/-- The session `exampleSession` with the speech rate set to 1.12. -/
def sessionRateFast : Session :=
  { exampleSession with
    state := { exampleState with settings := { exampleState.settings with rate := 28 / 25 } } }

/-- A session on the state `st` whose plan for `q1` has been played to its end: running,
not paused, cursor behind the last step. -/
def sessionAtEnd (st : AppState) : Session where
  state := st
  player :=
    { idlePlayer with
      running := true, qaId := some "q1", mainQaId := some "q1",
      steps := [questionStep exampleQa1 false, fullReadAnswerStep exampleQa1 "after"],
      stepIndex := 2, speechUtterance := some "s0 s1 s2 s3 s4" }
  inputRecited := "s0 s1"
  reciteCheck :=
    { lockedSegments := [0], pointerSegment := 1, lastUtterance := "s0", maskMode := false,
      manualAuto := false }
  cardCheck := { enabled := false, flipped := false, index := 0 }
  maskShowAll := false
  speechSupported := true

/-- The state `exampleState` with `forceReciteCheck` and `autoPlayNextQa` both on. -/
def stateForceCheck : AppState :=
  { exampleState with
    settings := { exampleState.settings with forceReciteCheck := true, autoPlayNextQa := true } }

/-- The state `exampleState` with `autoPlayNextQa` on and `forceReciteCheck` off. -/
def stateAutoPlay : AppState :=
  { exampleState with
    settings := { exampleState.settings with forceReciteCheck := false, autoPlayNextQa := true } }

end Recite

namespace Recite

/-! ## Similarity scorer: `jsSet` is the set of distinct characters -/

theorem jsSet_fold_spec (xs : List Char) :
    ∀ acc : List Char, acc.Nodup →
      (xs.foldl (fun acc x => if x ∈ acc then acc else acc ++ [x]) acc).Nodup ∧
      ∀ c, c ∈ xs.foldl (fun acc x => if x ∈ acc then acc else acc ++ [x]) acc ↔
        c ∈ acc ∨ c ∈ xs := by
  induction xs with
  | nil => intro acc h; simp [h]
  | cons x xs ih =>
    intro acc h
    simp only [List.foldl_cons]
    by_cases hx : x ∈ acc
    · rw [if_pos hx]
      refine ⟨(ih acc h).1, fun c => ?_⟩
      rw [(ih acc h).2 c]
      constructor
      · rintro (h1 | h1)
        · exact Or.inl h1
        · exact Or.inr (List.mem_cons_of_mem _ h1)
      · rintro (h1 | h1)
        · exact Or.inl h1
        · rcases List.mem_cons.1 h1 with rfl | h2
          · exact Or.inl hx
          · exact Or.inr h2
    · rw [if_neg hx]
      have hnd : (acc ++ [x]).Nodup := by
        rw [List.nodup_append]
        refine ⟨h, List.nodup_singleton x, ?_⟩
        intro a ha hb
        rw [List.mem_singleton] at hb
        subst hb
        exact hx ha
      refine ⟨(ih _ hnd).1, fun c => ?_⟩
      rw [(ih _ hnd).2 c]
      simp only [List.mem_append, List.mem_singleton, List.mem_cons]
      tauto

theorem jsSet_nodup (xs : List Char) : (jsSet xs).Nodup :=
  (jsSet_fold_spec xs [] List.nodup_nil).1

theorem mem_jsSet (xs : List Char) (c : Char) : c ∈ jsSet xs ↔ c ∈ xs := by
  have h := (jsSet_fold_spec xs [] List.nodup_nil).2 c
  simpa [jsSet] using h

theorem jsSet_toFinset (xs : List Char) : (jsSet xs).toFinset = xs.toFinset := by
  ext c
  simp [mem_jsSet]

theorem jsSet_length (xs : List Char) : (jsSet xs).length = xs.toFinset.card := by
  rw [← jsSet_toFinset, List.toFinset_card_of_nodup (jsSet_nodup xs)]

theorem jsSet_inter_length (as bs : List Char) :
    (jsSet ((jsSet as).filter (fun x => decide (x ∈ jsSet bs)))).length =
      (as.toFinset ∩ bs.toFinset).card := by
  rw [jsSet_length]
  congr 1
  ext c
  simp [mem_jsSet]

theorem toList_ne_nil_of_ne_empty (a : String) (h : a ≠ "") : a.toList ≠ [] := by
  intro hnil
  apply h
  cases a with
  | mk data =>
    simp only [String.toList] at hnil
    subst hnil
    rfl

theorem card_pos_of_ne_empty (a : String) (h : a ≠ "") : 0 < a.toList.toFinset.card := by
  rw [Finset.card_pos]
  obtain ⟨c, cs, hc⟩ := List.exists_cons_of_ne_nil (toList_ne_nil_of_ne_empty a h)
  exact ⟨c, by rw [List.mem_toFinset, hc]; exact List.mem_cons_self c cs⟩

theorem diceSimilarity_eq (a b : String) :
    diceSimilarity a b =
      if a = "" ∨ b = "" then 0
      else (2 * ((a.toList.toFinset ∩ b.toList.toFinset).card : ℚ)) /
        ((a.toList.toFinset.card : ℚ) + (b.toList.toFinset.card : ℚ)) := by
  unfold diceSimilarity
  split
  · rfl
  · dsimp only
    rw [jsSet_inter_length, jsSet_length, jsSet_length]

/-- C6: `diceSimilarity(a,b)` is `0` when either string is empty (also for two empty
strings) and otherwise `2*|A∩B| / (|A|+|B|)` for the sets `A`, `B` of distinct characters
of `a` and `b`; when neither string is empty the denominator `|A|+|B|` is not zero. -/
theorem diceSimilarity_dice_coefficient (a b : String) :
    diceSimilarity a b =
        (if a = "" ∨ b = "" then 0
         else (2 * ((a.toList.toFinset ∩ b.toList.toFinset).card : ℚ)) /
           ((a.toList.toFinset.card : ℚ) + (b.toList.toFinset.card : ℚ))) ∧
      (a = "" ∨ b = "" ∨
        (a.toList.toFinset.card : ℚ) + (b.toList.toFinset.card : ℚ) ≠ 0) := by
  refine ⟨diceSimilarity_eq a b, ?_⟩
  by_cases ha : a = ""
  · exact Or.inl ha
  · right; right
    have h1 := card_pos_of_ne_empty a ha
    have h2 : (0 : ℚ) < (a.toList.toFinset.card : ℚ) := by exact_mod_cast h1
    have h3 : (0 : ℚ) ≤ (b.toList.toFinset.card : ℚ) := by positivity
    linarith

/-- C7: `diceSimilarity` is symmetric in its two arguments. -/
theorem diceSimilarity_symmetric (a b : String) :
    diceSimilarity a b = diceSimilarity b a := by
  rw [diceSimilarity_eq a b, diceSimilarity_eq b a]
  by_cases h : a = "" ∨ b = ""
  · rw [if_pos h, if_pos (Or.symm h)]
  · rw [if_neg h, if_neg (fun h2 => h (Or.symm h2)), Finset.inter_comm, add_comm]

/-- C8: the score lies in `[0, 1]` as an exact rational. -/
theorem diceSimilarity_unit_interval (a b : String) :
    0 ≤ diceSimilarity a b ∧ diceSimilarity a b ≤ 1 := by
  rw [diceSimilarity_eq a b]
  by_cases h : a = "" ∨ b = ""
  · rw [if_pos h]; exact ⟨le_refl _, zero_le_one⟩
  · rw [if_neg h]
    have h1 : (a.toList.toFinset ∩ b.toList.toFinset).card ≤ a.toList.toFinset.card :=
      Finset.card_le_card Finset.inter_subset_left
    have h2 : (a.toList.toFinset ∩ b.toList.toFinset).card ≤ b.toList.toFinset.card :=
      Finset.card_le_card Finset.inter_subset_right
    have h1q : ((a.toList.toFinset ∩ b.toList.toFinset).card : ℚ) ≤ a.toList.toFinset.card := by
      exact_mod_cast h1
    have h2q : ((a.toList.toFinset ∩ b.toList.toFinset).card : ℚ) ≤ b.toList.toFinset.card := by
      exact_mod_cast h2
    have hpos : (0 : ℚ) < (a.toList.toFinset.card : ℚ) + (b.toList.toFinset.card : ℚ) := by
      have := card_pos_of_ne_empty a (fun ha => h (Or.inl ha))
      have h3 : (0 : ℚ) < (a.toList.toFinset.card : ℚ) := by exact_mod_cast this
      have h4 : (0 : ℚ) ≤ (b.toList.toFinset.card : ℚ) := by positivity
      linarith
    constructor
    · positivity
    · rw [div_le_one hpos]; linarith

/-- C9: a non-empty string scores `1` against itself. -/
theorem diceSimilarity_self (a : String) (h : a ≠ "") : diceSimilarity a a = 1 := by
  rw [diceSimilarity_eq a a, if_neg (by simp [h]), Finset.inter_self]
  have := card_pos_of_ne_empty a h
  have h3 : (0 : ℚ) < (a.toList.toFinset.card : ℚ) := by exact_mod_cast this
  rw [div_eq_iff (by linarith)]
  ring

theorem diceSimilarity_self_witness : "背诵" ≠ "" ∧ diceSimilarity "背诵" "背诵" = 1 :=
  ⟨by decide, diceSimilarity_self "背诵" (by decide)⟩

/-! ## Loops as list comprehensions -/

theorem foldl_push_eq {α β : Type} (body : List β → α → List β) (f : α → List β)
    (h : ∀ acc a, body acc a = acc ++ f a) (l : List α) :
    ∀ init : List β, l.foldl body init = init ++ l.flatMap f := by
  induction l with
  | nil => intro init; simp
  | cons a l ih =>
    intro init
    rw [List.foldl_cons, h, ih, List.flatMap_cons, List.append_assoc]

theorem flatMap_singleton_map {α β : Type} (f : α → β) (l : List α) :
    l.flatMap (fun a => [f a]) = l.map f := by
  induction l with
  | nil => rfl
  | cons a l ih => rw [List.flatMap_cons, ih]; rfl

theorem flatMap_const_range {β : Type} (n : Nat) (l : List β) :
    (List.range n).flatMap (fun _ => l) = (List.replicate n l).flatten := by
  induction n with
  | zero => rfl
  | succ n ih =>
    rw [List.range_succ_eq_map, List.flatMap_cons, List.flatMap_map, ih]
    rfl

theorem map_getD_range (l : List String) :
    (List.range l.length).map (fun s => l.getD s "") = l := by
  apply List.ext_getElem
  · simp
  · intro n h1 h2
    simp only [List.getElem_map, List.getElem_range]
    exact List.getD_eq_getElem l "" h2

theorem groupSteps_eq (qa : Qa) (review : Bool) (groups : List (List String))
    (groupSize roundCount : Nat) :
    groupSteps qa review groups groupSize roundCount =
      (List.range groups.length).flatMap fun g =>
        (List.range roundCount).flatMap fun r =>
          (List.range (groups.getD g []).length).map fun s =>
            groupStep qa review groups groupSize roundCount g r s := by
  unfold groupSteps
  rw [foldl_push_eq _ (fun g => (List.range roundCount).flatMap fun r =>
          (List.range (groups.getD g []).length).map fun s =>
            groupStep qa review groups groupSize roundCount g r s)]
  · simp
  · intro acc g
    rw [foldl_push_eq _ (fun r => (List.range (groups.getD g []).length).map fun s =>
            groupStep qa review groups groupSize roundCount g r s)]
    intro acc r
    rw [foldl_push_eq _ (fun s => [groupStep qa review groups groupSize roundCount g r s]),
      flatMap_singleton_map]
    intro acc s
    rfl

/-! ## `chunk` returns the consecutive groups -/

theorem groupCountOf_step {α : Type} (n : Nat) (hn : 1 ≤ n) (xs : List α) (i : Nat)
    (hi : i < xs.length) :
    (xs.length - i + n - 1) / n = (xs.length - (i + n) + n - 1) / n + 1 := by
  by_cases h : i + n ≤ xs.length
  · have e : xs.length - i + n - 1 = (xs.length - (i + n) + n - 1) + n := by omega
    rw [e, Nat.add_div_right _ (by omega)]
  · have e : xs.length - (i + n) + n - 1 = n - 1 := by omega
    rw [e, Nat.div_eq_of_lt (by omega : n - 1 < n)]
    have e2 : xs.length - i + n - 1 = (xs.length - i - 1) + n := by omega
    rw [e2, Nat.add_div_right _ (by omega), Nat.div_eq_of_lt (by omega)]

theorem chunkLoop_eq {α : Type} (array : List α) (size : Nat) (hs : 1 ≤ size) :
    ∀ (fuel i : Nat) (chunks : List (List α)), 1 ≤ fuel → array.length + 1 ≤ i + fuel →
      chunkLoop array size fuel i chunks =
        some (chunks ++ (List.range ((array.length - i + size - 1) / size)).map
          (fun k => slice array (i + k * size) (i + k * size + size))) := by
  intro fuel
  induction fuel with
  | zero => intro i chunks h; omega
  | succ fuel ih =>
    intro i chunks _ hf
    unfold chunkLoop
    by_cases hi : i < array.length
    · rw [if_pos hi, ih (i + size) _ (by omega) (by omega), groupCountOf_step size hs array i hi,
        List.range_succ_eq_map, List.map_cons, List.map_map, List.append_assoc]
      congr 2
      simp only [List.singleton_append, Nat.zero_mul, Nat.add_zero, List.cons.injEq, true_and]
      apply List.map_congr_left
      intro k _
      simp only [Function.comp, Nat.succ_eq_add_one]
      have e : i + (k + 1) * size = i + size + k * size := by rw [Nat.succ_mul]; omega
      rw [e]
    · rw [if_neg hi]
      have e : (array.length - i + size - 1) / size = 0 :=
        Nat.div_eq_of_lt (by omega)
      rw [e]
      simp

theorem chunk_eq {α : Type} (array : List α) (size : Nat) (hs : 1 ≤ size) :
    chunk array size = some (consecutiveGroups size array) := by
  unfold chunk
  rw [chunkLoop_eq array size hs _ 0 [] (by omega) (by omega)]
  simp only [List.nil_append, Nat.sub_zero, Nat.zero_add, consecutiveGroups, groupCountOf]
  congr 1
  apply List.map_congr_left
  intro k _
  simp [slice, consecutiveGroup]

theorem consecutiveGroups_length {α : Type} (n : Nat) (xs : List α) :
    (consecutiveGroups n xs).length = groupCountOf n xs := by
  simp [consecutiveGroups]

theorem consecutiveGroups_getD {α : Type} (n : Nat) (xs : List α) (g : Nat)
    (hg : g < groupCountOf n xs) :
    (consecutiveGroups n xs).getD g [] = consecutiveGroup n xs g := by
  rw [List.getD_eq_getElem _ _ (by rw [consecutiveGroups_length]; exact hg)]
  simp [consecutiveGroups]

/-! ## `buildStepsForQa` -/

theorem groupSteps_map {β : Type} (qa : Qa) (review : Bool) (groups : List (List String))
    (groupSize roundCount : Nat) (proj : Step → β) (tag : Nat → Nat → String → β)
    (h : ∀ g r s, proj (groupStep qa review groups groupSize roundCount g r s) =
      tag g r ((groups.getD g []).getD s "")) :
    (groupSteps qa review groups groupSize roundCount).map proj =
      (List.range groups.length).flatMap fun g =>
        (List.range roundCount).flatMap fun r => (groups.getD g []).map (tag g r) := by
  rw [groupSteps_eq]
  simp only [List.map_flatMap, List.map_map]
  apply List.flatMap_congr
  intro g _
  apply List.flatMap_congr
  intro r _
  conv_rhs => rw [← map_getD_range (groups.getD g []), List.map_map]
  apply List.map_congr_left
  intro s _
  simp only [Function.comp, h]

theorem groupSteps_consecutive_map {β : Type} (qa : Qa) (review : Bool) (segs : List String)
    (n roundCount : Nat) (proj : Step → β) (tag : Nat → Nat → String → β)
    (h : ∀ g r s, proj (groupStep qa review (consecutiveGroups n segs) n roundCount g r s) =
      tag g r (((consecutiveGroups n segs).getD g []).getD s "")) :
    (groupSteps qa review (consecutiveGroups n segs) n roundCount).map proj =
      (List.range (groupCountOf n segs)).flatMap fun g =>
        (List.range roundCount).flatMap fun r => (consecutiveGroup n segs g).map (tag g r) := by
  rw [groupSteps_map qa review _ n roundCount proj tag h, consecutiveGroups_length]
  apply List.flatMap_congr
  intro g hg
  rw [consecutiveGroups_getD n segs g (List.mem_range.1 hg)]

theorem roundMajorTexts_eq (n rounds : Nat) (segs : List String) :
    roundMajorTexts n rounds segs =
      (List.range (groupCountOf n segs)).flatMap fun g =>
        (List.range rounds).flatMap fun _ => (consecutiveGroup n segs g).map (fun t => t) := by
  unfold roundMajorTexts consecutiveGroups
  rw [List.flatMap_map]
  apply List.flatMap_congr
  intro g _
  rw [List.map_id', flatMap_const_range]

theorem effGroupSize_of_range (st : AppState)
    (h : 1 ≤ st.settings.groupSize ∧ st.settings.groupSize ≤ 10) :
    effGroupSize st = st.settings.groupSize := by
  unfold effGroupSize numOr clamp
  rw [if_neg (by omega), max_eq_left h.1, min_eq_left h.2]

theorem effRoundCount_of_range (st : AppState)
    (h : 1 ≤ st.settings.repeatPerGroup ∧ st.settings.repeatPerGroup ≤ 20) :
    effRoundCount st = st.settings.repeatPerGroup := by
  unfold effRoundCount numOr clamp
  rw [if_neg (by omega), max_eq_left h.1, min_eq_left h.2]

theorem effGroupSize_bounds (st : AppState) : 1 ≤ effGroupSize st ∧ effGroupSize st ≤ 10 := by
  unfold effGroupSize clamp
  constructor
  · exact le_min (le_max_right _ _) (by norm_num)
  · exact min_le_right _ _

theorem effRoundCount_bounds (st : AppState) :
    1 ≤ effRoundCount st ∧ effRoundCount st ≤ 20 := by
  unfold effRoundCount clamp
  constructor
  · exact le_min (le_max_right _ _) (by norm_num)
  · exact min_le_right _ _

/-- The function `buildStepsForQa` always returns: the clamped group size is at least one. -/
theorem buildStepsForQa_eq (st : AppState) (qa : Qa) (review : Bool) :
    buildStepsForQa st qa review =
      some (groupSteps qa review
        (consecutiveGroups (effGroupSize st).toNat (splitSentences st qa.answerText))
        (effGroupSize st).toNat (effRoundCount st).toNat) := by
  unfold buildStepsForQa
  have h := (effGroupSize_bounds st).1
  dsimp only
  rw [chunk_eq _ _ (by omega)]
  rfl

/-- C1: with `groupSize` in 1..10 and `repeatPerGroup` in 1..20, `buildStepsForQa` (called
with `review: false`) returns steps whose texts are in round-major order: the consecutive
groups of `groupSize` segments in order, each group's segments repeated `repeatPerGroup`
times before the next group starts; the steps carry, in that same order, the group index
and the round they belong to, and every step has `review = false`. -/
theorem buildStepsForQa_round_major (st : AppState) (qa : Qa)
    (hg : 1 ≤ st.settings.groupSize ∧ st.settings.groupSize ≤ 10)
    (hr : 1 ≤ st.settings.repeatPerGroup ∧ st.settings.repeatPerGroup ≤ 20) :
    ∃ steps, buildStepsForQa st qa false = some steps ∧
      steps.map Step.text =
        roundMajorTexts st.settings.groupSize.toNat st.settings.repeatPerGroup.toNat
          (splitSentences st qa.answerText) ∧
      steps.map (fun s => (s.groupIndex, s.round, s.text)) =
        (roundMajorTagged st.settings.groupSize.toNat st.settings.repeatPerGroup.toNat
          (splitSentences st qa.answerText)).map
            (fun e => (some e.1, some e.2.1, e.2.2)) ∧
      ∀ s ∈ steps, s.review = false := by
  refine ⟨_, buildStepsForQa_eq st qa false, ?_, ?_, ?_⟩
  · rw [effGroupSize_of_range st hg, effRoundCount_of_range st hr, roundMajorTexts_eq]
    exact groupSteps_consecutive_map qa false _ _ _ Step.text (fun _ _ t => t)
      (fun _ _ _ => rfl)
  · rw [effGroupSize_of_range st hg, effRoundCount_of_range st hr]
    rw [groupSteps_consecutive_map qa false _ _ _ (fun s => (s.groupIndex, s.round, s.text))
      (fun g r t => (some g, some r, t)) (fun _ _ _ => rfl)]
    unfold roundMajorTagged
    simp only [List.map_flatMap, List.map_map]
    rfl
  · intro s hs
    rw [groupSteps_eq] at hs
    simp only [List.mem_flatMap, List.mem_map, List.mem_range] at hs
    obtain ⟨g, _, r, _, i, _, rfl⟩ := hs
    rfl

/-! ## `buildPlayerStepsForQa` -/

theorem fullReadSteps_eq (qa : Qa) (phase : String) (count : Nat) :
    fullReadSteps qa phase count =
      (List.replicate count
        [fullReadQuestionStep qa phase, fullReadAnswerStep qa phase]).flatten := by
  unfold fullReadSteps
  rw [foldl_push_eq _ (fun _ => [fullReadQuestionStep qa phase, fullReadAnswerStep qa phase]),
    flatMap_const_range]
  · rfl
  · intro acc _
    rw [List.append_assoc]
    rfl

theorem flatMap_ite_filter {α : Type} (p : α → Bool) (l : List α) :
    l.flatMap (fun a => if p a = true then [a] else []) = l.filter p := by
  induction l with
  | nil => rfl
  | cons a l ih =>
    rw [List.flatMap_cons, ih]
    by_cases h : p a = true
    · rw [if_pos h, List.filter_cons_of_pos h]; rfl
    · rw [if_neg h, List.filter_cons_of_neg h]; rfl

theorem reviewRounds_eq (reviewSteps : List Step) (c : Int) :
    reviewRounds reviewSteps c = reviewSteps.filter (roundBelow c) := by
  unfold reviewRounds
  rw [foldl_push_eq _ (fun s => if roundBelow c s = true then [s] else []), flatMap_ite_filter]
  · rfl
  · intro acc s
    unfold roundBelow
    cases s.round with
    | none => simp
    | some r =>
      by_cases h : (r : Int) < c
      · simp [h]
      · simp [h]

theorem groupSteps_review (qa : Qa) (groups : List (List String)) (groupSize roundCount : Nat) :
    groupSteps qa true groups groupSize roundCount =
      (groupSteps qa false groups groupSize roundCount).map markReview := by
  rw [groupSteps_eq, groupSteps_eq]
  simp only [List.map_flatMap, List.map_map]
  rfl

theorem roundBelow_markReview (c : Int) (s : Step) :
    roundBelow c (markReview s) = roundBelow c s := rfl

theorem filter_map_markReview (c : Int) (l : List Step) :
    (l.map markReview).filter (roundBelow c) = (l.filter (roundBelow c)).map markReview := by
  induction l with
  | nil => rfl
  | cons a l ih =>
    rw [List.map_cons]
    by_cases h : roundBelow c a = true
    · rw [List.filter_cons_of_pos (by rw [roundBelow_markReview]; exact h),
        List.filter_cons_of_pos h, ih, List.map_cons]
    · rw [List.filter_cons_of_neg (by rw [roundBelow_markReview]; exact h),
        List.filter_cons_of_neg h, ih]

theorem groupSteps_review_false (qa : Qa) (groups : List (List String))
    (groupSize roundCount : Nat) :
    ∀ s ∈ groupSteps qa false groups groupSize roundCount, s.review = false := by
  intro s hs
  rw [groupSteps_eq] at hs
  simp only [List.mem_flatMap, List.mem_map, List.mem_range] at hs
  obtain ⟨g, _, r, _, i, _, rfl⟩ := hs
  rfl

theorem groupSteps_round_some (qa : Qa) (review : Bool) (groups : List (List String))
    (groupSize roundCount : Nat) :
    ∀ s ∈ groupSteps qa review groups groupSize roundCount, ∃ r, s.round = some r := by
  intro s hs
  rw [groupSteps_eq] at hs
  simp only [List.mem_flatMap, List.mem_map, List.mem_range] at hs
  obtain ⟨g, _, r, _, i, _, rfl⟩ := hs
  exact ⟨r, rfl⟩

theorem fullReadSteps_review_false (qa : Qa) (phase : String) (count : Nat) :
    ∀ s ∈ fullReadSteps qa phase count, s.review = false ∧ s.round = none := by
  intro s hs
  rw [fullReadSteps_eq] at hs
  simp only [List.mem_flatten, List.mem_replicate] at hs
  obtain ⟨l, ⟨_, rfl⟩, hs⟩ := hs
  simp only [List.mem_cons, List.mem_singleton, List.not_mem_nil, or_false] at hs
  rcases hs with rfl | rfl
  · exact ⟨rfl, rfl⟩
  · exact ⟨rfl, rfl⟩

/-- The review tail always exists: it is empty, or the review question step followed by
the previous record's steps of the first rounds. -/
theorem reviewTail_isSome (st : AppState) (qa : Qa) : ∃ tail, reviewTail st qa = some tail := by
  unfold reviewTail
  split
  · exact ⟨_, rfl⟩
  · split
    · split
      · exact ⟨_, rfl⟩
      · rw [buildStepsForQa_eq]
        exact ⟨_, rfl⟩
    · exact ⟨_, rfl⟩

/-- The shape of every plan: full reads "before", the question step, the group/round
steps, full reads "after", the review tail. -/
theorem buildPlayerStepsForQa_shape (st : AppState) (qa : Qa) :
    ∃ tail, reviewTail st qa = some tail ∧
      buildPlayerStepsForQa st qa = some
        ((List.replicate (beforeCount st).toNat
            [fullReadQuestionStep qa "before", fullReadAnswerStep qa "before"]).flatten ++
          questionStep qa false ::
          groupSteps qa false
            (consecutiveGroups (effGroupSize st).toNat (splitSentences st qa.answerText))
            (effGroupSize st).toNat (effRoundCount st).toNat ++
          (List.replicate (afterCount st).toNat
            [fullReadQuestionStep qa "after", fullReadAnswerStep qa "after"]).flatten ++
          tail) := by
  obtain ⟨tail, ht⟩ := reviewTail_isSome st qa
  refine ⟨tail, ht, ?_⟩
  unfold buildPlayerStepsForQa
  rw [buildStepsForQa_eq, ht, fullReadSteps_eq, fullReadSteps_eq]
  simp

/-! ## Positional lookup of records -/

theorem findIndex_append {α : Type} (p : α → Bool) (pre : List α) (x : α) (rest : List α)
    (hpre : ∀ y ∈ pre, p y = false) (hx : p x = true) :
    findIndex p (pre ++ x :: rest) = some pre.length := by
  induction pre with
  | nil => simp [findIndex, hx]
  | cons y pre ih =>
    have hy : p y = false := hpre y (List.mem_cons_self y pre)
    have := ih (fun z hz => hpre z (List.mem_cons_of_mem y hz))
    simp [findIndex, hy, this]

theorem find?_append_cons {α : Type} (p : α → Bool) (pre : List α) (x : α) (rest : List α)
    (hpre : ∀ y ∈ pre, p y = false) (hx : p x = true) :
    (pre ++ x :: rest).find? p = some x := by
  induction pre with
  | nil => simp [hx]
  | cons y pre ih =>
    have hy : p y = false := hpre y (List.mem_cons_self y pre)
    have := ih (fun z hz => hpre z (List.mem_cons_of_mem y hz))
    simp [hy, this]

theorem ids_of_nodup (pre post : List Qa) (prev qa : Qa)
    (hn : ((pre ++ prev :: qa :: post).map Qa.id).Nodup) :
    (∀ y ∈ pre, y.id ≠ prev.id) ∧ (∀ y ∈ pre, y.id ≠ qa.id) ∧ prev.id ≠ qa.id := by
  rw [List.map_append, List.map_cons, List.map_cons, List.nodup_append] at hn
  obtain ⟨_, h2, h3⟩ := hn
  rw [List.nodup_cons] at h2
  refine ⟨?_, ?_, ?_⟩
  · intro y hy heq
    exact h3 (List.mem_map_of_mem Qa.id hy) (by rw [heq]; exact List.mem_cons_self _ _)
  · intro y hy heq
    exact h3 (List.mem_map_of_mem Qa.id hy)
      (by rw [heq]; exact List.mem_cons_of_mem _ (List.mem_cons_self _ _))
  · intro heq
    exact h2.1 (by rw [heq]; exact List.mem_cons_self _ _)

theorem prevQaId_adjacent (st : AppState) (pre post : List Qa) (prev qa : Qa)
    (hq : st.qas = pre ++ prev :: qa :: post) (hn : (st.qas.map Qa.id).Nodup) :
    prevQaId st qa.id = some prev.id := by
  rw [hq] at hn
  obtain ⟨_, h2, h3⟩ := ids_of_nodup pre post prev qa hn
  have e : pre ++ prev :: qa :: post = (pre ++ [prev]) ++ qa :: post := by simp
  have hfi : findIndex (fun q => decide (q.id = qa.id)) st.qas = some (pre.length + 1) := by
    rw [hq, e, findIndex_append _ (pre ++ [prev]) qa post]
    · simp
    · intro y hy
      rcases List.mem_append.1 hy with h | h
      · simpa using h2 y h
      · rw [List.mem_singleton] at h
        subst h
        simpa using h3
    · simp
  unfold prevQaId
  rw [hfi]
  show (st.qas[pre.length]?).map Qa.id = some prev.id
  rw [hq, List.getElem?_append_right (le_refl _)]
  simp

theorem getQaById_adjacent (st : AppState) (pre post : List Qa) (prev qa : Qa)
    (hq : st.qas = pre ++ prev :: qa :: post) (hn : (st.qas.map Qa.id).Nodup) :
    getQaById st prev.id = some prev := by
  rw [hq] at hn
  obtain ⟨h1, _, _⟩ := ids_of_nodup pre post prev qa hn
  unfold getQaById
  rw [hq, find?_append_cons]
  · intro y hy
    simpa using h1 y hy
  · simp

theorem reviewRepeatCount_of_range (st : AppState)
    (h : 1 ≤ st.settings.reviewPrevRepeatCount ∧ st.settings.reviewPrevRepeatCount ≤ 5) :
    reviewRepeatCount st = st.settings.reviewPrevRepeatCount := by
  unfold reviewRepeatCount numOr clamp
  rw [if_neg (by omega), max_eq_left h.1, min_eq_left h.2]

theorem roundBelow_iff (c : Int) (s : Step) :
    roundBelow c s = true ↔ ∃ r, s.round = some r ∧ (r : Int) < c := by
  unfold roundBelow
  cases s.round with
  | none => simp
  | some r => simp

/-- The review tail when a positionally previous record exists. -/
theorem reviewTail_adjacent (st : AppState) (pre post : List Qa) (prev qa : Qa)
    (hq : st.qas = pre ++ prev :: qa :: post) (hn : (st.qas.map Qa.id).Nodup)
    (hid : prev.id ≠ "") (hrev : st.settings.reviewPrevAfterEach = true) :
    reviewTail st qa = some (questionStep prev true ::
      ((groupSteps prev false
          (consecutiveGroups (effGroupSize st).toNat (splitSentences st prev.answerText))
          (effGroupSize st).toNat (effRoundCount st).toNat).filter
        (roundBelow (reviewRepeatCount st))).map markReview) := by
  unfold reviewTail
  rw [prevQaId_adjacent st pre post prev qa hq hn]
  simp only [hrev, ne_eq, hid, not_false_eq_true, and_self, if_true]
  rw [getQaById_adjacent st pre post prev qa hq hn]
  simp only [buildStepsForQa_eq, Option.map_some', reviewRounds_eq, groupSteps_review,
    filter_map_markReview]

/-- C2: for a record that has a positional predecessor `prev` in the record sequence (ids
pairwise distinct, the predecessor's id a non-empty string as `uid()` makes them), with
`reviewPrevAfterEach` on and `reviewPrevRepeatCount = c` in 1..5, the plan ends with the
review question step of `prev` followed by exactly the group/round steps of `prev` whose
round is below `c`, in their original order and all tagged `review = true`; no step
before the review question step is tagged `review = true`; with `c = 1` the review steps
are round-0 steps only. -/
theorem buildPlayerStepsForQa_review_tail (st : AppState) (pre post : List Qa) (prev qa : Qa)
    (hq : st.qas = pre ++ prev :: qa :: post) (hn : (st.qas.map Qa.id).Nodup)
    (hid : prev.id ≠ "") (hrev : st.settings.reviewPrevAfterEach = true)
    (hc : 1 ≤ st.settings.reviewPrevRepeatCount ∧ st.settings.reviewPrevRepeatCount ≤ 5) :
    ∃ head prevSteps reviewQuestion,
      buildStepsForQa st prev false = some prevSteps ∧
      buildPlayerStepsForQa st qa = some (head ++ reviewQuestion ::
        (prevSteps.filter (roundBelow st.settings.reviewPrevRepeatCount)).map markReview) ∧
      (∀ s ∈ head, s.review = false) ∧
      (reviewQuestion.qaId = prev.id ∧ reviewQuestion.text = prev.question ∧
        reviewQuestion.isQuestion = some true ∧ reviewQuestion.review = true ∧
        reviewQuestion.round = none) ∧
      (∀ s ∈ (prevSteps.filter (roundBelow st.settings.reviewPrevRepeatCount)).map markReview,
        s.review = true ∧ s.qaId = prev.id ∧
          ∃ r, s.round = some r ∧ (r : Int) < st.settings.reviewPrevRepeatCount) ∧
      (∀ s ∈ prevSteps, (∃ r, s.round = some r) ∧
        (roundBelow st.settings.reviewPrevRepeatCount s = true ↔
          ∃ r, s.round = some r ∧ (r : Int) < st.settings.reviewPrevRepeatCount)) ∧
      (st.settings.reviewPrevRepeatCount = 1 →
        ∀ s ∈ (prevSteps.filter (roundBelow st.settings.reviewPrevRepeatCount)).map markReview,
          s.round = some 0) := by
  obtain ⟨tail, ht, hplan⟩ := buildPlayerStepsForQa_shape st qa
  rw [reviewTail_adjacent st pre post prev qa hq hn hid hrev, Option.some.injEq] at ht
  subst ht
  rw [reviewRepeatCount_of_range st hc] at hplan
  have hmem : ∀ s ∈ ((groupSteps prev false
          (consecutiveGroups (effGroupSize st).toNat (splitSentences st prev.answerText))
          (effGroupSize st).toNat (effRoundCount st).toNat).filter
        (roundBelow st.settings.reviewPrevRepeatCount)).map markReview,
        s.review = true ∧ s.qaId = prev.id ∧
          ∃ r, s.round = some r ∧ (r : Int) < st.settings.reviewPrevRepeatCount := by
    intro s hs
    rw [List.mem_map] at hs
    obtain ⟨t, ht, rfl⟩ := hs
    rw [List.mem_filter] at ht
    refine ⟨rfl, ?_, (roundBelow_iff _ t).1 ht.2⟩
    have h1 := ht.1
    rw [groupSteps_eq] at h1
    simp only [List.mem_flatMap, List.mem_map, List.mem_range] at h1
    obtain ⟨g, _, r, _, i, _, rfl⟩ := h1
    rfl
  refine ⟨(List.replicate (beforeCount st).toNat
        [fullReadQuestionStep qa "before", fullReadAnswerStep qa "before"]).flatten ++
      questionStep qa false ::
      (groupSteps qa false
        (consecutiveGroups (effGroupSize st).toNat (splitSentences st qa.answerText))
        (effGroupSize st).toNat (effRoundCount st).toNat ++
      (List.replicate (afterCount st).toNat
        [fullReadQuestionStep qa "after", fullReadAnswerStep qa "after"]).flatten),
    _, questionStep prev true, buildStepsForQa_eq st prev false, ?_, ?_,
    ⟨rfl, rfl, rfl, rfl, rfl⟩, hmem, ?_, ?_⟩
  · rw [hplan]
    simp only [List.append_assoc, List.cons_append]
  · intro s hs
    rcases List.mem_append.1 hs with h | h
    · rw [← fullReadSteps_eq] at h
      exact (fullReadSteps_review_false qa "before" _ s h).1
    · rcases List.mem_cons.1 h with rfl | h
      · rfl
      · rcases List.mem_append.1 h with h | h
        · exact groupSteps_review_false qa _ _ _ s h
        · rw [← fullReadSteps_eq] at h
          exact (fullReadSteps_review_false qa "after" _ s h).1
  · intro s hs
    exact ⟨groupSteps_round_some prev false _ _ _ s hs, roundBelow_iff _ s⟩
  · intro h1 s hs
    obtain ⟨_, _, r, hr, hlt⟩ := hmem s hs
    rw [h1] at hlt
    have : r = 0 := by omega
    rw [hr, this]

theorem buildStepsForQa_round_major_witness :
    (1 ≤ exampleState.settings.groupSize ∧ exampleState.settings.groupSize ≤ 10) ∧
    (1 ≤ exampleState.settings.repeatPerGroup ∧ exampleState.settings.repeatPerGroup ≤ 20) ∧
    ∃ steps, buildStepsForQa exampleState exampleQa1 false = some steps ∧
      steps.map Step.text =
        roundMajorTexts exampleState.settings.groupSize.toNat
          exampleState.settings.repeatPerGroup.toNat
          (splitSentences exampleState exampleQa1.answerText) ∧
      steps.map (fun s => (s.groupIndex, s.round, s.text)) =
        (roundMajorTagged exampleState.settings.groupSize.toNat
          exampleState.settings.repeatPerGroup.toNat
          (splitSentences exampleState exampleQa1.answerText)).map
            (fun e => (some e.1, some e.2.1, e.2.2)) ∧
      ∀ s ∈ steps, s.review = false :=
  ⟨by decide, by decide,
    buildStepsForQa_round_major exampleState exampleQa1 (by decide) (by decide)⟩

/-- The ordering example of the specification, evaluated: five segments, `groupSize = 3`,
`repeatPerGroup = 2`. -/
theorem buildStepsForQa_example :
    splitSentences exampleState exampleQa1.answerText = ["s0", "s1", "s2", "s3", "s4"] ∧
    roundMajorTexts 3 2 ["s0", "s1", "s2", "s3", "s4"] =
      ["s0", "s1", "s2", "s0", "s1", "s2", "s3", "s4", "s3", "s4"] ∧
    (buildStepsForQa exampleState exampleQa1 false).map (fun steps => steps.map Step.text) =
      some ["s0", "s1", "s2", "s0", "s1", "s2", "s3", "s4", "s3", "s4"] := by
  refine ⟨?_, ?_, ?_⟩ <;> decide

theorem buildPlayerStepsForQa_review_tail_witness :
    exampleState.qas = [] ++ exampleQa1 :: exampleQa2 :: [] ∧
    (exampleState.qas.map Qa.id).Nodup ∧ exampleQa1.id ≠ "" ∧
    exampleState.settings.reviewPrevAfterEach = true ∧
    (1 ≤ exampleState.settings.reviewPrevRepeatCount ∧
      exampleState.settings.reviewPrevRepeatCount ≤ 5) ∧
    ∃ head prevSteps reviewQuestion,
      buildStepsForQa exampleState exampleQa1 false = some prevSteps ∧
      buildPlayerStepsForQa exampleState exampleQa2 = some (head ++ reviewQuestion ::
        (prevSteps.filter
          (roundBelow exampleState.settings.reviewPrevRepeatCount)).map markReview) ∧
      (∀ s ∈ head, s.review = false) ∧
      (reviewQuestion.qaId = exampleQa1.id ∧ reviewQuestion.text = exampleQa1.question ∧
        reviewQuestion.isQuestion = some true ∧ reviewQuestion.review = true ∧
        reviewQuestion.round = none) ∧
      (∀ s ∈ (prevSteps.filter
          (roundBelow exampleState.settings.reviewPrevRepeatCount)).map markReview,
        s.review = true ∧ s.qaId = exampleQa1.id ∧
          ∃ r, s.round = some r ∧ (r : Int) < exampleState.settings.reviewPrevRepeatCount) ∧
      (∀ s ∈ prevSteps, (∃ r, s.round = some r) ∧
        (roundBelow exampleState.settings.reviewPrevRepeatCount s = true ↔
          ∃ r, s.round = some r ∧ (r : Int) < exampleState.settings.reviewPrevRepeatCount)) ∧
      (exampleState.settings.reviewPrevRepeatCount = 1 →
        ∀ s ∈ (prevSteps.filter
            (roundBelow exampleState.settings.reviewPrevRepeatCount)).map markReview,
          s.round = some 0) :=
  ⟨rfl, by decide, by decide, rfl, by decide,
    buildPlayerStepsForQa_review_tail exampleState [] [] exampleQa1 exampleQa2 rfl
      (by decide) (by decide) rfl (by decide)⟩

/-- The review example of the specification, evaluated: the plan of the second record
(text, review flag, round of every step). -/
theorem buildPlayerStepsForQa_example :
    (buildPlayerStepsForQa exampleState exampleQa2).map
        (fun steps => steps.map (fun s => (s.text, s.review, s.round))) =
      some [("Q2", false, none), ("t0 t1", false, none), ("Q2", false, none),
        ("t0", false, some 0), ("t1", false, some 0), ("t0", false, some 1),
        ("t1", false, some 1), ("Q2", false, none), ("t0 t1", false, none),
        ("Q1", true, none), ("s0", true, some 0), ("s1", true, some 0), ("s2", true, some 0),
        ("s3", true, some 0), ("s4", true, some 0)] := by
  decide

theorem beforeCount_of_range (st : AppState)
    (h : 1 ≤ st.settings.fullReadBeforeGroups ∧ st.settings.fullReadBeforeGroups ≤ 5) :
    beforeCount st = st.settings.fullReadBeforeGroups := by
  unfold beforeCount numOr clamp
  rw [if_neg (by omega), max_eq_left (by omega), min_eq_left h.2]

theorem afterCount_of_range (st : AppState)
    (h : 1 ≤ st.settings.fullReadAfterGroups ∧ st.settings.fullReadAfterGroups ≤ 5) :
    afterCount st = st.settings.fullReadAfterGroups := by
  unfold afterCount numOr clamp
  rw [if_neg (by omega), max_eq_left (by omega), min_eq_left h.2]

/-- A stored `fullReadBeforeGroups` of `0` is read as `1`. -/
theorem beforeCount_of_zero (st : AppState) (h : st.settings.fullReadBeforeGroups = 0) :
    beforeCount st = 1 := by
  unfold beforeCount numOr clamp
  rw [if_pos h]
  decide

/-- A stored `fullReadAfterGroups` of `0` is read as `1`. -/
theorem afterCount_of_zero (st : AppState) (h : st.settings.fullReadAfterGroups = 0) :
    afterCount st = 1 := by
  unfold afterCount numOr clamp
  rw [if_pos h]
  decide

/-- C3: with `fullReadBeforeGroups = 1` the plan of any record starts with the question
text and the full answer text, both full-read steps of phase "before", then the
question-announcement step (a question step that is not a full read); none of these three
is a group/round step, and the group/round steps of the record follow directly. -/
theorem buildPlayerStepsForQa_full_read_before_one (st : AppState) (qa : Qa)
    (h : st.settings.fullReadBeforeGroups = 1) :
    ∃ s0 s1 s2 mainSteps rest,
      buildPlayerStepsForQa st qa = some (s0 :: s1 :: s2 :: (mainSteps ++ rest)) ∧
      buildStepsForQa st qa false = some mainSteps ∧
      (s0.text = qa.question ∧ s0.isFullRead = some true ∧ s0.fullReadType = some "before" ∧
        s0.round = none) ∧
      (s1.text = qa.answerText ∧ s1.isFullRead = some true ∧
        s1.fullReadType = some "before" ∧ s1.round = none) ∧
      (s2.text = qa.question ∧ s2.isQuestion = some true ∧ s2.isFullRead = none ∧
        s2.fullReadType = none ∧ s2.round = none) ∧
      ∀ s ∈ mainSteps, ∃ r, s.round = some r := by
  obtain ⟨tail, _, hplan⟩ := buildPlayerStepsForQa_shape st qa
  rw [beforeCount_of_range st (by omega), h] at hplan
  refine ⟨fullReadQuestionStep qa "before", fullReadAnswerStep qa "before",
    questionStep qa false, _,
    (List.replicate (afterCount st).toNat
      [fullReadQuestionStep qa "after", fullReadAnswerStep qa "after"]).flatten ++ tail,
    ?_, buildStepsForQa_eq st qa false,
    ⟨rfl, rfl, rfl, rfl⟩, ⟨rfl, rfl, rfl, rfl⟩, ⟨rfl, rfl, rfl, rfl, rfl⟩,
    groupSteps_round_some qa false _ _ _⟩
  rw [hplan]
  simp only [Int.toNat_one, List.replicate_one, List.flatten_cons, List.flatten_nil,
    List.append_nil, List.cons_append, List.nil_append, List.append_assoc]

theorem buildPlayerStepsForQa_full_read_before_one_witness :
    exampleState.settings.fullReadBeforeGroups = 1 ∧
    ∃ s0 s1 s2 mainSteps rest,
      buildPlayerStepsForQa exampleState exampleQa1 =
        some (s0 :: s1 :: s2 :: (mainSteps ++ rest)) ∧
      buildStepsForQa exampleState exampleQa1 false = some mainSteps ∧
      (s0.text = exampleQa1.question ∧ s0.isFullRead = some true ∧
        s0.fullReadType = some "before" ∧ s0.round = none) ∧
      (s1.text = exampleQa1.answerText ∧ s1.isFullRead = some true ∧
        s1.fullReadType = some "before" ∧ s1.round = none) ∧
      (s2.text = exampleQa1.question ∧ s2.isQuestion = some true ∧ s2.isFullRead = none ∧
        s2.fullReadType = none ∧ s2.round = none) ∧
      ∀ s ∈ mainSteps, ∃ r, s.round = some r :=
  ⟨rfl, buildPlayerStepsForQa_full_read_before_one exampleState exampleQa1 rfl⟩

/-- For `fullReadBeforeGroups = k` in 1..5 the plan begins with exactly `k` pairs
(question, full answer) of "before" full reads, directly followed by the
question-announcement step and the group/round steps. -/
theorem buildPlayerStepsForQa_before_pairs (st : AppState) (qa : Qa)
    (h : 1 ≤ st.settings.fullReadBeforeGroups ∧ st.settings.fullReadBeforeGroups ≤ 5) :
    ∃ mainSteps rest, buildStepsForQa st qa false = some mainSteps ∧
      buildPlayerStepsForQa st qa = some
        ((List.replicate st.settings.fullReadBeforeGroups.toNat
            [fullReadQuestionStep qa "before", fullReadAnswerStep qa "before"]).flatten ++
          questionStep qa false :: (mainSteps ++ rest)) := by
  obtain ⟨tail, _, hplan⟩ := buildPlayerStepsForQa_shape st qa
  rw [beforeCount_of_range st h] at hplan
  refine ⟨_, (List.replicate (afterCount st).toNat
      [fullReadQuestionStep qa "after", fullReadAnswerStep qa "after"]).flatten ++ tail,
    buildStepsForQa_eq st qa false, ?_⟩
  rw [hplan]
  simp only [List.append_assoc, List.cons_append]

theorem buildPlayerStepsForQa_before_pairs_example :
    (1 ≤ exampleState.settings.fullReadBeforeGroups ∧
      exampleState.settings.fullReadBeforeGroups ≤ 5) ∧
    ∃ mainSteps rest, buildStepsForQa exampleState exampleQa1 false = some mainSteps ∧
      buildPlayerStepsForQa exampleState exampleQa1 = some
        ((List.replicate exampleState.settings.fullReadBeforeGroups.toNat
            [fullReadQuestionStep exampleQa1 "before",
              fullReadAnswerStep exampleQa1 "before"]).flatten ++
          questionStep exampleQa1 false :: (mainSteps ++ rest)) :=
  ⟨by decide, buildPlayerStepsForQa_before_pairs exampleState exampleQa1 (by decide)⟩

/-- For `fullReadAfterGroups = k` in 1..5 the plan has exactly `k` pairs (question, full
answer) of "after" full reads, right after the group/round steps and before the review
tail. -/
theorem buildPlayerStepsForQa_after_pairs (st : AppState) (qa : Qa)
    (h : 1 ≤ st.settings.fullReadAfterGroups ∧ st.settings.fullReadAfterGroups ≤ 5) :
    ∃ head mainSteps tail, buildStepsForQa st qa false = some mainSteps ∧
      reviewTail st qa = some tail ∧
      buildPlayerStepsForQa st qa = some
        (head ++ mainSteps ++
          (List.replicate st.settings.fullReadAfterGroups.toNat
            [fullReadQuestionStep qa "after", fullReadAnswerStep qa "after"]).flatten ++
          tail) := by
  obtain ⟨tail, ht, hplan⟩ := buildPlayerStepsForQa_shape st qa
  rw [afterCount_of_range st h] at hplan
  refine ⟨(List.replicate (beforeCount st).toNat
      [fullReadQuestionStep qa "before", fullReadAnswerStep qa "before"]).flatten ++
      [questionStep qa false], _, tail, buildStepsForQa_eq st qa false, ht, ?_⟩
  rw [hplan]
  simp only [List.append_assoc, List.cons_append, List.singleton_append, List.nil_append]

theorem buildPlayerStepsForQa_after_pairs_example :
    (1 ≤ exampleState.settings.fullReadAfterGroups ∧
      exampleState.settings.fullReadAfterGroups ≤ 5) ∧
    ∃ head mainSteps tail, buildStepsForQa exampleState exampleQa1 false = some mainSteps ∧
      reviewTail exampleState exampleQa1 = some tail ∧
      buildPlayerStepsForQa exampleState exampleQa1 = some
        (head ++ mainSteps ++
          (List.replicate exampleState.settings.fullReadAfterGroups.toNat
            [fullReadQuestionStep exampleQa1 "after",
              fullReadAnswerStep exampleQa1 "after"]).flatten ++
          tail) :=
  ⟨by decide, buildPlayerStepsForQa_after_pairs exampleState exampleQa1 (by decide)⟩

/-- C4, at `fullReadBeforeGroups = 0`: the stored value lies in the declared range 0..5,
yet the plan does not start with the question-announcement step; it starts with one
(question, full answer) pair of "before" full reads, as for the value `1`.  The listing
gives text, `isFullRead`, `fullReadType` and round of every step of the plan. -/
theorem buildPlayerStepsForQa_before_zero :
    stateBeforeZero.settings.fullReadBeforeGroups = 0 ∧
    beforeCount stateBeforeZero = 1 ∧
    (buildPlayerStepsForQa stateBeforeZero exampleQaAb).map
        (fun steps => steps.map (fun s => (s.text, s.isFullRead, s.fullReadType, s.round))) =
      some [("Q1", some true, some "before", none), ("ab", some true, some "before", none),
        ("Q1", none, none, none),
        ("ab", none, none, some 0), ("ab", none, none, some 1),
        ("ab", none, none, some 2), ("ab", none, none, some 3),
        ("Q1", some true, some "after", none), ("ab", some true, some "after", none)] := by
  refine ⟨rfl, ?_, ?_⟩ <;> decide

/-- C5, at `fullReadAfterGroups = 0`: the stored value lies in the declared range 0..5,
yet the plan contains one (question, full answer) pair of "after" full reads right after
the last group/round step, as for the value `1`.  The listing gives text, `isFullRead`,
`fullReadType` and round of every step of the plan. -/
theorem buildPlayerStepsForQa_after_zero :
    stateAfterZero.settings.fullReadAfterGroups = 0 ∧
    afterCount stateAfterZero = 1 ∧
    (buildPlayerStepsForQa stateAfterZero exampleQaAb).map
        (fun steps => steps.map (fun s => (s.text, s.isFullRead, s.fullReadType, s.round))) =
      some [("Q1", some true, some "before", none), ("ab", some true, some "before", none),
        ("Q1", none, none, none),
        ("ab", none, none, some 0), ("ab", none, none, some 1),
        ("ab", none, none, some 2), ("ab", none, none, some 3),
        ("Q1", some true, some "after", none), ("ab", some true, some "after", none)] := by
  refine ⟨rfl, ?_, ?_⟩ <;> decide

/-! ## Recitation checker -/

theorem effThreshold_of_range (st : AppState)
    (h : 0 < st.settings.threshold ∧ st.settings.threshold ≤ 1) :
    effThreshold st = st.settings.threshold := by
  unfold effThreshold numOr clamp
  rw [if_neg (ne_of_gt h.1), max_eq_left (le_of_lt h.1), min_eq_left h.2]

/-- A stored `threshold` of `0` is read as `0.65`. -/
theorem effThreshold_of_zero (st : AppState) (h : st.settings.threshold = 0) :
    effThreshold st = 65 / 100 := by
  unfold effThreshold numOr clamp
  rw [if_pos h, max_eq_left (by norm_num), min_eq_left (by norm_num)]

theorem ne_empty_of_jsTrim_ne_empty (recited : String) (h : jsTrim recited ≠ "") :
    recited ≠ "" := by
  intro he
  apply h
  rw [he]
  decide

/-- For a non-blank recited text and a current record, the marks are computed, one per
segment, and each is the comparison of the segment's score against the whole recited
text with the threshold in use. -/
theorem segmentMarks_eq (st : AppState) (qa : Qa) (recited : String)
    (hq : getCurrentQa st = some qa) (hr : jsTrim recited ≠ "") :
    segmentMarks st recited =
      some ((splitSentences st qa.answerText).map
        (fun s => decide (effThreshold st ≤ diceSimilarity recited s))) := by
  unfold segmentMarks
  rw [hq]
  simp only [ne_empty_of_jsTrim_ne_empty recited hr, if_false]
  congr 1
  apply List.map_congr_left
  intro s _
  unfold segmentHit
  simp [ne_empty_of_jsTrim_ne_empty recited hr]

/-- For a stored threshold `t` with `0 < t ≤ 1`, segment `i` is marked a hit exactly when
`diceSimilarity(recited, segment i) ≥ t`. -/
theorem segmentMarks_threshold (st : AppState) (qa : Qa) (recited : String)
    (hq : getCurrentQa st = some qa) (hr : jsTrim recited ≠ "")
    (ht : 0 < st.settings.threshold ∧ st.settings.threshold ≤ 1) :
    ∃ marks, segmentMarks st recited = some marks ∧
      marks.length = (splitSentences st qa.answerText).length ∧
      ∀ (i : Nat) (seg : String), (splitSentences st qa.answerText)[i]? = some seg →
        (marks[i]? = some true ↔ st.settings.threshold ≤ diceSimilarity recited seg) := by
  refine ⟨_, segmentMarks_eq st qa recited hq hr, by simp, ?_⟩
  intro i seg hseg
  rw [effThreshold_of_range st ht, List.getElem?_map, hseg]
  simp

theorem segmentMarks_threshold_example :
    getCurrentQa exampleState = some exampleQa1 ∧ jsTrim "s1 s0" ≠ "" ∧
    (0 < exampleState.settings.threshold ∧ exampleState.settings.threshold ≤ 1) ∧
    ∃ marks, segmentMarks exampleState "s1 s0" = some marks ∧
      marks.length = (splitSentences exampleState exampleQa1.answerText).length ∧
      ∀ (i : Nat) (seg : String),
        (splitSentences exampleState exampleQa1.answerText)[i]? = some seg →
        (marks[i]? = some true ↔
          exampleState.settings.threshold ≤ diceSimilarity "s1 s0" seg) :=
  ⟨by decide, by decide, ⟨by norm_num [exampleState, defaultSettings],
      by norm_num [exampleState, defaultSettings]⟩,
    segmentMarks_threshold exampleState exampleQa1 "s1 s0" (by decide) (by decide)
      ⟨by norm_num [exampleState, defaultSettings],
        by norm_num [exampleState, defaultSettings]⟩⟩

theorem diceSimilarity_cd_ab : diceSimilarity "cd" "ab" = 0 := by
  rw [diceSimilarity_eq, if_neg (by decide)]
  have h : ("cd".toList.toFinset ∩ "ab".toList.toFinset).card = 0 := by decide
  rw [h]
  simp

/-- C10, at `threshold = 0`: the stored value lies in the declared range [0,1] and the
only segment `ab` scores `0 ≥ 0` against the recited text `cd`, yet the segment is marked
a miss and no hit is counted, because the checker compares with `0.65`. -/
theorem segmentMarks_threshold_zero :
    stateThresholdZero.settings.threshold = 0 ∧
    splitSentences stateThresholdZero exampleQaAb.answerText = ["ab"] ∧
    stateThresholdZero.settings.threshold ≤ diceSimilarity "cd" "ab" ∧
    effThreshold stateThresholdZero = 65 / 100 ∧
    segmentMarks stateThresholdZero "cd" = some [false] ∧
    matchHits stateThresholdZero exampleQaAb "cd" = 0 := by
  have hsplit : splitSentences stateThresholdZero exampleQaAb.answerText = ["ab"] := by decide
  have hthr : effThreshold stateThresholdZero = 65 / 100 :=
    effThreshold_of_zero stateThresholdZero rfl
  refine ⟨rfl, hsplit, ?_, hthr, ?_, ?_⟩
  · rw [diceSimilarity_cd_ab]
    exact le_of_eq rfl
  · rw [segmentMarks_eq stateThresholdZero exampleQaAb "cd" (by decide) (by decide),
      hsplit, hthr]
    simp only [List.map_cons, List.map_nil, diceSimilarity_cd_ab]
    norm_num
  · unfold matchHits matchScores
    rw [hsplit, hthr]
    simp only [List.map_cons, List.map_nil, diceSimilarity_cd_ab]
    norm_num

/-! ## Floating-point rounding -/

theorem roundNearestEven_cases (y : ℚ) :
    roundNearestEven y = ⌊y⌋ ∧ y - ⌊y⌋ ≤ 1 / 2 ∨
      roundNearestEven y = ⌊y⌋ + 1 ∧ 1 / 2 ≤ y - ⌊y⌋ := by
  unfold roundNearestEven
  by_cases h1 : y - ⌊y⌋ < 1 / 2
  · left; rw [if_pos h1]; exact ⟨rfl, le_of_lt h1⟩
  · rw [if_neg h1]
    by_cases h2 : 1 / 2 < y - ⌊y⌋
    · right; rw [if_pos h2]; exact ⟨rfl, le_of_lt h2⟩
    · rw [if_neg h2]
      have he : y - ⌊y⌋ = 1 / 2 := le_antisymm (not_lt.1 h2) (not_lt.1 h1)
      by_cases h3 : ⌊y⌋ % 2 = 0
      · left; rw [if_pos h3]; exact ⟨rfl, le_of_eq he⟩
      · right; rw [if_neg h3]; exact ⟨rfl, le_of_eq he.symm⟩

theorem roundNearestEven_bracket (y : ℚ) :
    (roundNearestEven y : ℚ) - 1 / 2 ≤ y ∧ y ≤ (roundNearestEven y : ℚ) + 1 / 2 := by
  have hf1 := Int.floor_le y
  have hf2 := Int.lt_floor_add_one y
  rcases roundNearestEven_cases y with ⟨h, hd⟩ | ⟨h, hd⟩
  · rw [h]; constructor <;> linarith
  · rw [h]; push_cast; constructor <;> linarith

theorem roundNearestEven_intCast (n : Int) : roundNearestEven (n : ℚ) = n := by
  unfold roundNearestEven
  rw [Int.floor_intCast]
  simp

theorem roundNearestEven_mono (y₁ y₂ : ℚ) (h : y₁ ≤ y₂) :
    roundNearestEven y₁ ≤ roundNearestEven y₂ := by
  have hfl : ⌊y₁⌋ ≤ ⌊y₂⌋ := Int.floor_le_floor h
  rcases lt_or_eq_of_le hfl with hlt | heq
  · rcases roundNearestEven_cases y₁ with ⟨h1, _⟩ | ⟨h1, _⟩ <;>
    rcases roundNearestEven_cases y₂ with ⟨h2, _⟩ | ⟨h2, _⟩ <;> omega
  · unfold roundNearestEven
    rw [← heq]
    have hd : y₁ - ⌊y₁⌋ ≤ y₂ - ⌊y₁⌋ := by linarith
    by_cases a1 : y₁ - ⌊y₁⌋ < 1 / 2
    · rw [if_pos a1]
      split_ifs <;> omega
    · rw [if_neg a1]
      have b1 : ¬ (y₂ - ⌊y₁⌋ < 1 / 2) := by
        intro hh; exact a1 (lt_of_le_of_lt hd hh)
      rw [if_neg b1]
      by_cases a2 : 1 / 2 < y₁ - ⌊y₁⌋
      · have b2 : 1 / 2 < y₂ - ⌊y₁⌋ := lt_of_lt_of_le a2 hd
        rw [if_pos a2, if_pos b2]
      · rw [if_neg a2]
        split_ifs <;> omega

theorem roundNearestEven_le_of_le (y : ℚ) (n : Int) (h : y ≤ n) : roundNearestEven y ≤ n := by
  have := roundNearestEven_mono y n h
  rwa [roundNearestEven_intCast] at this

theorem le_roundNearestEven_of_le (y : ℚ) (n : Int) (h : (n : ℚ) ≤ y) :
    n ≤ roundNearestEven y := by
  have := roundNearestEven_mono n y h
  rwa [roundNearestEven_intCast] at this

theorem roundNearestEven_eq_of_lt (y : ℚ) (n : Int) (h1 : (n : ℚ) - 1 / 2 < y)
    (h2 : y < (n : ℚ) + 1 / 2) : roundNearestEven y = n := by
  obtain ⟨b1, b2⟩ := roundNearestEven_bracket y
  have c1 : ((roundNearestEven y : Int) : ℚ) < n + 1 := by linarith
  have c2 : (n : ℚ) < (roundNearestEven y : ℚ) + 1 := by linarith
  have d1 : roundNearestEven y < n + 1 := by exact_mod_cast c1
  have d2 : n < roundNearestEven y + 1 := by exact_mod_cast c2
  omega

theorem two_zpow_pos (k : Int) : (0 : ℚ) < (2 : ℚ) ^ k := zpow_pos (by norm_num) k

theorem log_bounds (x : ℚ) (hx : 0 < x) :
    (2 : ℚ) ^ Int.log 2 x ≤ x ∧ x < (2 : ℚ) ^ (Int.log 2 x + 1) := by
  have h1 := Int.zpow_log_le_self (R := ℚ) (b := 2) (r := x) (by norm_num) hx
  have h2 := Int.lt_zpow_succ_log_self (R := ℚ) (b := 2) (by norm_num) x
  norm_num at h1 h2
  exact ⟨h1, h2⟩

theorem log_eq_of_bounds (x : ℚ) (e : Int) (hx : 0 < x) (h1 : (2 : ℚ) ^ e ≤ x)
    (h2 : x < (2 : ℚ) ^ (e + 1)) : Int.log 2 x = e := by
  have a := (Int.zpow_le_iff_le_log (R := ℚ) (b := 2) (by norm_num) (x := e) hx).1
    (by norm_num; exact h1)
  have b := (Int.lt_zpow_iff_log_lt (R := ℚ) (b := 2) (by norm_num) (x := e + 1) hx).1
    (by norm_num; exact h2)
  omega

theorem roundFloat_pos_eq (p : Nat) (x : ℚ) (hx : 0 < x) :
    roundFloat p x = (roundNearestEven (x / (2 : ℚ) ^ (Int.log 2 x - ((p : Int) - 1))) : ℚ) *
      (2 : ℚ) ^ (Int.log 2 x - ((p : Int) - 1)) := by
  unfold roundFloat ulpExp
  rw [if_neg (ne_of_gt hx), abs_of_pos hx]

theorem roundFloat_eq_of_bounds (p : Nat) (x : ℚ) (e n : Int) (hx : 0 < x)
    (h1 : (2 : ℚ) ^ e ≤ x) (h2 : x < (2 : ℚ) ^ (e + 1))
    (hn : roundNearestEven (x / (2 : ℚ) ^ (e - ((p : Int) - 1))) = n) :
    roundFloat p x = (n : ℚ) * (2 : ℚ) ^ (e - ((p : Int) - 1)) := by
  rw [roundFloat_pos_eq p x hx, log_eq_of_bounds x e hx h1 h2, hn]

theorem ulp_split (p : Nat) (hp : 1 ≤ p) (e : Int) :
    (2 : ℚ) ^ e = ((2 ^ (p - 1) : Nat) : ℚ) * (2 : ℚ) ^ (e - ((p : Int) - 1)) ∧
    (2 : ℚ) ^ (e + 1) = ((2 ^ p : Nat) : ℚ) * (2 : ℚ) ^ (e - ((p : Int) - 1)) := by
  have h2 : (2 : ℚ) ≠ 0 := by norm_num
  constructor
  · push_cast
    rw [← zpow_natCast, ← zpow_add₀ h2]
    congr 1
    omega
  · push_cast
    rw [← zpow_natCast, ← zpow_add₀ h2]
    congr 1
    omega

theorem roundFloat_bounds (p : Nat) (hp : 1 ≤ p) (x : ℚ) (hx : 0 < x) :
    (2 : ℚ) ^ Int.log 2 x ≤ roundFloat p x ∧ roundFloat p x ≤ (2 : ℚ) ^ (Int.log 2 x + 1) := by
  obtain ⟨h1, h2⟩ := log_bounds x hx
  obtain ⟨s1, s2⟩ := ulp_split p hp (Int.log 2 x)
  have hu := two_zpow_pos (Int.log 2 x - ((p : Int) - 1))
  rw [roundFloat_pos_eq p x hx]
  constructor
  · have hq : (((2 ^ (p - 1) : Nat) : Int) : ℚ) ≤ x / (2 : ℚ) ^ (Int.log 2 x - ((p : Int) - 1)) := by
      rw [le_div_iff₀ hu]
      push_cast
      push_cast at s1
      rw [← s1]
      exact h1
    have hr := le_roundNearestEven_of_le _ _ hq
    have hr2 : (((2 ^ (p - 1) : Nat) : Int) : ℚ) ≤
        (roundNearestEven (x / (2 : ℚ) ^ (Int.log 2 x - ((p : Int) - 1))) : ℚ) := by
      exact_mod_cast hr
    rw [s1]
    push_cast at hr2 ⊢
    exact mul_le_mul_of_nonneg_right hr2 (le_of_lt hu)
  · have hq : x / (2 : ℚ) ^ (Int.log 2 x - ((p : Int) - 1)) ≤ (((2 ^ p : Nat) : Int) : ℚ) := by
      rw [div_le_iff₀ hu]
      push_cast
      push_cast at s2
      rw [← s2]
      exact le_of_lt h2
    have hr := roundNearestEven_le_of_le _ _ hq
    have hr2 : (roundNearestEven (x / (2 : ℚ) ^ (Int.log 2 x - ((p : Int) - 1))) : ℚ) ≤
        (((2 ^ p : Nat) : Int) : ℚ) := by
      exact_mod_cast hr
    rw [s2]
    push_cast at hr2 ⊢
    exact mul_le_mul_of_nonneg_right hr2 (le_of_lt hu)

theorem roundFloat_pos (p : Nat) (hp : 1 ≤ p) (x : ℚ) (hx : 0 < x) : 0 < roundFloat p x :=
  lt_of_lt_of_le (two_zpow_pos _) (roundFloat_bounds p hp x hx).1

theorem roundFloat_mono (p : Nat) (hp : 1 ≤ p) (x y : ℚ) (hx : 0 < x) (hxy : x ≤ y) :
    roundFloat p x ≤ roundFloat p y := by
  have hy : 0 < y := lt_of_lt_of_le hx hxy
  have hlog : Int.log 2 x ≤ Int.log 2 y := Int.log_mono_right hx hxy
  rcases lt_or_eq_of_le hlog with hlt | heq
  · have h1 := (roundFloat_bounds p hp x hx).2
    have h2 := (roundFloat_bounds p hp y hy).1
    have h3 : (2 : ℚ) ^ (Int.log 2 x + 1) ≤ (2 : ℚ) ^ Int.log 2 y :=
      zpow_le_zpow_right₀ (by norm_num) (by omega)
    linarith
  · rw [roundFloat_pos_eq p x hx, roundFloat_pos_eq p y hy, heq]
    have hu := two_zpow_pos (Int.log 2 y - ((p : Int) - 1))
    have hq : x / (2 : ℚ) ^ (Int.log 2 y - ((p : Int) - 1)) ≤
        y / (2 : ℚ) ^ (Int.log 2 y - ((p : Int) - 1)) :=
      div_le_div_of_nonneg_right hxy (le_of_lt hu)
    have hr := roundNearestEven_mono _ _ hq
    have hr2 : (roundNearestEven (x / (2 : ℚ) ^ (Int.log 2 y - ((p : Int) - 1))) : ℚ) ≤
        (roundNearestEven (y / (2 : ℚ) ^ (Int.log 2 y - ((p : Int) - 1))) : ℚ) := by
      exact_mod_cast hr
    exact mul_le_mul_of_nonneg_right hr2 (le_of_lt hu)

theorem roundFloat_error (p : Nat) (x : ℚ) (hx : 0 < x) :
    |roundFloat p x - x| ≤ (2 : ℚ) ^ (Int.log 2 x - ((p : Int) - 1)) / 2 := by
  rw [roundFloat_pos_eq p x hx]
  have hu := two_zpow_pos (Int.log 2 x - ((p : Int) - 1))
  obtain ⟨b1, b2⟩ := roundNearestEven_bracket (x / (2 : ℚ) ^ (Int.log 2 x - ((p : Int) - 1)))
  rw [div_le_iff₀ hu] at b2
  rw [le_div_iff₀ hu] at b1
  rw [abs_le]
  constructor <;> nlinarith

theorem roundFloat_le_natCast (p : Nat) (hp : 1 ≤ p) (x : ℚ) (hx : 0 < x) (c : Nat)
    (hc : c < 2 ^ p) (hxc : x ≤ c) : roundFloat p x ≤ c := by
  have hlt : x < (2 : ℚ) ^ p := by
    have : (c : ℚ) < ((2 ^ p : Nat) : ℚ) := by exact_mod_cast hc
    push_cast at this
    linarith
  have hlog : Int.log 2 x < p := by
    have := (Int.lt_zpow_iff_log_lt (R := ℚ) (b := 2) (by norm_num) (x := (p : Int)) hx).1
      (by norm_num; exact hlt)
    exact this
  obtain ⟨k, hk⟩ : ∃ k : Nat, (k : Int) = (p : Int) - 1 - Int.log 2 x := ⟨((p : Int) - 1 - Int.log 2 x).toNat, by omega⟩
  have hu := two_zpow_pos (Int.log 2 x - ((p : Int) - 1))
  have hcu : (c : ℚ) = (((c * 2 ^ k : Nat) : Int) : ℚ) * (2 : ℚ) ^ (Int.log 2 x - ((p : Int) - 1)) := by
    push_cast
    rw [mul_assoc, ← zpow_natCast, ← zpow_add₀ (by norm_num : (2 : ℚ) ≠ 0)]
    have : (k : Int) + (Int.log 2 x - ((p : Int) - 1)) = 0 := by omega
    rw [this]
    simp
  rw [roundFloat_pos_eq p x hx]
  have hq : x / (2 : ℚ) ^ (Int.log 2 x - ((p : Int) - 1)) ≤ (((c * 2 ^ k : Nat) : Int) : ℚ) := by
    rw [div_le_iff₀ hu, ← hcu]
    exact hxc
  have hr := roundNearestEven_le_of_le _ _ hq
  have hr2 : (roundNearestEven (x / (2 : ℚ) ^ (Int.log 2 x - ((p : Int) - 1))) : ℚ) ≤
      (((c * 2 ^ k : Nat) : Int) : ℚ) := by
    exact_mod_cast hr
  calc (roundNearestEven (x / (2 : ℚ) ^ (Int.log 2 x - ((p : Int) - 1))) : ℚ) *
        (2 : ℚ) ^ (Int.log 2 x - ((p : Int) - 1))
      ≤ (((c * 2 ^ k : Nat) : Int) : ℚ) * (2 : ℚ) ^ (Int.log 2 x - ((p : Int) - 1)) :=
        mul_le_mul_of_nonneg_right hr2 (le_of_lt hu)
    _ = c := hcu.symm

theorem roundFloat_natCast (p : Nat) (hp : 1 ≤ p) (c : Nat) (hc : c < 2 ^ p) :
    roundFloat p (c : ℚ) = c := by
  rcases Nat.eq_zero_or_pos c with h0 | hpos
  · subst h0
    simp [roundFloat]
  · have hx : (0 : ℚ) < (c : ℚ) := by exact_mod_cast hpos
    apply le_antisymm (roundFloat_le_natCast p hp _ hx c hc (le_refl _))
    have hlt : (c : ℚ) < (2 : ℚ) ^ p := by
      have : (c : ℚ) < ((2 ^ p : Nat) : ℚ) := by exact_mod_cast hc
      push_cast at this
      linarith
    have hlog : Int.log 2 (c : ℚ) < p :=
      (Int.lt_zpow_iff_log_lt (R := ℚ) (b := 2) (by norm_num) (x := (p : Int)) hx).1
        (by norm_num; exact hlt)
    obtain ⟨k, hk⟩ : ∃ k : Nat, (k : Int) = (p : Int) - 1 - Int.log 2 (c : ℚ) :=
      ⟨((p : Int) - 1 - Int.log 2 (c : ℚ)).toNat, by omega⟩
    have hu := two_zpow_pos (Int.log 2 (c : ℚ) - ((p : Int) - 1))
    have hcu : (c : ℚ) = (((c * 2 ^ k : Nat) : Int) : ℚ) *
        (2 : ℚ) ^ (Int.log 2 (c : ℚ) - ((p : Int) - 1)) := by
      push_cast
      rw [mul_assoc, ← zpow_natCast, ← zpow_add₀ (by norm_num : (2 : ℚ) ≠ 0)]
      have : (k : Int) + (Int.log 2 (c : ℚ) - ((p : Int) - 1)) = 0 := by omega
      rw [this]
      simp
    rw [roundFloat_pos_eq p _ hx]
    have hq : (((c * 2 ^ k : Nat) : Int) : ℚ) ≤
        (c : ℚ) / (2 : ℚ) ^ (Int.log 2 (c : ℚ) - ((p : Int) - 1)) := by
      rw [le_div_iff₀ hu, ← hcu]
    have hr := le_roundNearestEven_of_le _ _ hq
    have hr2 : (((c * 2 ^ k : Nat) : Int) : ℚ) ≤
        (roundNearestEven ((c : ℚ) / (2 : ℚ) ^ (Int.log 2 (c : ℚ) - ((p : Int) - 1))) : ℚ) := by
      exact_mod_cast hr
    calc (c : ℚ) = (((c * 2 ^ k : Nat) : Int) : ℚ) *
          (2 : ℚ) ^ (Int.log 2 (c : ℚ) - ((p : Int) - 1)) := hcu
      _ ≤ _ := mul_le_mul_of_nonneg_right hr2 (le_of_lt hu)

theorem roundFloat_zero (p : Nat) : roundFloat p 0 = 0 := by
  simp [roundFloat]

theorem roundFloat_nonneg (p : Nat) (hp : 1 ≤ p) (x : ℚ) (hx : 0 ≤ x) : 0 ≤ roundFloat p x := by
  rcases lt_or_eq_of_le hx with h | h
  · exact le_of_lt (roundFloat_pos p hp x h)
  · rw [← h, roundFloat_zero]

theorem roundFloat_mono_nonneg (p : Nat) (hp : 1 ≤ p) (x y : ℚ) (hx : 0 ≤ x) (hxy : x ≤ y) :
    roundFloat p x ≤ roundFloat p y := by
  rcases lt_or_eq_of_le hx with h | h
  · exact roundFloat_mono p hp x y h hxy
  · rw [← h, roundFloat_zero]
    exact roundFloat_nonneg p hp y (le_trans hx hxy)

/-- The error of one rounding of a positive `x` below `2 ^ (k + 1)`. -/
theorem roundFloat_error_of_lt (p : Nat) (x : ℚ) (hx : 0 < x) (k : Int)
    (hk : x < (2 : ℚ) ^ (k + 1)) :
    |roundFloat p x - x| ≤ (2 : ℚ) ^ (k - ((p : Int) - 1)) / 2 := by
  have hlog : Int.log 2 x < k + 1 :=
    (Int.lt_zpow_iff_log_lt (R := ℚ) (b := 2) (by norm_num) (x := k + 1) hx).1
      (by norm_num; exact hk)
  have hmono : (2 : ℚ) ^ (Int.log 2 x - ((p : Int) - 1)) ≤ (2 : ℚ) ^ (k - ((p : Int) - 1)) :=
    zpow_le_zpow_right₀ (by norm_num) (by omega)
  have := roundFloat_error p x hx
  linarith

/-- Comparing with a threshold that is itself a double: rounding the other side to the
nearest double keeps `t ≤ x`, and can turn `x < t` into equality only. -/
theorem roundDouble_compare (t x : ℚ) (ht : roundDouble t = t) (h0 : 0 ≤ t) (hx : 0 ≤ x) :
    (t ≤ x → t ≤ roundDouble x) ∧ (x < t → roundDouble x ≤ t) := by
  constructor
  · intro h
    have := roundFloat_mono_nonneg 53 (by norm_num) t x h0 h
    unfold roundDouble at ht ⊢
    rw [ht] at this
    exact this
  · intro h
    have := roundFloat_mono_nonneg 53 (by norm_num) x t hx (le_of_lt h)
    unfold roundDouble at ht ⊢
    rw [ht] at this
    exact this

/-! ## Recitation summary -/

theorem matchHits_eq (st : AppState) (qa : Qa) (recited : String) :
    matchHits st qa recited =
      ((splitSentences st qa.answerText).filter
        (fun seg => decide (effThreshold st ≤ diceSimilarity recited seg))).length := by
  unfold matchHits matchScores
  rw [List.filter_map, List.length_map]
  rfl

theorem updateMatches_eq (st : AppState) (qa : Qa) (recited : String)
    (hq : getCurrentQa st = some qa) (hr : jsTrim recited ≠ "") :
    ∃ m, updateMatches st recited = some m ∧
      m.total = (splitSentences st qa.answerText).length ∧
      m.hits = matchHits st qa recited ∧
      m.pct = (if (splitSentences st qa.answerText).length = 0 then 0
        else jsRound (roundDouble (roundDouble ((matchHits st qa recited : ℚ) /
          ((splitSentences st qa.answerText).length : ℚ)) * 100))) := by
  unfold updateMatches
  rw [hq]
  simp only [hr, if_false]
  exact ⟨_, rfl, rfl, rfl, rfl⟩

theorem jsRound_bracket (x : ℚ) : ((jsRound x : Int) : ℚ) - 1 / 2 ≤ x ∧ x < (jsRound x : ℚ) + 1 / 2 := by
  unfold jsRound
  have h1 := Int.floor_le (x + 1 / 2)
  have h2 := Int.lt_floor_add_one (x + 1 / 2)
  constructor <;> linarith

/-- The double computation `(h / t) * 100` for `0 < h ≤ t` stays within `164 / 2 ^ 53` of
the exact value `100 * h / t` and within `[0, 100]`. -/
theorem pctDouble_error (h t : Nat) (hh : 0 < h) (hle : h ≤ t) :
    |roundDouble (roundDouble ((h : ℚ) / (t : ℚ)) * 100) - 100 * (h : ℚ) / (t : ℚ)| ≤
        164 / 2 ^ 53 ∧
      0 < roundDouble (roundDouble ((h : ℚ) / (t : ℚ)) * 100) ∧
      roundDouble (roundDouble ((h : ℚ) / (t : ℚ)) * 100) ≤ 100 := by
  have ht : 0 < t := lt_of_lt_of_le hh hle
  have hhq : (0 : ℚ) < (h : ℚ) := by exact_mod_cast hh
  have htq : (0 : ℚ) < (t : ℚ) := by exact_mod_cast ht
  have hleq : (h : ℚ) ≤ (t : ℚ) := by exact_mod_cast hle
  have hx : (0 : ℚ) < (h : ℚ) / (t : ℚ) := div_pos hhq htq
  have hx1 : (h : ℚ) / (t : ℚ) ≤ 1 := by
    rw [div_le_iff₀ htq]; linarith
  unfold roundDouble
  have hy0 : 0 < roundFloat 53 ((h : ℚ) / (t : ℚ)) := roundFloat_pos 53 (by norm_num) _ hx
  have hy1 : roundFloat 53 ((h : ℚ) / (t : ℚ)) ≤ ((1 : Nat) : ℚ) :=
    roundFloat_le_natCast 53 (by norm_num) _ hx 1 (by norm_num) (by simpa using hx1)
  have e1 := roundFloat_error_of_lt 53 _ hx 0 (by norm_num; linarith)
  have hw0 : 0 < roundFloat 53 ((h : ℚ) / (t : ℚ)) * 100 := by positivity
  have hw1 : roundFloat 53 ((h : ℚ) / (t : ℚ)) * 100 ≤ ((100 : Nat) : ℚ) := by
    push_cast at hy1 ⊢; linarith
  have hz1 := roundFloat_le_natCast 53 (by norm_num) _ hw0 100 (by norm_num) hw1
  have e2 := roundFloat_error_of_lt 53 _ hw0 6 (by push_cast at hw1; norm_num; linarith)
  have hz0 := roundFloat_pos 53 (by norm_num) _ hw0
  refine ⟨?_, hz0, by simpa using hz1⟩
  norm_num at e1 e2
  rw [abs_le] at e1 e2 ⊢
  obtain ⟨a1, a2⟩ := e1
  obtain ⟨b1, b2⟩ := e2
  have hdiv : 100 * (h : ℚ) / (t : ℚ) = (h : ℚ) / (t : ℚ) * 100 := by ring
  rw [hdiv]
  constructor <;> linarith

/-- The integer that `Math.round` makes of the double `(h / t) * 100` is a nearest integer
of the exact `100 * h / t` as long as `t ≤ 2 ^ 44`. -/
theorem pctDouble_nearest (h t : Nat) (hh : 0 < h) (hle : h ≤ t) (ht : t ≤ 2 ^ 44) :
    (jsRound (roundDouble (roundDouble ((h : ℚ) / (t : ℚ)) * 100)) : ℚ) - 1 / 2 ≤
        100 * (h : ℚ) / (t : ℚ) ∧
      100 * (h : ℚ) / (t : ℚ) ≤
        (jsRound (roundDouble (roundDouble ((h : ℚ) / (t : ℚ)) * 100)) : ℚ) + 1 / 2 := by
  obtain ⟨he, _, _⟩ := pctDouble_error h t hh hle
  obtain ⟨b1, b2⟩ := jsRound_bracket (roundDouble (roundDouble ((h : ℚ) / (t : ℚ)) * 100))
  generalize roundDouble (roundDouble ((h : ℚ) / (t : ℚ)) * 100) = z at he b1 b2 ⊢
  generalize jsRound z = k at b1 b2 ⊢
  have htpos : 0 < t := lt_of_lt_of_le hh hle
  have htq : (0 : ℚ) < (t : ℚ) := by exact_mod_cast htpos
  have htle : (t : ℚ) ≤ 2 ^ 44 := by exact_mod_cast ht
  have hX : 100 * (h : ℚ) / (t : ℚ) * (t : ℚ) = 100 * (h : ℚ) := by field_simp
  generalize 100 * (h : ℚ) / (t : ℚ) = X at he hX ⊢
  rw [abs_le] at he
  obtain ⟨e1, e2⟩ := he
  constructor
  · by_contra hc
    push_neg at hc
    have hpos : (0 : ℚ) < (((2 * k - 1) * (t : Int) - 200 * (h : Int) : Int) : ℚ) := by
      push_cast
      nlinarith
    have hN : (1 : Int) ≤ (2 * k - 1) * (t : Int) - 200 * (h : Int) := by
      have : (0 : Int) < (2 * k - 1) * (t : Int) - 200 * (h : Int) := by exact_mod_cast hpos
      omega
    have hN1 : (1 : ℚ) ≤ (((2 * k - 1) * (t : Int) - 200 * (h : Int) : Int) : ℚ) := by
      exact_mod_cast hN
    push_cast at hN1
    have hd : (k : ℚ) - 1 / 2 - X ≤ 164 / 2 ^ 53 := by linarith
    have hm : ((k : ℚ) - 1 / 2 - X) * (t : ℚ) ≤ 164 / 2 ^ 53 * 2 ^ 44 :=
      mul_le_mul hd htle (le_of_lt htq) (by norm_num)
    nlinarith
  · by_contra hc
    push_neg at hc
    have hpos : (0 : ℚ) < ((200 * (h : Int) - (2 * k + 1) * (t : Int) : Int) : ℚ) := by
      push_cast
      nlinarith
    have hN : (1 : Int) ≤ 200 * (h : Int) - (2 * k + 1) * (t : Int) := by
      have : (0 : Int) < 200 * (h : Int) - (2 * k + 1) * (t : Int) := by exact_mod_cast hpos
      omega
    have hN1 : (1 : ℚ) ≤ ((200 * (h : Int) - (2 * k + 1) * (t : Int) : Int) : ℚ) := by
      exact_mod_cast hN
    push_cast at hN1
    have hd : X - ((k : ℚ) + 1 / 2) ≤ 164 / 2 ^ 53 := by linarith
    have hm : (X - ((k : ℚ) + 1 / 2)) * (t : ℚ) ≤ 164 / 2 ^ 53 * 2 ^ 44 :=
      mul_le_mul hd htle (le_of_lt htq) (by norm_num)
    nlinarith

theorem roundDouble_quotient_example :
    roundDouble (23 / 40) = 2589569785738035 / 4503599627370496 := by
  unfold roundDouble
  rw [roundFloat_eq_of_bounds 53 (23 / 40) (-1) 5179139571476070 (by norm_num) (by norm_num)
    (by norm_num) (by apply roundNearestEven_eq_of_lt <;> norm_num)]
  norm_num

theorem roundDouble_product_example :
    roundDouble (2589569785738035 / 4503599627370496 * 100) =
      8092405580431359 / 140737488355328 := by
  unfold roundDouble
  rw [roundFloat_eq_of_bounds 53 _ 5 8092405580431359 (by norm_num) (by norm_num)
    (by norm_num) (by apply roundNearestEven_eq_of_lt <;> norm_num)]
  norm_num

theorem diceSimilarity_example_hit : diceSimilarity "a!" "a" = 2 / 3 ∧
    diceSimilarity "a!" "!" = 2 / 3 ∧ diceSimilarity "a!" "?" = 0 := by
  refine ⟨?_, ?_, ?_⟩
  · rw [diceSimilarity_eq, if_neg (by decide)]
    have h1 : ("a!".toList.toFinset ∩ "a".toList.toFinset).card = 1 := by decide
    have h2 : "a!".toList.toFinset.card = 2 := by decide
    have h3 : "a".toList.toFinset.card = 1 := by decide
    rw [h1, h2, h3]
    norm_num
  · rw [diceSimilarity_eq, if_neg (by decide)]
    have h1 : ("a!".toList.toFinset ∩ "!".toList.toFinset).card = 1 := by decide
    have h2 : "a!".toList.toFinset.card = 2 := by decide
    have h3 : "!".toList.toFinset.card = 1 := by decide
    rw [h1, h2, h3]
    norm_num
  · rw [diceSimilarity_eq, if_neg (by decide)]
    have h1 : ("a!".toList.toFinset ∩ "?".toList.toFinset).card = 0 := by decide
    rw [h1]
    simp

theorem diceSimilarity_example_comma : diceSimilarity "a," "a" = 2 / 3 ∧
    diceSimilarity "a," "," = 2 / 3 ∧ diceSimilarity "a," "!" = 0 := by
  refine ⟨?_, ?_, ?_⟩
  · rw [diceSimilarity_eq, if_neg (by decide)]
    have h1 : ("a,".toList.toFinset ∩ "a".toList.toFinset).card = 1 := by decide
    have h2 : "a,".toList.toFinset.card = 2 := by decide
    have h3 : "a".toList.toFinset.card = 1 := by decide
    rw [h1, h2, h3]
    norm_num
  · rw [diceSimilarity_eq, if_neg (by decide)]
    have h1 : ("a,".toList.toFinset ∩ ",".toList.toFinset).card = 1 := by decide
    have h2 : "a,".toList.toFinset.card = 2 := by decide
    have h3 : ",".toList.toFinset.card = 1 := by decide
    rw [h1, h2, h3]
    norm_num
  · rw [diceSimilarity_eq, if_neg (by decide)]
    have h1 : ("a,".toList.toFinset ∩ "!".toList.toFinset).card = 0 := by decide
    rw [h1]
    simp

/-- C11, counterexample: with the default settings, an answer of forty segments and the
recited text `a,` the summary has 23 hits of 40 and `pct = 57`, while `100 * 23 / 40` is
`57.5` and rounds half up to `58` : the double `(23 / 40) * 100` lies just below `57.5`. -/
theorem updateMatches_pct_below_half :
    ∃ m, updateMatches stateFortySegments "a," = some m ∧
      m.hits = 23 ∧ m.total = 40 ∧ m.pct = 57 ∧
      ⌊100 * (m.hits : ℚ) / (m.total : ℚ) + 1 / 2⌋ = 58 := by
  have hsplit : (splitSentences stateFortySegments exampleQaForty.answerText).length = 40 := by
    decide
  have hthr : effThreshold stateFortySegments = 65 / 100 := by
    rw [effThreshold_of_range]
    · rfl
    · constructor <;> norm_num [stateFortySegments, defaultSettings]
  obtain ⟨h1, h2, h3⟩ := diceSimilarity_example_comma
  have hsegs : splitSentences stateFortySegments exampleQaForty.answerText =
      ["a", ",", "a", ",", "a", ",", "a", ",", "a", ",", "a", ",", "a", ",", "a", ",",
        "a", ",", "a", ",", "a", ",", "a", "!", "!", "!", "!", "!", "!", "!", "!", "!",
        "!", "!", "!", "!", "!", "!", "!", "!"] := by decide
  have hhits : matchHits stateFortySegments exampleQaForty "a," = 23 := by
    rw [matchHits_eq, hsegs, hthr]
    simp only [List.filter, h1, h2, h3]
    norm_num
  obtain ⟨m, hm, htot, hh, hpct⟩ :=
    updateMatches_eq stateFortySegments exampleQaForty "a," (by decide) (by decide)
  have hh23 : m.hits = 23 := by rw [hh, hhits]
  have ht40 : m.total = 40 := by rw [htot, hsplit]
  refine ⟨m, hm, hh23, ht40, ?_, ?_⟩
  · rw [hpct, hhits, hsplit, if_neg (by norm_num)]
    have hq : ((23 : Nat) : ℚ) / ((40 : Nat) : ℚ) = 23 / 40 := by norm_num
    rw [hq, roundDouble_quotient_example, roundDouble_product_example]
    unfold jsRound
    rw [Int.floor_eq_iff]
    norm_num
  · rw [hh23, ht40, Int.floor_eq_iff]
    norm_num

/-- C11: for a current record and a non-blank recited text `updateMatches` computes a
summary with `total` the number of segments and `hits` the number of segments whose score
against the recited text is at least the threshold in use (so `hits ≤ total`). With
`total = 0` the percentage is `0`. With `total > 0` it is `Math.round` of the double
`(hits / total) * 100` : an integer within one half of `100 * hits / total` (for at most
`2 ^ 44` segments), equal to the half-up rounding unless `100 * hits / total` lies exactly
half-way, where the double may fall on either side; it is `0` for no hit and `100` when all
segments hit. In every case `0 ≤ pct ≤ 100`. -/
theorem updateMatches_summary (st : AppState) (qa : Qa) (recited : String)
    (hq : getCurrentQa st = some qa) (hr : jsTrim recited ≠ "") :
    ∃ m, updateMatches st recited = some m ∧
      m.total = (splitSentences st qa.answerText).length ∧
      m.hits = ((splitSentences st qa.answerText).filter
        (fun seg => decide (effThreshold st ≤ diceSimilarity recited seg))).length ∧
      m.hits ≤ m.total ∧
      (0 < m.total →
        m.pct = jsRound (roundDouble (roundDouble ((m.hits : ℚ) / (m.total : ℚ)) * 100))) ∧
      (0 < m.total → m.total ≤ 2 ^ 44 →
        (m.pct : ℚ) - 1 / 2 ≤ 100 * (m.hits : ℚ) / (m.total : ℚ) ∧
        100 * (m.hits : ℚ) / (m.total : ℚ) ≤ (m.pct : ℚ) + 1 / 2 ∧
        (100 * (m.hits : ℚ) / (m.total : ℚ) ≠ (m.pct : ℚ) + 1 / 2 →
          m.pct = ⌊100 * (m.hits : ℚ) / (m.total : ℚ) + 1 / 2⌋)) ∧
      (0 < m.total → m.hits = 0 → m.pct = 0) ∧
      (0 < m.total → m.hits = m.total → m.pct = 100) ∧
      (m.total = 0 → m.pct = 0) ∧
      0 ≤ m.pct ∧ m.pct ≤ 100 := by
  obtain ⟨m, hm, htot, hhits, hpct⟩ := updateMatches_eq st qa recited hq hr
  have hle : m.hits ≤ m.total := by
    rw [hhits, htot, matchHits_eq]
    exact List.length_filter_le _ _
  rw [← hhits, ← htot] at hpct
  have hval : 0 < m.total →
      m.pct = jsRound (roundDouble (roundDouble ((m.hits : ℚ) / (m.total : ℚ)) * 100)) := by
    intro hpos
    rw [hpct, if_neg (by omega)]
  have hzero : 0 < m.total → m.hits = 0 → m.pct = 0 := by
    intro hpos h0
    rw [hval hpos, h0]
    simp only [roundDouble, roundFloat, jsRound, Nat.cast_zero, zero_div, zero_mul, if_true]
    norm_num
  refine ⟨m, hm, htot, ?_, hle, hval, ?_, hzero, ?_, ?_, ?_, ?_⟩
  · rw [hhits, matchHits_eq]
  · intro hpos hbig
    rcases Nat.eq_zero_or_pos m.hits with h0 | hh
    · rw [hzero hpos h0, h0]
      norm_num
    · obtain ⟨n1, n2⟩ := pctDouble_nearest m.hits m.total hh hle hbig
      rw [← hval hpos] at n1 n2
      refine ⟨n1, n2, ?_⟩
      intro hne
      have hlt := lt_of_le_of_ne n2 hne
      symm
      rw [Int.floor_eq_iff]
      constructor <;> linarith
  · intro hpos hall
    rw [hval hpos, hall]
    have hone : ((m.total : ℚ)) / (m.total : ℚ) = ((1 : Nat) : ℚ) := by
      have : (m.total : ℚ) ≠ 0 := by
        have : m.total ≠ 0 := by omega
        exact_mod_cast this
      rw [div_self this]
      norm_num
    unfold roundDouble
    rw [hone, roundFloat_natCast 53 (by norm_num) 1 (by norm_num)]
    have hc : (((1 : Nat) : ℚ)) * 100 = ((100 : Nat) : ℚ) := by norm_num
    rw [hc, roundFloat_natCast 53 (by norm_num) 100 (by norm_num)]
    unfold jsRound
    rw [Int.floor_eq_iff]
    norm_num
  · intro h0
    rw [hpct, if_pos h0]
  · by_cases h0 : m.total = 0
    · rw [hpct, if_pos h0]
    · rcases Nat.eq_zero_or_pos m.hits with hz | hh
      · rw [hzero (by omega) hz]
      · rw [hval (by omega)]
        obtain ⟨_, z0, _⟩ := pctDouble_error m.hits m.total hh hle
        unfold jsRound
        rw [Int.floor_nonneg]
        linarith
  · by_cases h0 : m.total = 0
    · rw [hpct, if_pos h0]
      norm_num
    · rcases Nat.eq_zero_or_pos m.hits with hz | hh
      · rw [hzero (by omega) hz]
        norm_num
      · rw [hval (by omega)]
        obtain ⟨_, _, z1⟩ := pctDouble_error m.hits m.total hh hle
        unfold jsRound
        have hlt : ⌊roundDouble (roundDouble ((m.hits : ℚ) / (m.total : ℚ)) * 100) + 1 / 2⌋ <
            101 := by
          rw [Int.floor_lt]
          push_cast
          linarith
        omega

theorem updateMatches_summary_witness :
    getCurrentQa stateFourSegments = some exampleQaFour ∧ jsTrim "a!" ≠ "" ∧
    ∃ m, updateMatches stateFourSegments "a!" = some m ∧
      m.total = (splitSentences stateFourSegments exampleQaFour.answerText).length ∧
      m.hits = ((splitSentences stateFourSegments exampleQaFour.answerText).filter
        (fun seg => decide (effThreshold stateFourSegments ≤ diceSimilarity "a!" seg))).length ∧
      m.hits ≤ m.total ∧
      (0 < m.total →
        m.pct = jsRound (roundDouble (roundDouble ((m.hits : ℚ) / (m.total : ℚ)) * 100))) ∧
      (0 < m.total → m.total ≤ 2 ^ 44 →
        (m.pct : ℚ) - 1 / 2 ≤ 100 * (m.hits : ℚ) / (m.total : ℚ) ∧
        100 * (m.hits : ℚ) / (m.total : ℚ) ≤ (m.pct : ℚ) + 1 / 2 ∧
        (100 * (m.hits : ℚ) / (m.total : ℚ) ≠ (m.pct : ℚ) + 1 / 2 →
          m.pct = ⌊100 * (m.hits : ℚ) / (m.total : ℚ) + 1 / 2⌋)) ∧
      (0 < m.total → m.hits = 0 → m.pct = 0) ∧
      (0 < m.total → m.hits = m.total → m.pct = 100) ∧
      (m.total = 0 → m.pct = 0) ∧
      0 ≤ m.pct ∧ m.pct ≤ 100 :=
  ⟨by decide, by decide,
    updateMatches_summary stateFourSegments exampleQaFour "a!" (by decide) (by decide)⟩

/-- The summary example of the specification, evaluated: four segments `a`, `!`, `a`, `?`,
recited text `a!`, threshold 0.65: three segments score 2/3, one scores 0; the doubles
`3 / 4` and `0.75 * 100` are exact. -/
theorem updateMatches_example :
    splitSentences stateFourSegments exampleQaFour.answerText = ["a", "!", "a", "?"] ∧
    effThreshold stateFourSegments = 65 / 100 ∧
    ∃ m, updateMatches stateFourSegments "a!" = some m ∧
      m.hits = 3 ∧ m.total = 4 ∧ m.pct = 75 := by
  have hsplit : splitSentences stateFourSegments exampleQaFour.answerText =
      ["a", "!", "a", "?"] := by decide
  have hthr : effThreshold stateFourSegments = 65 / 100 := by
    rw [effThreshold_of_range]
    · rfl
    · constructor <;> norm_num [stateFourSegments, defaultSettings]
  obtain ⟨h1, h2, h3⟩ := diceSimilarity_example_hit
  have hhits : matchHits stateFourSegments exampleQaFour "a!" = 3 := by
    rw [matchHits_eq, hsplit, hthr]
    simp only [List.filter, h1, h2, h3]
    norm_num
  obtain ⟨m, hm, htot, hh, hpct⟩ :=
    updateMatches_eq stateFourSegments exampleQaFour "a!" (by decide) (by decide)
  refine ⟨hsplit, hthr, m, hm, ?_, ?_, ?_⟩
  · rw [hh, hhits]
  · rw [htot, hsplit]
    rfl
  · rw [hpct, hhits, hsplit]
    simp only [List.length_cons, List.length_nil]
    rw [if_neg (by norm_num)]
    have e1 : roundDouble (((3 : Nat) : ℚ) / ((0 + 1 + 1 + 1 + 1 : Nat) : ℚ)) = 3 / 4 := by
      unfold roundDouble
      rw [roundFloat_eq_of_bounds 53 _ (-1) 6755399441055744 (by norm_num) (by norm_num)
        (by norm_num) (by apply roundNearestEven_eq_of_lt <;> norm_num)]
      norm_num
    have e2 : roundDouble (3 / 4 * 100) = 75 := by
      unfold roundDouble
      rw [roundFloat_eq_of_bounds 53 _ 6 5277655813324800 (by norm_num) (by norm_num)
        (by norm_num) (by apply roundNearestEven_eq_of_lt <;> norm_num)]
      norm_num
    rw [e1, e2]
    unfold jsRound
    rw [Int.floor_eq_iff]
    norm_num

/-! ## The forced-check gate -/

theorem splitSentences_congr (st st' : AppState)
    (h : st'.settings.sentenceDelimiters = st.settings.sentenceDelimiters) (text : String) :
    splitSentences st' text = splitSentences st text := by
  unfold splitSentences delimChars
  rw [h]

/-- C12: `isReciteCheckPassedForQa` is true exactly when the record exists and its answer
has at least one segment; the result is the same in every state with the same sentence
delimiters, whatever the threshold, the current record or the other settings (the recited
text and the hits are not among its inputs). -/
theorem isReciteCheckPassedForQa_iff (st : AppState) (qa : Option Qa) :
    (isReciteCheckPassedForQa st qa = true ↔
      ∃ q, qa = some q ∧ 0 < (splitSentences st q.answerText).length) ∧
    ∀ st' : AppState, st'.settings.sentenceDelimiters = st.settings.sentenceDelimiters →
      isReciteCheckPassedForQa st' qa = isReciteCheckPassedForQa st qa := by
  constructor
  · cases qa with
    | none => simp [isReciteCheckPassedForQa]
    | some q => simp [isReciteCheckPassedForQa]
  · intro st' h
    cases qa with
    | none => rfl
    | some q =>
      show decide (0 < (splitSentences st' q.answerText).length) =
        decide (0 < (splitSentences st q.answerText).length)
      rw [splitSentences_congr st st' h]

/-! ## Segmenter -/

theorem splitLoop_flatten {α : Type} (p : α → Bool) (text : List α) :
    ∀ cur : List α, (splitLoop p text cur).flatten = cur ++ text := by
  induction text with
  | nil => intro cur; simp [splitLoop]
  | cons c rest ih =>
    intro cur
    unfold splitLoop
    by_cases h : p c = true
    · rw [if_pos h]
      simp [ih]
    · rw [if_neg h, ih]
      simp

theorem splitLoop_mem {α : Type} (p : α → Bool) (text : List α) :
    ∀ cur : List α, (∀ c ∈ cur, p c = false) →
      ∀ e ∈ splitLoop p text cur, (∃ c, e = [c] ∧ p c = true) ∨ (∀ c ∈ e, p c = false) := by
  induction text with
  | nil =>
    intro cur hcur e he
    simp only [splitLoop, List.mem_singleton] at he
    subst he
    exact Or.inr hcur
  | cons c rest ih =>
    intro cur hcur e he
    unfold splitLoop at he
    by_cases h : p c = true
    · rw [if_pos h] at he
      rcases List.mem_cons.1 he with rfl | he
      · exact Or.inr hcur
      · rcases List.mem_cons.1 he with rfl | he
        · exact Or.inl ⟨c, rfl, h⟩
        · exact ih [] (fun _ hc => absurd hc (List.not_mem_nil _)) e he
    · rw [if_neg h] at he
      refine ih (cur ++ [c]) ?_ e he
      intro d hd
      rcases List.mem_append.1 hd with hd | hd
      · exact hcur d hd
      · rw [List.mem_singleton] at hd
        subst hd
        simpa using h

theorem splitLoop_delim_mem {α : Type} (p : α → Bool) (text : List α) (c : α)
    (hc : c ∈ text) (hp : p c = true) : ∀ cur : List α, [c] ∈ splitLoop p text cur := by
  induction text with
  | nil => exact absurd hc (List.not_mem_nil _)
  | cons d rest ih =>
    intro cur
    unfold splitLoop
    rcases List.mem_cons.1 hc with rfl | hrest
    · rw [if_pos hp]
      exact List.mem_cons_of_mem _ (List.mem_cons_self _ _)
    · by_cases h : p d = true
      · rw [if_pos h]
        exact List.mem_cons_of_mem _ (List.mem_cons_of_mem _ (ih hrest []))
      · rw [if_neg h]
        exact ih hrest _

theorem jsTrimChars_sublist (cs : List Char) : (jsTrimChars cs).Sublist cs := by
  unfold jsTrimChars
  have h1 : ((cs.dropWhile isJsWhitespace).reverse.dropWhile isJsWhitespace).Sublist
      (cs.dropWhile isJsWhitespace).reverse := List.dropWhile_sublist _
  have h2 := h1.reverse
  rw [List.reverse_reverse] at h2
  exact h2.trans (List.dropWhile_sublist _)

theorem dropWhile_of_all_false {α : Type} (p : α → Bool) (cs : List α)
    (h : ∀ c ∈ cs, p c = false) : cs.dropWhile p = cs := by
  cases cs with
  | nil => rfl
  | cons c cs => simp [List.dropWhile, h c (List.mem_cons_self c cs)]

theorem jsTrimChars_of_no_whitespace (cs : List Char)
    (h : ∀ c ∈ cs, isJsWhitespace c = false) : jsTrimChars cs = cs := by
  unfold jsTrimChars
  rw [dropWhile_of_all_false _ cs h, dropWhile_of_all_false _ cs.reverse, List.reverse_reverse]
  intro c hc
  exact h c (List.mem_reverse.1 hc)

theorem head?_dropWhile_false (p : Char → Bool) (cs : List Char) (c : Char)
    (h : (cs.dropWhile p).head? = some c) : p c = false := by
  have := List.head?_dropWhile_not p cs
  rw [h] at this
  exact this

theorem head?_of_pre {l₁ l₂ : List Char} (h : l₁ <+: l₂) (c : Char)
    (hc : l₁.head? = some c) : l₂.head? = some c := by
  obtain ⟨t, rfl⟩ := h
  cases l₁ with
  | nil => simp at hc
  | cons a l => simpa using hc

theorem jsTrimChars_head (cs : List Char) (c : Char)
    (h : (jsTrimChars cs).head? = some c) : isJsWhitespace c = false := by
  unfold jsTrimChars at h
  have hsuf : (cs.dropWhile isJsWhitespace).reverse.dropWhile isJsWhitespace <:+
      (cs.dropWhile isJsWhitespace).reverse := List.dropWhile_suffix _
  have hpre := List.reverse_prefix.2 hsuf
  rw [List.reverse_reverse] at hpre
  exact head?_dropWhile_false _ cs c (head?_of_pre hpre c h)

theorem jsTrimChars_getLast (cs : List Char) (c : Char)
    (h : (jsTrimChars cs).getLast? = some c) : isJsWhitespace c = false := by
  unfold jsTrimChars at h
  rw [List.getLast?_reverse] at h
  exact head?_dropWhile_false _ _ c h

/-- Membership in the result of `splitSentences`: the trimmed, non-empty elements of the
split. -/
theorem mem_splitSentences (st : AppState) (text seg : String) :
    seg ∈ splitSentences st text ↔
      ∃ e ∈ splitLoop (fun c => decide (c ∈ delimChars st)) text.toList [],
        jsTrimChars e ≠ [] ∧ seg = String.mk (jsTrimChars e) := by
  unfold splitSentences
  simp only [List.mem_map, List.mem_filter]
  constructor
  · rintro ⟨l, ⟨⟨e, he, rfl⟩, hne⟩, rfl⟩
    refine ⟨e, he, ?_, rfl⟩
    intro h
    rw [h] at hne
    simp at hne
  · rintro ⟨e, he, hne, rfl⟩
    refine ⟨jsTrimChars e, ⟨⟨e, he, rfl⟩, ?_⟩, rfl⟩
    cases hj : jsTrimChars e with
    | nil => exact absurd hj hne
    | cons a l => rfl

/-- C13, as stated, fails: with the default delimiters the text `a。b` is split into `a`,
`。`, `b`; the second segment is a delimiter character.  The same on code units: the unit
`0x3002` of the delimiter is a segment of its own. -/
theorem splitSentences_delimiter_segment :
    splitSentences stateFourSegments "a。b" = ["a", "。", "b"] ∧
    '。' ∈ delimChars stateFourSegments ∧
    ¬ (∀ seg ∈ splitSentences stateFourSegments "a。b",
        ∀ c ∈ seg.toList, c ∉ delimChars stateFourSegments) ∧
    splitSentencesUnits stateFourSegments (toUnits "a。b") = [[0x61], [0x3002], [0x62]] ∧
    0x3002 ∈ delimUnits stateFourSegments := by
  refine ⟨?_, ?_, ?_, ?_, ?_⟩ <;> decide

/-- C14: every string returned by `splitSentences` is non-empty and neither starts nor
ends with a whitespace character, for every text and every delimiter setting; the empty
text gives the empty sequence. -/
theorem splitSentences_trimmed (st : AppState) (text : String) :
    (∀ seg ∈ splitSentences st text,
      seg ≠ "" ∧
      (∀ c, seg.toList.head? = some c → isJsWhitespace c = false) ∧
      (∀ c, seg.toList.getLast? = some c → isJsWhitespace c = false) ∧
      jsTrim seg = seg) ∧
    splitSentences st "" = [] := by
  constructor
  · intro seg hseg
    obtain ⟨e, _, hne, rfl⟩ := (mem_splitSentences st text seg).1 hseg
    have hhead : ∀ c, (jsTrimChars e).head? = some c → isJsWhitespace c = false :=
      fun c hc => jsTrimChars_head e c hc
    have hlast : ∀ c, (jsTrimChars e).getLast? = some c → isJsWhitespace c = false :=
      fun c hc => jsTrimChars_getLast e c hc
    refine ⟨?_, hhead, hlast, ?_⟩
    · intro h
      apply hne
      have := congrArg String.toList h
      exact this
    · show String.mk (jsTrimChars (jsTrimChars e)) = String.mk (jsTrimChars e)
      congr 1
      unfold jsTrimChars
      have h1 : ((List.dropWhile isJsWhitespace e).reverse.dropWhile isJsWhitespace).reverse.dropWhile
          isJsWhitespace =
          ((List.dropWhile isJsWhitespace e).reverse.dropWhile isJsWhitespace).reverse := by
        cases hx : ((List.dropWhile isJsWhitespace e).reverse.dropWhile
            isJsWhitespace).reverse with
        | nil => rfl
        | cons a l =>
          have ha : isJsWhitespace a = false := by
            apply hhead a
            unfold jsTrimChars
            rw [hx]
            rfl
          simp [List.dropWhile, ha]
      rw [h1, List.reverse_reverse]
      cases hy : (List.dropWhile isJsWhitespace e).reverse.dropWhile isJsWhitespace with
      | nil => rfl
      | cons a l =>
        have ha : isJsWhitespace a = false := by
          apply hlast a
          unfold jsTrimChars
          rw [hy, List.getLast?_reverse]
          rfl
        simp [List.dropWhile, ha]
  · rfl

/-! ## Segmenter on code units -/

theorem jsTrimUnits_sublist (us : List Nat) : (jsTrimUnits us).Sublist us := by
  unfold jsTrimUnits
  have h1 : ((us.dropWhile isJsWhitespaceUnit).reverse.dropWhile isJsWhitespaceUnit).Sublist
      (us.dropWhile isJsWhitespaceUnit).reverse := List.dropWhile_sublist _
  have h2 := h1.reverse
  rw [List.reverse_reverse] at h2
  exact h2.trans (List.dropWhile_sublist _)

theorem jsTrimUnits_of_no_whitespace (us : List Nat)
    (h : ∀ u ∈ us, isJsWhitespaceUnit u = false) : jsTrimUnits us = us := by
  unfold jsTrimUnits
  rw [dropWhile_of_all_false _ us h, dropWhile_of_all_false _ us.reverse, List.reverse_reverse]
  intro c hc
  exact h c (List.mem_reverse.1 hc)

/-- What `trim` removes from a string is a run of white space at its start and one at its
end. -/
theorem jsTrimUnits_decompose (us : List Nat) :
    ∃ pre post : List Nat, us = pre ++ jsTrimUnits us ++ post ∧
      (∀ u ∈ pre, isJsWhitespaceUnit u = true) ∧ (∀ u ∈ post, isJsWhitespaceUnit u = true) := by
  refine ⟨us.takeWhile isJsWhitespaceUnit,
    ((us.dropWhile isJsWhitespaceUnit).reverse.takeWhile isJsWhitespaceUnit).reverse, ?_, ?_, ?_⟩
  · unfold jsTrimUnits
    rw [List.append_assoc, ← List.reverse_append, List.takeWhile_append_dropWhile,
      List.reverse_reverse, List.takeWhile_append_dropWhile]
  · intro u hu
    exact List.mem_takeWhile_imp hu
  · intro u hu
    exact List.mem_takeWhile_imp (List.mem_reverse.1 hu)

theorem mem_splitSentencesUnits (st : AppState) (text seg : List Nat) :
    seg ∈ splitSentencesUnits st text ↔
      ∃ e ∈ splitLoop (fun u => decide (u ∈ delimUnits st)) text [],
        jsTrimUnits e ≠ [] ∧ seg = jsTrimUnits e := by
  unfold splitSentencesUnits
  simp only [List.mem_map, List.mem_filter]
  constructor
  · rintro ⟨⟨e, he, rfl⟩, hne⟩
    refine ⟨e, he, ?_, rfl⟩
    intro h
    rw [h] at hne
    simp at hne
  · rintro ⟨e, he, hne, rfl⟩
    refine ⟨⟨e, he, rfl⟩, ?_⟩
    cases hj : jsTrimUnits e with
    | nil => exact absurd hj hne
    | cons a l => rfl

theorem splitSentencesUnits_flatten (st : AppState) (text : List Nat) :
    (splitSentencesUnits st text).flatten =
      ((splitLoop (fun u => decide (u ∈ delimUnits st)) text []).map jsTrimUnits).flatten := by
  unfold splitSentencesUnits
  rw [List.flatten_filter_not_isEmpty]

/-- C13, amended: on the code units that the regex works on, for every text and every
delimiter configuration, every segment returned by the segmenter is either one code unit
of the separator class on its own (the separator that the capturing split keeps) or a
piece of text that contains no code unit of the class; and every code unit of the text
that is in the class and is not white space is returned as a segment of its own. -/
theorem splitSentencesUnits_segments (st : AppState) (text : List Nat) :
    (∀ seg ∈ splitSentencesUnits st text,
      (∃ u, seg = [u] ∧ u ∈ delimUnits st) ∨ (∀ u ∈ seg, u ∉ delimUnits st)) ∧
    (∀ u ∈ text, u ∈ delimUnits st → isJsWhitespaceUnit u = false →
      [u] ∈ splitSentencesUnits st text) := by
  constructor
  · intro seg hseg
    obtain ⟨e, he, hne, rfl⟩ := (mem_splitSentencesUnits st text seg).1 hseg
    rcases splitLoop_mem _ text [] (fun _ hc => absurd hc (List.not_mem_nil _)) e he
      with ⟨c, rfl, hc⟩ | hfree
    · left
      refine ⟨c, ?_, by simpa using hc⟩
      have hsub := jsTrimUnits_sublist [c]
      rcases List.sublist_singleton.1 hsub with h | h
      · exact absurd h hne
      · rw [h]
    · right
      intro c hc
      have hmem : c ∈ e := (jsTrimUnits_sublist e).subset hc
      simpa using hfree c hmem
  · intro c hc hd hw
    rw [mem_splitSentencesUnits]
    refine ⟨[c], splitLoop_delim_mem _ text c hc (by simpa using hd) [], ?_, ?_⟩
    · rw [jsTrimUnits_of_no_whitespace [c] (by simpa using hw)]
      exact List.cons_ne_nil _ _
    · rw [jsTrimUnits_of_no_whitespace [c] (by simpa using hw)]

/-- The elements of the capturing split, trimmed, joined and freed of separators: the
trimmed pieces between separators, joined. -/
theorem splitLoop_runs {α : Type} (p : α → Bool) (trim : List α → List α)
    (htrim : ∀ l, (trim l).Sublist l) (text : List α) :
    ∀ cur : List α, (∀ c ∈ cur, p c = false) →
      (((splitLoop p text cur).map trim).flatten).filter (fun c => !p c) =
        (((text.splitOnP p).modifyHead (cur ++ ·)).map trim).flatten := by
  have hkeep : ∀ l : List α, (∀ c ∈ l, p c = false) →
      (trim l).filter (fun c => !p c) = trim l := by
    intro l hl
    rw [List.filter_eq_self]
    intro a ha
    rw [hl a ((htrim l).subset ha)]
    rfl
  induction text with
  | nil =>
    intro cur hcur
    simp only [splitLoop, List.splitOnP_nil, List.modifyHead_cons, List.map_cons, List.map_nil,
      List.flatten_cons, List.flatten_nil, List.append_nil, List.filter_append, List.filter_nil]
    exact hkeep cur hcur
  | cons c rest ih =>
    intro cur hcur
    unfold splitLoop
    by_cases h : p c = true
    · rw [if_pos h, List.splitOnP_cons, if_pos h]
      have hdrop : (trim [c]).filter (fun c => !p c) = [] := by
        rw [List.filter_eq_nil_iff]
        intro a ha
        have : a ∈ [c] := (htrim [c]).subset ha
        rw [List.mem_singleton] at this
        rw [this, h]
        decide
      have ih0 := ih [] (fun _ hc => absurd hc (List.not_mem_nil _))
      have hid : (fun l : List α => [] ++ l) = id := by funext l; rfl
      rw [hid, List.modifyHead_id] at ih0
      simp only [List.map_cons, List.flatten_cons, List.filter_append, List.modifyHead_cons,
        List.append_nil]
      rw [hkeep cur hcur, hdrop, ih0]
      rfl
    · rw [if_neg h, List.splitOnP_cons, if_neg h]
      have hcur' : ∀ d ∈ cur ++ [c], p d = false := by
        intro d hd
        rcases List.mem_append.1 hd with hd | hd
        · exact hcur d hd
        · rw [List.mem_singleton] at hd
          subst hd
          simpa using h
      rw [ih (cur ++ [c]) hcur', List.modifyHead_modifyHead]
      congr 3
      funext l
      simp

theorem filter_not_eq_splitOnP_flatten {α : Type} (p : α → Bool) (text : List α) :
    text.filter (fun c => !p c) = (text.splitOnP p).flatten := by
  induction text with
  | nil => rfl
  | cons c rest ih =>
    rw [List.splitOnP_cons]
    by_cases h : p c = true
    · rw [if_pos h, List.filter_cons_of_neg (by simp [h]), ih]
      rfl
    · rw [if_neg h, List.filter_cons_of_pos (by simpa using h), ih]
      cases hs : rest.splitOnP p with
      | nil => exact absurd hs (List.splitOnP_ne_nil p rest)
      | cons a l => rfl

theorem mem_of_mem_splitOnP {α : Type} (p : α → Bool) (text run : List α)
    (hrun : run ∈ text.splitOnP p) (c : α) (hc : c ∈ run) : c ∈ text ∧ p c = false := by
  have hmem : c ∈ (text.splitOnP p).flatten := List.mem_flatten.2 ⟨run, hrun, hc⟩
  rw [← filter_not_eq_splitOnP_flatten, List.mem_filter] at hmem
  exact ⟨hmem.1, by simpa using hmem.2⟩

/-- C15: join the segments that the segmenter returns and drop the members of the
separator class: the result is the concatenation of the trimmed delimiter-free runs of
the text (the pieces between separators, `List.splitOnP`), while the text without its
separators is the concatenation of the runs themselves, and each run is its trim between
a run of white space before and a run of white space after.  So what is lost is white
space at the two ends of a delimiter-free run, at segment boundaries, and nothing else.
With no white space in the text the joined segments are the text itself and the two
sides are equal.  Stated on code units, for every text and delimiter configuration. -/
theorem splitSentencesUnits_reconstructs (st : AppState) (text : List Nat) :
    ((splitSentencesUnits st text).flatten).filter (fun u => decide (u ∉ delimUnits st)) =
      ((text.splitOnP (fun u => decide (u ∈ delimUnits st))).map jsTrimUnits).flatten ∧
    text.filter (fun u => decide (u ∉ delimUnits st)) =
      (text.splitOnP (fun u => decide (u ∈ delimUnits st))).flatten ∧
    (∀ run ∈ text.splitOnP (fun u => decide (u ∈ delimUnits st)),
      (∀ u ∈ run, u ∉ delimUnits st) ∧
      ∃ pre post : List Nat, run = pre ++ jsTrimUnits run ++ post ∧
        (∀ u ∈ pre, isJsWhitespaceUnit u = true) ∧
        (∀ u ∈ post, isJsWhitespaceUnit u = true)) ∧
    ((∀ u ∈ text, isJsWhitespaceUnit u = false) →
      (splitSentencesUnits st text).flatten = text ∧
      ((splitSentencesUnits st text).flatten).filter (fun u => decide (u ∉ delimUnits st)) =
        text.filter (fun u => decide (u ∉ delimUnits st))) := by
  have hnd : (fun u => decide (u ∉ delimUnits st)) =
      (fun u => !(fun u => decide (u ∈ delimUnits st)) u) := by
    funext u
    simp
  have h1 : ((splitSentencesUnits st text).flatten).filter
      (fun u => decide (u ∉ delimUnits st)) =
      ((text.splitOnP (fun u => decide (u ∈ delimUnits st))).map jsTrimUnits).flatten := by
    rw [splitSentencesUnits_flatten, hnd,
      splitLoop_runs (fun u => decide (u ∈ delimUnits st)) jsTrimUnits jsTrimUnits_sublist text []
        (fun _ hc => absurd hc (List.not_mem_nil _))]
    have hid : (fun l : List Nat => [] ++ l) = id := by funext l; rfl
    rw [hid, List.modifyHead_id]
    rfl
  have h2 : text.filter (fun u => decide (u ∉ delimUnits st)) =
      (text.splitOnP (fun u => decide (u ∈ delimUnits st))).flatten := by
    rw [hnd]
    exact filter_not_eq_splitOnP_flatten _ text
  refine ⟨h1, h2, ?_, ?_⟩
  · intro run hrun
    refine ⟨?_, jsTrimUnits_decompose run⟩
    intro u hu
    have := (mem_of_mem_splitOnP _ text run hrun u hu).2
    simpa using this
  · intro hws
    have hflat := splitLoop_flatten (fun u => decide (u ∈ delimUnits st)) text []
    rw [List.nil_append] at hflat
    have hself : (splitSentencesUnits st text).flatten = text := by
      rw [splitSentencesUnits_flatten]
      conv_rhs => rw [← hflat]
      congr 1
      conv_rhs => rw [← List.map_id' (splitLoop (fun u => decide (u ∈ delimUnits st)) text [])]
      apply List.map_congr_left
      intro e he
      apply jsTrimUnits_of_no_whitespace
      intro c hc
      apply hws
      rw [← hflat]
      exact List.mem_flatten.2 ⟨e, he, hc⟩
    exact ⟨hself, by rw [hself]⟩

/-! ## Characters and code units -/

theorem char_not_surrogate (c : Char) :
    (c.toNat < 0xD800 ∨ 0xDFFF < c.toNat) ∧ c.toNat < 0x110000 := by
  have h := c.valid
  have e : c.toNat = c.val.toNat := rfl
  rw [e]
  rcases h with h | ⟨h1, h2⟩
  · exact ⟨Or.inl h, lt_trans h (by decide)⟩
  · exact ⟨Or.inr h1, h2⟩

theorem char_toNat_inj (c d : Char) (h : c.toNat = d.toNat) : c = d := by
  have := congrArg Char.ofNat h
  rwa [Char.ofNat_toNat, Char.ofNat_toNat] at this

theorem utf16Encode_surrogates (c : Char) (h : ¬ c.toNat < 0x10000) :
    ∃ hi lo, utf16Encode c = [hi, lo] ∧ (0xD800 ≤ hi ∧ hi ≤ 0xDFFF) ∧
      (0xD800 ≤ lo ∧ lo ≤ 0xDFFF) := by
  obtain ⟨_, hlt⟩ := char_not_surrogate c
  refine ⟨_, _, by rw [utf16Encode, if_neg h], ?_, ?_⟩ <;> omega

theorem isJsWhitespaceUnit_surrogate (u : Nat) (h1 : 0xD800 ≤ u) (h2 : u ≤ 0xDFFF) :
    isJsWhitespaceUnit u = false := by
  unfold isJsWhitespaceUnit
  simp
  omega

theorem isJsWhitespace_eq_unit (c : Char) : isJsWhitespace c = isJsWhitespaceUnit c.toNat := rfl

theorem isJsWhitespace_of_astral (c : Char) (h : ¬ c.toNat < 0x10000) :
    isJsWhitespace c = false := by
  rw [isJsWhitespace_eq_unit]
  unfold isJsWhitespaceUnit
  simp
  omega

theorem encodeChars_cons (c : Char) (cs : List Char) :
    encodeChars (c :: cs) = utf16Encode c ++ encodeChars cs := by
  simp [encodeChars]

theorem encodeChars_append (as bs : List Char) :
    encodeChars (as ++ bs) = encodeChars as ++ encodeChars bs := by
  simp [encodeChars]

theorem utf16Encode_ne_nil (c : Char) : utf16Encode c ≠ [] := by
  unfold utf16Encode
  split <;> simp

theorem encodeChars_isEmpty (cs : List Char) : (encodeChars cs).isEmpty = cs.isEmpty := by
  cases cs with
  | nil => rfl
  | cons c cs =>
    rw [encodeChars_cons]
    cases h : utf16Encode c with
    | nil => exact absurd h (utf16Encode_ne_nil c)
    | cons a l => rfl

/-- With every delimiter in the basic plane, a code unit is a member of the separator
class exactly when it is the code of a delimiter character; no surrogate is. -/
theorem mem_delimUnits_of_bmp (st : AppState) (hbmp : ∀ d ∈ delimChars st, d.toNat < 0x10000)
    (u : Nat) : u ∈ delimUnits st ↔ ∃ d ∈ delimChars st, d.toNat = u := by
  unfold delimUnits encodeChars
  rw [List.mem_flatMap]
  constructor
  · rintro ⟨d, hd, hu⟩
    rw [utf16Encode, if_pos (hbmp d hd), List.mem_singleton] at hu
    exact ⟨d, hd, hu.symm⟩
  · rintro ⟨d, hd, rfl⟩
    refine ⟨d, hd, ?_⟩
    rw [utf16Encode, if_pos (hbmp d hd)]
    exact List.mem_singleton_self _

theorem toNat_mem_delimUnits (st : AppState) (hbmp : ∀ d ∈ delimChars st, d.toNat < 0x10000)
    (c : Char) : c.toNat ∈ delimUnits st ↔ c ∈ delimChars st := by
  rw [mem_delimUnits_of_bmp st hbmp]
  constructor
  · rintro ⟨d, hd, he⟩
    rw [← char_toNat_inj d c he]
    exact hd
  · intro hc
    exact ⟨c, hc, rfl⟩

theorem surrogate_not_mem_delimUnits (st : AppState)
    (hbmp : ∀ d ∈ delimChars st, d.toNat < 0x10000) (u : Nat) (h1 : 0xD800 ≤ u)
    (h2 : u ≤ 0xDFFF) : u ∉ delimUnits st := by
  rw [mem_delimUnits_of_bmp st hbmp]
  rintro ⟨d, _, rfl⟩
  rcases (char_not_surrogate d).1 with h | h <;> omega

theorem splitLoop_encodeChars (st : AppState)
    (hbmp : ∀ d ∈ delimChars st, d.toNat < 0x10000) (text : List Char) :
    ∀ cur : List Char,
      splitLoop (fun u => decide (u ∈ delimUnits st)) (encodeChars text) (encodeChars cur) =
        (splitLoop (fun c => decide (c ∈ delimChars st)) text cur).map encodeChars := by
  induction text with
  | nil => intro cur; rfl
  | cons c rest ih =>
    intro cur
    rw [encodeChars_cons]
    by_cases hc : c.toNat < 0x10000
    · have he : utf16Encode c = [c.toNat] := by rw [utf16Encode, if_pos hc]
      rw [he]
      simp only [List.singleton_append]
      unfold splitLoop
      by_cases hd : c ∈ delimChars st
      · have hu : c.toNat ∈ delimUnits st := (toNat_mem_delimUnits st hbmp c).2 hd
        simp only [hd, hu, decide_True, if_true, List.map_cons]
        have h0 := ih []
        have hnil : encodeChars [] = [] := rfl
        rw [hnil] at h0
        rw [h0]
        have h1 : encodeChars [c] = [c.toNat] := by
          rw [encodeChars_cons, he]
          rfl
        rw [h1]
      · have hu : c.toNat ∉ delimUnits st := fun h => hd ((toNat_mem_delimUnits st hbmp c).1 h)
        simp only [hd, hu, decide_False, if_false, Bool.false_eq_true]
        have h1 : encodeChars cur ++ [c.toNat] = encodeChars (cur ++ [c]) := by
          rw [encodeChars_append, encodeChars_cons, he]
          rfl
        rw [h1]
        exact ih _
    · obtain ⟨hi, lo, he, ⟨a1, a2⟩, ⟨b1, b2⟩⟩ := utf16Encode_surrogates c hc
      have hd : c ∉ delimChars st := fun h => hc (hbmp c h)
      have hhi := surrogate_not_mem_delimUnits st hbmp hi a1 a2
      have hlo := surrogate_not_mem_delimUnits st hbmp lo b1 b2
      rw [he]
      simp only [List.cons_append, List.nil_append]
      rw [splitLoop, if_neg (by simpa using hhi), splitLoop, if_neg (by simpa using hlo)]
      conv_rhs => rw [splitLoop, if_neg (by simpa using hd)]
      have h1 : encodeChars cur ++ [hi] ++ [lo] = encodeChars (cur ++ [c]) := by
        rw [encodeChars_append, encodeChars_cons, he]
        simp [encodeChars]
      rw [h1]
      exact ih _

theorem dropWhile_encodeChars (cs : List Char) :
    (encodeChars cs).dropWhile isJsWhitespaceUnit =
      encodeChars (cs.dropWhile isJsWhitespace) := by
  induction cs with
  | nil => rfl
  | cons c rest ih =>
    by_cases hc : c.toNat < 0x10000
    · have he : utf16Encode c = [c.toNat] := by rw [utf16Encode, if_pos hc]
      rw [encodeChars_cons, he]
      by_cases hw : isJsWhitespace c = true
      · have hu : isJsWhitespaceUnit c.toNat = true := hw
        simp only [List.singleton_append, List.dropWhile_cons, hw, hu, if_true]
        exact ih
      · have hu : ¬ isJsWhitespaceUnit c.toNat = true := hw
        simp only [List.singleton_append, List.dropWhile_cons, hw, hu, Bool.false_eq_true,
          if_false]
        rw [encodeChars_cons, he]
        rfl
    · obtain ⟨hi, lo, he, ⟨a1, a2⟩, _⟩ := utf16Encode_surrogates c hc
      have hw := isJsWhitespace_of_astral c hc
      have hu := isJsWhitespaceUnit_surrogate hi a1 a2
      rw [encodeChars_cons, he]
      simp only [List.cons_append, List.dropWhile_cons, hw, hu, Bool.false_eq_true, if_false]
      rw [encodeChars_cons, he]
      rfl

theorem rdropWhile_encodeChars (cs : List Char) :
    (encodeChars cs).rdropWhile isJsWhitespaceUnit =
      encodeChars (cs.rdropWhile isJsWhitespace) := by
  induction cs using List.reverseRecOn with
  | nil => rfl
  | append_singleton rest c ih =>
    rw [encodeChars_append]
    have h1 : encodeChars [c] = utf16Encode c := by
      rw [encodeChars_cons]
      exact List.append_nil _
    rw [h1]
    by_cases hc : c.toNat < 0x10000
    · have he : utf16Encode c = [c.toNat] := by rw [utf16Encode, if_pos hc]
      rw [he]
      by_cases hw : isJsWhitespace c = true
      · have hu : isJsWhitespaceUnit c.toNat = true := hw
        rw [List.rdropWhile_concat_pos _ _ _ hu, List.rdropWhile_concat_pos _ _ _ hw]
        exact ih
      · have hu : ¬ isJsWhitespaceUnit c.toNat = true := hw
        rw [List.rdropWhile_concat_neg _ _ _ hu, List.rdropWhile_concat_neg _ _ _ hw,
          encodeChars_append, h1, he]
    · obtain ⟨hi, lo, he, _, ⟨b1, b2⟩⟩ := utf16Encode_surrogates c hc
      have hw := isJsWhitespace_of_astral c hc
      have hu := isJsWhitespaceUnit_surrogate lo b1 b2
      rw [he]
      have h2 : encodeChars rest ++ [hi, lo] = (encodeChars rest ++ [hi]) ++ [lo] := by simp
      rw [h2, List.rdropWhile_concat_neg _ _ _ (by simp [hu]),
        List.rdropWhile_concat_neg _ _ _ (by simp [hw]), encodeChars_append, h1, he]
      simp

theorem jsTrimUnits_encodeChars (cs : List Char) :
    jsTrimUnits (encodeChars cs) = encodeChars (jsTrimChars cs) := by
  have h1 : ∀ us, jsTrimUnits us =
      (us.dropWhile isJsWhitespaceUnit).rdropWhile isJsWhitespaceUnit := fun _ => rfl
  have h2 : ∀ l, jsTrimChars l = (l.dropWhile isJsWhitespace).rdropWhile isJsWhitespace :=
    fun _ => rfl
  rw [h1, h2, dropWhile_encodeChars, rdropWhile_encodeChars]

/-- While every delimiter is one code unit, the segmenter on characters is the segmenter
on code units: `splitSentences` describes the source for every such configuration. -/
theorem splitSentencesUnits_toUnits (st : AppState)
    (hbmp : ∀ d ∈ delimChars st, d.toNat < 0x10000) (text : String) :
    splitSentencesUnits st (toUnits text) = (splitSentences st text).map toUnits := by
  unfold splitSentencesUnits splitSentences toUnits
  have h0 := splitLoop_encodeChars st hbmp text.toList []
  have hnil : encodeChars [] = [] := rfl
  rw [hnil] at h0
  rw [h0, List.map_map, List.map_map]
  have hcomp : (fun s : String => encodeChars s.toList) ∘ String.mk = encodeChars := rfl
  rw [hcomp]
  have hmap : List.map (jsTrimUnits ∘ encodeChars)
      (splitLoop (fun c => decide (c ∈ delimChars st)) text.toList []) =
      List.map encodeChars ((splitLoop (fun c => decide (c ∈ delimChars st)) text.toList []).map
        jsTrimChars) := by
    rw [List.map_map]
    apply List.map_congr_left
    intro e _
    exact jsTrimUnits_encodeChars e
  rw [hmap, List.filter_map]
  congr 2
  funext l
  simp only [Function.comp]
  rw [encodeChars_isEmpty]

/-- The built-in delimiters are single code units, so with the default settings the
segmenter on characters is the segmenter on code units. -/
theorem splitSentencesUnits_default (st : AppState)
    (h : st.settings.sentenceDelimiters = defaultSettings.sentenceDelimiters) (text : String) :
    splitSentencesUnits st (toUnits text) = (splitSentences st text).map toUnits := by
  apply splitSentencesUnits_toUnits
  have hd : delimChars st = delimChars stateFourSegments := by
    unfold delimChars
    rw [h]
    rfl
  rw [hd]
  decide

/-- A configured delimiter above `0xFFFF` : the class holds its two surrogates, the text
`a😀b` is cut inside the pair and the two lone surrogates come back as segments.  The
reading on characters, which returns the emoji whole, does not apply here. -/
theorem splitSentencesUnits_surrogate_example :
    toUnits "a😀b" = [0x61, 0xD83D, 0xDE00, 0x62] ∧
    splitSentencesUnits stateAstralDelimiter (toUnits "a😀b") =
      [[0x61], [0xD83D], [0xDE00], [0x62]] ∧
    splitSentences stateAstralDelimiter "a😀b" = ["a", "😀", "b"] := by
  refine ⟨?_, ?_, ?_⟩ <;> decide

/-- The reconstruction on a concrete text with the default delimiters: the blanks around
the runs are lost, the blank inside `a b` is kept. -/
theorem splitSentencesUnits_reconstructs_example :
    splitSentencesUnits stateFourSegments (toUnits " a b, c 。d ") =
      [toUnits "a b", toUnits ",", toUnits "c", toUnits "。", toUnits "d"] ∧
    (toUnits " a b, c 。d ").splitOnP (fun u => decide (u ∈ delimUnits stateFourSegments)) =
      [toUnits " a b", toUnits " c ", toUnits "d "] ∧
    ((splitSentencesUnits stateFourSegments (toUnits " a b, c 。d ")).flatten).filter
        (fun u => decide (u ∉ delimUnits stateFourSegments)) = toUnits "a bcd" := by
  refine ⟨?_, ?_, ?_⟩ <;> decide

/-- The property `str.length` counts the code units of the string. -/
theorem jsLength_eq (s : String) : jsLength s = (toUnits s).length := by
  unfold jsLength toUnits
  induction s.toList with
  | nil => rfl
  | cons c cs ih =>
    rw [encodeChars_cons, List.length_append, List.map_cons, List.sum_cons, ih]
    congr 1
    unfold utf16Units utf16Encode
    split <;> rfl

/-! ## Playback scheduler -/

theorem buildPlayerStepsForQa_isSome (st : AppState) (qa : Qa) :
    ∃ plan, buildPlayerStepsForQa st qa = some plan := by
  obtain ⟨_, _, h⟩ := buildPlayerStepsForQa_shape st qa
  exact ⟨_, h⟩

/-- The end-of-plan branch always returns, either ending the session or with the next
plan loaded. -/
theorem planExhausted_cases (s : Session) :
    planExhausted s = some (endSession s, LoopPc.exited) ∨
      ∃ nextId nextQa plan, autoChainTarget s = some nextId ∧ nextId ≠ "" ∧
        getQaById s.state nextId = some nextQa ∧
        buildPlayerStepsForQa { s.state with currentQaId := some nextId } nextQa = some plan ∧
        planExhausted s = some (autoChain s nextId plan, LoopPc.top) := by
  unfold planExhausted
  cases htarget : autoChainTarget s with
  | none => exact Or.inl rfl
  | some nextId =>
    by_cases hne : nextId ≠ ""
    · cases hqa : getQaById s.state nextId with
      | none => left; simp [hne, hqa]
      | some nextQa =>
        right
        obtain ⟨plan, hplan⟩ :=
          buildPlayerStepsForQa_isSome { s.state with currentQaId := some nextId } nextQa
        refine ⟨nextId, nextQa, plan, rfl, hne, hqa, hplan, ?_⟩
        have hplan2 : buildPlayerStepsForQa
            { qas := s.state.qas, settings := s.state.settings, currentQaId := some nextId }
            nextQa = some plan := hplan
        simp [hne, hqa, hplan2]
    · left; simp [hne]

theorem loopTop_isSome (s : Session) : ∃ r, loopTop s = some r := by
  unfold loopTop
  split
  · exact ⟨_, rfl⟩
  · split
    · exact ⟨_, rfl⟩
    · split
      · exact ⟨_, rfl⟩
      · split
        · rcases planExhausted_cases s with h | ⟨_, _, _, _, _, _, _, h⟩
          · exact ⟨_, h⟩
          · exact ⟨_, h⟩
        · split
          · exact ⟨_, rfl⟩
          · exact ⟨_, rfl⟩

/-- While `paused` is set, no event of the scheduler moves the cursor or touches the plan. -/
theorem stepEvent_paused (e : Event) (c : Session × LoopPc) (hp : c.1.player.paused = true) :
    ∃ c', stepEvent e c = some c' ∧ c'.1.player.stepIndex = c.1.player.stepIndex ∧
      c'.1.player.steps = c.1.player.steps := by
  obtain ⟨s, pc⟩ := c
  simp only at hp
  cases e with
  | pause =>
    refine ⟨_, rfl, ?_, ?_⟩ <;>
    · simp only [pausePlayer, stopTts]
      split <;> rfl
  | resume =>
    refine ⟨_, rfl, ?_, ?_⟩ <;>
    · simp only [resumePlayer]
      split
      · rfl
      · split <;> rfl
  | loop =>
    cases pc with
    | top =>
      by_cases hrun : s.player.running = false
      · exact ⟨(s, LoopPc.exited), by simp [stepEvent, loopTop, hrun], rfl, rfl⟩
      · by_cases htts : s.state.settings.ttsEnabled = false
        · exact ⟨(stopTts (endSession s), LoopPc.exited),
            by simp [stepEvent, loopTop, hrun, htts], rfl, rfl⟩
        · exact ⟨(s, LoopPc.top), by simp [stepEvent, loopTop, hrun, htts, hp], rfl, rfl⟩
    | speaking startIndex =>
      by_cases hrun : s.player.running = false
      · exact ⟨(s, LoopPc.exited), by simp [stepEvent, loopAfterSpeak, hrun], rfl, rfl⟩
      · exact ⟨(s, LoopPc.top), by simp [stepEvent, loopAfterSpeak, hrun, hp], rfl, rfl⟩
    | exited => exact ⟨_, rfl, rfl, rfl⟩

/-- Between a pause and the next resume the session is paused or not running; every event
but `resume` keeps that, the cursor and the plan. -/
theorem stepEvent_held (e : Event) (he : e ≠ Event.resume) (c : Session × LoopPc)
    (hinv : c.1.player.paused = true ∨ c.1.player.running = false) :
    ∃ c', stepEvent e c = some c' ∧ c'.1.player.stepIndex = c.1.player.stepIndex ∧
      c'.1.player.steps = c.1.player.steps ∧
      (c'.1.player.paused = true ∨ c'.1.player.running = false) := by
  obtain ⟨s, pc⟩ := c
  simp only at hinv
  cases e with
  | resume => exact absurd rfl he
  | pause =>
    by_cases hrun : s.player.running = false
    · exact ⟨(s, pc), by simp [stepEvent, pausePlayer, hrun], rfl, rfl, Or.inr hrun⟩
    · exact ⟨(stopTts { s with player := { s.player with paused := true } }, pc),
        by simp [stepEvent, pausePlayer, hrun], rfl, rfl, Or.inl rfl⟩
  | loop =>
    cases pc with
    | top =>
      by_cases hrun : s.player.running = false
      · exact ⟨(s, LoopPc.exited), by simp [stepEvent, loopTop, hrun], rfl, rfl, Or.inr hrun⟩
      · have hp : s.player.paused = true := hinv.resolve_right hrun
        by_cases htts : s.state.settings.ttsEnabled = false
        · exact ⟨(stopTts (endSession s), LoopPc.exited),
            by simp [stepEvent, loopTop, hrun, htts], rfl, rfl, Or.inr rfl⟩
        · exact ⟨(s, LoopPc.top), by simp [stepEvent, loopTop, hrun, htts, hp], rfl, rfl,
            Or.inl hp⟩
    | speaking startIndex =>
      by_cases hrun : s.player.running = false
      · exact ⟨(s, LoopPc.exited), by simp [stepEvent, loopAfterSpeak, hrun], rfl, rfl,
          Or.inr hrun⟩
      · have hp : s.player.paused = true := hinv.resolve_right hrun
        exact ⟨(s, LoopPc.top), by simp [stepEvent, loopAfterSpeak, hrun, hp], rfl, rfl,
          Or.inl hp⟩
    | exited => exact ⟨_, rfl, rfl, rfl, hinv⟩

theorem runEvents_held (evs : List Event) (hres : Event.resume ∉ evs) :
    ∀ c : Session × LoopPc, (c.1.player.paused = true ∨ c.1.player.running = false) →
      ∃ c', runEvents evs c = some c' ∧ c'.1.player.stepIndex = c.1.player.stepIndex ∧
        c'.1.player.steps = c.1.player.steps ∧
        (c'.1.player.paused = true ∨ c'.1.player.running = false) := by
  induction evs with
  | nil => intro c hinv; exact ⟨c, rfl, rfl, rfl, hinv⟩
  | cons e es ih =>
    intro c hinv
    have he : e ≠ Event.resume := fun h => hres (by rw [h]; exact List.mem_cons_self _ _)
    obtain ⟨c1, h1, hi1, hs1, hinv1⟩ := stepEvent_held e he c hinv
    obtain ⟨c2, h2, hi2, hs2, hinv2⟩ :=
      ih (fun h => hres (List.mem_cons_of_mem _ h)) c1 hinv1
    refine ⟨c2, ?_, by rw [hi2, hi1], by rw [hs2, hs1], hinv2⟩
    simp only [runEvents, h1, Option.some_bind, h2]

theorem pausePlayer_cursor (s : Session) :
    (pausePlayer s).player.stepIndex = s.player.stepIndex ∧
    (pausePlayer s).player.steps = s.player.steps ∧
    ((pausePlayer s).player.paused = true ∨ (pausePlayer s).player.running = false) := by
  by_cases hrun : s.player.running = false
  · simp [pausePlayer, hrun]
  · simp [pausePlayer, hrun, stopTts]

theorem resumePlayer_cursor (s : Session) :
    (resumePlayer s).player.stepIndex = s.player.stepIndex ∧
    (resumePlayer s).player.steps = s.player.steps := by
  unfold resumePlayer
  split
  · exact ⟨rfl, rfl⟩
  · split <;> exact ⟨rfl, rfl⟩

/-- The cursor is held across a pause.  In the step relation of the scheduler (events
`pause`, `resume`, `loop`, the last one being the loop running to its next suspension
point) an event taken while `paused = true` leaves `stepIndex` (and the plan) unchanged;
and `pausePlayer`, then any events other than a resume (loop iterations, further pauses;
no stop), then `resumePlayer` leave `stepIndex` and the plan as they were when the pause
was issued. -/
theorem scheduler_cursor_held (c0 : Session × LoopPc) (e : Event)
    (hp : c0.1.player.paused = true)
    (c : Session × LoopPc) (evs : List Event) (hres : Event.resume ∉ evs) :
    (∃ c1, stepEvent e c0 = some c1 ∧ c1.1.player.stepIndex = c0.1.player.stepIndex ∧
      c1.1.player.steps = c0.1.player.steps) ∧
    (∃ c1 c2 c3, stepEvent Event.pause c = some c1 ∧ runEvents evs c1 = some c2 ∧
      stepEvent Event.resume c2 = some c3 ∧
      c1.1.player.stepIndex = c.1.player.stepIndex ∧
      c2.1.player.stepIndex = c.1.player.stepIndex ∧
      c3.1.player.stepIndex = c.1.player.stepIndex ∧
      c3.1.player.steps = c.1.player.steps ∧
      c3.1.player.steps[c3.1.player.stepIndex]? = c.1.player.steps[c.1.player.stepIndex]?) := by
  refine ⟨stepEvent_paused e c0 hp, ?_⟩
  obtain ⟨hpi, hps, hpinv⟩ := pausePlayer_cursor c.1
  obtain ⟨c2, h2, hi2, hs2, _⟩ := runEvents_held evs hres (pausePlayer c.1, c.2) hpinv
  obtain ⟨hri, hrs⟩ := resumePlayer_cursor c2.1
  have hi3 : (resumePlayer c2.1).player.stepIndex = c.1.player.stepIndex := by
    rw [hri, hi2]; exact hpi
  have hs3 : (resumePlayer c2.1).player.steps = c.1.player.steps := by
    rw [hrs, hs2]; exact hps
  refine ⟨(pausePlayer c.1, c.2), c2, (resumePlayer c2.1, c2.2), rfl, h2, rfl, hpi, ?_, hi3,
    hs3, ?_⟩
  · rw [hi2]; exact hpi
  · show (resumePlayer c2.1).player.steps[(resumePlayer c2.1).player.stepIndex]? = _
    rw [hi3, hs3]

/-- On a running session with speech on `resumePlayer` clears `paused` and nothing else. -/
theorem resumePlayer_running (s : Session) (hrun : s.player.running = true)
    (htts : s.state.settings.ttsEnabled = true) :
    resumePlayer s = { s with player := { s.player with paused := false } } := by
  unfold resumePlayer
  rw [if_neg (by rw [hrun]; decide), if_neg (by rw [htts]; decide)]

/-- On a running session `pausePlayer` sets `paused` and drops the utterance. -/
theorem pausePlayer_running (s : Session) (hrun : s.player.running = true) :
    pausePlayer s =
      { s with player := { s.player with paused := true, speechUtterance := none } } := by
  unfold pausePlayer stopTts
  rw [if_neg (by rw [hrun]; decide)]

/-- C16: a running session with speech on whose loop waits in `await speak(..)` for step
`i`, the cursor at `i`.  Pause, the speech ending while paused, then resume: the loop is
back at its test with the cursor still at `i`, so step `i` is dispatched again.  Pause,
then resume before the speech has ended, then the speech ends: the loop finds
`paused = false` and the cursor where it left it, counts the interrupted step as spoken
and moves the cursor to `i + 1`.  The same pause and resume give two different steps to
go on with; in the second order playback does not resume at the step held at pause
time. -/
theorem scheduler_resume_before_speak_ends (s : Session) (i : Nat)
    (hrun : s.player.running = true)
    (htts : s.state.settings.ttsEnabled = true) (hi : s.player.stepIndex = i) :
    runEvents [Event.pause, Event.loop, Event.resume] (s, LoopPc.speaking i) =
      some ({ s with player := { s.player with paused := false, speechUtterance := none } },
        LoopPc.top) ∧
    runEvents [Event.pause, Event.resume, Event.loop] (s, LoopPc.speaking i) =
      some ({ s with
              player :=
                { s.player with
                  paused := false, speechUtterance := none, stepIndex := i + 1 } },
        LoopPc.top) := by
  constructor
  · simp [runEvents, stepEvent, pausePlayer, stopTts, resumePlayer, loopAfterSpeak, hrun, htts]
  · simp [runEvents, stepEvent, pausePlayer, stopTts, resumePlayer, loopAfterSpeak, hrun, htts,
      hi]

theorem scheduler_resume_before_speak_ends_witness :
    speakingSession.player.running = true ∧
    speakingSession.state.settings.ttsEnabled = true ∧ speakingSession.player.stepIndex = 0 ∧
    (runEvents [Event.pause, Event.loop, Event.resume] (speakingSession, LoopPc.speaking 0) =
      some ({ speakingSession with
              player := { speakingSession.player with paused := false, speechUtterance := none } },
        LoopPc.top) ∧
    runEvents [Event.pause, Event.resume, Event.loop] (speakingSession, LoopPc.speaking 0) =
      some ({ speakingSession with
              player :=
                { speakingSession.player with
                  paused := false, speechUtterance := none, stepIndex := 0 + 1 } },
        LoopPc.top)) :=
  ⟨by decide, by decide, by decide,
    scheduler_resume_before_speak_ends speakingSession 0 (by decide) (by decide) (by decide)⟩

/-- The two orders from the start of a plan, with the iteration that follows the resume:
after `loop, pause, loop, resume, loop` step 0 is being spoken again; after
`loop, pause, resume, loop, loop` step 1 is being spoken and step 0, cut by the pause, is
not spoken again. -/
theorem scheduler_resume_race_example :
    (runEvents [Event.loop] (startedSession, LoopPc.top)).map
        (fun c => (c.2, c.1.player.stepIndex, c.1.player.activeSentenceGlobalIndex)) =
      some (LoopPc.speaking 0, 0, none) ∧
    (runEvents [Event.loop, Event.pause, Event.loop, Event.resume, Event.loop]
        (startedSession, LoopPc.top)).map
        (fun c => (c.2, c.1.player.stepIndex, c.1.player.paused)) =
      some (LoopPc.speaking 0, 0, false) ∧
    (runEvents [Event.loop, Event.pause, Event.resume, Event.loop, Event.loop]
        (startedSession, LoopPc.top)).map
        (fun c => (c.2, c.1.player.stepIndex, c.1.player.paused)) =
      some (LoopPc.speaking 1, 1, false) := by
  refine ⟨?_, ?_, ?_⟩ <;> decide

/-! ## End of plan -/

theorem loopTop_exhausted (s : Session) (hrun : s.player.running = true)
    (htts : s.state.settings.ttsEnabled = true) (hp : s.player.paused = false)
    (hex : s.player.steps[s.player.stepIndex]? = none) :
    loopTop s = planExhausted s := by
  unfold loopTop
  simp [hrun, htts, hp, hex]

/-- C17: with `forceReciteCheck` on, whatever `autoPlayNextQa` and the record sequence
are, the iteration of `runPlayerLoop` that finds the plan exhausted does not auto-chain:
it returns with `running = false` and leaves the current record id, `qaId`, `mainQaId` and
the plan as they were. -/
theorem loopTop_force_check (s : Session) (hrun : s.player.running = true)
    (htts : s.state.settings.ttsEnabled = true) (hp : s.player.paused = false)
    (hex : s.player.steps[s.player.stepIndex]? = none)
    (hforce : s.state.settings.forceReciteCheck = true) :
    ∃ s', loopTop s = some (s', LoopPc.exited) ∧
      s'.player.running = false ∧
      s'.state.currentQaId = s.state.currentQaId ∧
      s'.player.qaId = s.player.qaId ∧
      s'.player.mainQaId = s.player.mainQaId ∧
      s'.player.steps = s.player.steps ∧
      s'.player.stepIndex = s.player.stepIndex ∧
      s'.state.qas = s.state.qas := by
  refine ⟨endSession s, ?_, rfl, rfl, rfl, rfl, rfl, rfl, rfl⟩
  rw [loopTop_exhausted s hrun htts hp hex]
  have htarget : autoChainTarget s = none := by
    unfold autoChainTarget
    simp [hforce]
  unfold planExhausted
  rw [htarget]

theorem loopTop_force_check_witness :
    (sessionAtEnd stateForceCheck).player.running = true ∧
    (sessionAtEnd stateForceCheck).state.settings.ttsEnabled = true ∧
    (sessionAtEnd stateForceCheck).player.paused = false ∧
    (sessionAtEnd stateForceCheck).player.steps[
      (sessionAtEnd stateForceCheck).player.stepIndex]? = none ∧
    (sessionAtEnd stateForceCheck).state.settings.forceReciteCheck = true ∧
    (sessionAtEnd stateForceCheck).state.settings.autoPlayNextQa = true ∧
    nextQaId stateForceCheck "q1" = some "q2" ∧
    ∃ s', loopTop (sessionAtEnd stateForceCheck) = some (s', LoopPc.exited) ∧
      s'.player.running = false ∧
      s'.state.currentQaId = (sessionAtEnd stateForceCheck).state.currentQaId ∧
      s'.player.qaId = (sessionAtEnd stateForceCheck).player.qaId ∧
      s'.player.mainQaId = (sessionAtEnd stateForceCheck).player.mainQaId ∧
      s'.player.steps = (sessionAtEnd stateForceCheck).player.steps ∧
      s'.player.stepIndex = (sessionAtEnd stateForceCheck).player.stepIndex ∧
      s'.state.qas = (sessionAtEnd stateForceCheck).state.qas :=
  ⟨by decide, by decide, by decide, by decide, by decide, by decide, by decide,
    loopTop_force_check (sessionAtEnd stateForceCheck) (by decide) (by decide) (by decide)
      (by decide) (by decide)⟩

theorem nextQaId_adjacent (st : AppState) (pre post : List Qa) (main next : Qa)
    (hq : st.qas = pre ++ main :: next :: post) (hn : (st.qas.map Qa.id).Nodup) :
    nextQaId st main.id = some next.id := by
  rw [hq] at hn
  obtain ⟨h1, _, _⟩ := ids_of_nodup pre post main next hn
  have hfi : findIndex (fun q => decide (q.id = main.id)) st.qas = some pre.length := by
    rw [hq, findIndex_append]
    · intro y hy
      simpa using h1 y hy
    · simp
  unfold nextQaId
  rw [hfi]
  have hlen : pre.length + 1 < st.qas.length := by
    rw [hq]
    simp
  simp only [hlen, if_true]
  have e : pre ++ main :: next :: post = (pre ++ [main]) ++ next :: post := by simp
  have hlen2 : pre.length + 1 = (pre ++ [main]).length := by simp
  rw [hq, e, hlen2, List.getElem?_append_right (le_refl _)]
  simp

theorem getQaById_next (st : AppState) (pre post : List Qa) (main next : Qa)
    (hq : st.qas = pre ++ main :: next :: post) (hn : (st.qas.map Qa.id).Nodup) :
    getQaById st next.id = some next := by
  rw [hq] at hn
  obtain ⟨_, h2, h3⟩ := ids_of_nodup pre post main next hn
  have e : pre ++ main :: next :: post = (pre ++ [main]) ++ next :: post := by simp
  unfold getQaById
  rw [hq, e, find?_append_cons]
  · intro y hy
    rcases List.mem_append.1 hy with h | h
    · simpa using h2 y h
    · rw [List.mem_singleton] at h
      subst h
      simpa using h3
  · simp

/-- The plan builder does not read the current record id. -/
theorem buildPlayerStepsForQa_currentQaId (st : AppState) (id : Option String) (qa : Qa) :
    buildPlayerStepsForQa { st with currentQaId := id } qa = buildPlayerStepsForQa st qa :=
  rfl

/-- C18: plan exhausted, TTS on, not paused, `autoPlayNextQa` on, `forceReciteCheck` off,
and the main record of the session (`player.mainQaId`, whatever `player.qaId` is) has the
positional successor `next` in the record sequence (ids pairwise distinct and non-empty
strings, as `uid()` makes them): the iteration of `runPlayerLoop` goes back to the loop
test with `running` still true, the current record id, `qaId` and `mainQaId` all set to
the id of `next`, the freshly built plan of `next` loaded, `stepIndex = 0`,
`reviewMode = false`, the recited text cleared, no locked segment and the pointer at 0. -/
theorem loopTop_auto_chain (s : Session) (pre post : List Qa) (main next : Qa)
    (hrun : s.player.running = true) (htts : s.state.settings.ttsEnabled = true)
    (hp : s.player.paused = false) (hex : s.player.steps[s.player.stepIndex]? = none)
    (hauto : s.state.settings.autoPlayNextQa = true)
    (hforce : s.state.settings.forceReciteCheck = false)
    (hq : s.state.qas = pre ++ main :: next :: post) (hn : (s.state.qas.map Qa.id).Nodup)
    (hmain : s.player.mainQaId = some main.id) (hmid : main.id ≠ "") (hnid : next.id ≠ "") :
    ∃ plan s', buildPlayerStepsForQa s.state next = some plan ∧
      loopTop s = some (s', LoopPc.top) ∧
      s'.player.running = true ∧ s'.player.paused = false ∧
      s'.state.currentQaId = some next.id ∧
      s'.player.qaId = some next.id ∧
      s'.player.mainQaId = some next.id ∧
      s'.player.steps = plan ∧
      s'.player.stepIndex = 0 ∧
      s'.player.reviewMode = false ∧
      s'.player.activeSentenceGlobalIndex = none ∧
      s'.inputRecited = "" ∧
      s'.reciteCheck.lockedSegments = [] ∧
      s'.reciteCheck.pointerSegment = 0 ∧
      s'.state.qas = s.state.qas := by
  obtain ⟨plan, hplan⟩ := buildPlayerStepsForQa_isSome s.state next
  have htarget : autoChainTarget s = some next.id := by
    unfold autoChainTarget
    simp only [hmain, truthyId, hforce, hauto]
    simp only [ne_eq, hmid, not_false_eq_true, decide_True, if_true, and_self]
    exact nextQaId_adjacent s.state pre post main next hq hn
  refine ⟨plan, autoChain s next.id plan, hplan, ?_, hrun, rfl, rfl, rfl, rfl, rfl, rfl, rfl,
    rfl, rfl, rfl, rfl, rfl⟩
  rw [loopTop_exhausted s hrun htts hp hex]
  unfold planExhausted
  rw [htarget]
  simp only [ne_eq, hnid, not_false_eq_true, if_true]
  rw [getQaById_next s.state pre post main next hq hn]
  simp only [buildPlayerStepsForQa_currentQaId, hplan, Option.map_some']

theorem loopTop_auto_chain_witness :
    (sessionAtEnd stateAutoPlay).player.running = true ∧
    (sessionAtEnd stateAutoPlay).state.settings.ttsEnabled = true ∧
    (sessionAtEnd stateAutoPlay).player.paused = false ∧
    (sessionAtEnd stateAutoPlay).player.steps[
      (sessionAtEnd stateAutoPlay).player.stepIndex]? = none ∧
    (sessionAtEnd stateAutoPlay).state.settings.autoPlayNextQa = true ∧
    (sessionAtEnd stateAutoPlay).state.settings.forceReciteCheck = false ∧
    (sessionAtEnd stateAutoPlay).state.qas = [] ++ exampleQa1 :: exampleQa2 :: [] ∧
    ((sessionAtEnd stateAutoPlay).state.qas.map Qa.id).Nodup ∧
    (sessionAtEnd stateAutoPlay).player.mainQaId = some exampleQa1.id ∧
    exampleQa1.id ≠ "" ∧ exampleQa2.id ≠ "" ∧
    ∃ plan s', buildPlayerStepsForQa (sessionAtEnd stateAutoPlay).state exampleQa2 = some plan ∧
      loopTop (sessionAtEnd stateAutoPlay) = some (s', LoopPc.top) ∧
      s'.player.running = true ∧ s'.player.paused = false ∧
      s'.state.currentQaId = some exampleQa2.id ∧
      s'.player.qaId = some exampleQa2.id ∧
      s'.player.mainQaId = some exampleQa2.id ∧
      s'.player.steps = plan ∧
      s'.player.stepIndex = 0 ∧
      s'.player.reviewMode = false ∧
      s'.player.activeSentenceGlobalIndex = none ∧
      s'.inputRecited = "" ∧
      s'.reciteCheck.lockedSegments = [] ∧
      s'.reciteCheck.pointerSegment = 0 ∧
      s'.state.qas = (sessionAtEnd stateAutoPlay).state.qas :=
  ⟨by decide, by decide, by decide, by decide, by decide, by decide, rfl, by decide, rfl,
    by decide, by decide,
    loopTop_auto_chain (sessionAtEnd stateAutoPlay) [] [] exampleQa1 exampleQa2 (by decide)
      (by decide) (by decide) (by decide) (by decide) (by decide) rfl (by decide) rfl
      (by decide) (by decide)⟩

/-- The auto-chain example of the specification, evaluated: two records, the plan of `q1`
exhausted; one iteration loads the 15 steps of `q2` and clears the check state. -/
theorem loopTop_auto_chain_example :
    (loopTop (sessionAtEnd stateAutoPlay)).map
        (fun c => (c.2, c.1.player.running, c.1.player.steps.length)) =
      some (LoopPc.top, true, 15) ∧
    (loopTop (sessionAtEnd stateAutoPlay)).map
        (fun c => (c.1.state.currentQaId, c.1.player.qaId, c.1.player.mainQaId)) =
      some (some "q2", some "q2", some "q2") ∧
    (loopTop (sessionAtEnd stateAutoPlay)).map
        (fun c => (c.1.player.stepIndex, c.1.inputRecited, c.1.reciteCheck.lockedSegments)) =
      some (0, "", []) := by
  refine ⟨?_, ?_, ?_⟩ <;> decide

/-! ## Stop and natural completion -/

/-- C19: from every session, whatever the player is doing, `stopPlayer` leaves the player
idle: `running = false`, `paused = false`, no steps, `stepIndex = 0`,
`activeSentenceGlobalIndex`, `qaId`, `mainQaId` cleared, `reviewMode = false`, no stored
utterance; the rest of the session is untouched and a second `stopPlayer` changes
nothing. -/
theorem stopPlayer_idle (s : Session) :
    (stopPlayer s).player.running = false ∧
    (stopPlayer s).player.paused = false ∧
    (stopPlayer s).player.steps = [] ∧
    (stopPlayer s).player.stepIndex = 0 ∧
    (stopPlayer s).player.activeSentenceGlobalIndex = none ∧
    (stopPlayer s).player.qaId = none ∧
    (stopPlayer s).player.mainQaId = none ∧
    (stopPlayer s).player.reviewMode = false ∧
    (stopPlayer s).player.speechUtterance = none ∧
    (stopPlayer s).player = idlePlayer ∧
    (stopPlayer s).inputRecited = s.inputRecited ∧
    (stopPlayer s).reciteCheck = s.reciteCheck ∧
    stopPlayer (stopPlayer s) = stopPlayer s :=
  ⟨rfl, rfl, rfl, rfl, rfl, rfl, rfl, rfl, rfl, rfl, rfl, rfl, rfl⟩

/-- An iteration of the loop on a stopped session returns at once: a stop is final for
the running loop. -/
theorem loopTop_after_stop (s : Session) :
    loopTop (stopPlayer s) = some (stopPlayer s, LoopPc.exited) := rfl

/-- C20, as stated, fails: with `autoPlayNextQa` off, the iteration that finds the plan of
`q1` exhausted returns with `running = false` and `paused = false`, but the two steps of
the plan, `stepIndex = 2`, `qaId` and `mainQaId` are still there, whereas `stopPlayer`
clears them. -/
theorem loopTop_completion_keeps_plan :
    (sessionAtEnd exampleState).state.settings.autoPlayNextQa = false ∧
    (sessionAtEnd exampleState).player.steps[(sessionAtEnd exampleState).player.stepIndex]? =
      none ∧
    (loopTop (sessionAtEnd exampleState)).map
        (fun c => (c.2, c.1.player.running, c.1.player.paused)) =
      some (LoopPc.exited, false, false) ∧
    (loopTop (sessionAtEnd exampleState)).map
        (fun c => (c.1.player.steps.length, c.1.player.stepIndex)) = some (2, 2) ∧
    (loopTop (sessionAtEnd exampleState)).map
        (fun c => (c.1.player.qaId, c.1.player.mainQaId)) = some (some "q1", some "q1") ∧
    (stopPlayer (sessionAtEnd exampleState)).player.steps.length = 0 ∧
    (stopPlayer (sessionAtEnd exampleState)).player.qaId = none := by
  refine ⟨?_, ?_, ?_, ?_, ?_, ?_, ?_⟩ <;> decide

/-- C20, amended: the iteration of `runPlayerLoop` that finds the plan exhausted always
returns a result; when it does not auto-chain (it ends the session, which is the case
whenever `forceReciteCheck` is on or `autoPlayNextQa` is off) it sets `running = false`,
`paused = false` and `activeSentenceGlobalIndex = null` and changes nothing else: the
plan, `stepIndex`, `qaId` and `mainQaId` keep their values. -/
theorem loopTop_natural_completion (s : Session) (hrun : s.player.running = true)
    (htts : s.state.settings.ttsEnabled = true) (hp : s.player.paused = false)
    (hex : s.player.steps[s.player.stepIndex]? = none) :
    ∃ s' pc, loopTop s = some (s', pc) ∧
      (pc = LoopPc.exited →
        s' = endSession s ∧
        s'.player.running = false ∧ s'.player.paused = false ∧
        s'.player.activeSentenceGlobalIndex = none ∧
        s'.player.steps = s.player.steps ∧
        s'.player.stepIndex = s.player.stepIndex ∧
        s'.player.qaId = s.player.qaId ∧
        s'.player.mainQaId = s.player.mainQaId ∧
        s'.state.currentQaId = s.state.currentQaId) ∧
      ((s.state.settings.forceReciteCheck = true ∨ s.state.settings.autoPlayNextQa = false) →
        pc = LoopPc.exited) := by
  rw [loopTop_exhausted s hrun htts hp hex]
  rcases planExhausted_cases s with h | ⟨nextId, nextQa, plan, htarget, _, _, _, h⟩
  · exact ⟨endSession s, LoopPc.exited, h,
      fun _ => ⟨rfl, rfl, rfl, rfl, rfl, rfl, rfl, rfl, rfl⟩, fun _ => rfl⟩
  · refine ⟨autoChain s nextId plan, LoopPc.top, h, fun hpc => ?_, fun hset => ?_⟩
    · exact absurd hpc (by decide)
    · exfalso
      unfold autoChainTarget at htarget
      rcases hset with hf | ha
      · simp [hf] at htarget
      · simp [ha] at htarget

theorem loopTop_natural_completion_witness :
    (sessionAtEnd exampleState).player.running = true ∧
    (sessionAtEnd exampleState).state.settings.ttsEnabled = true ∧
    (sessionAtEnd exampleState).player.paused = false ∧
    (sessionAtEnd exampleState).player.steps[(sessionAtEnd exampleState).player.stepIndex]? =
      none ∧
    ∃ s' pc, loopTop (sessionAtEnd exampleState) = some (s', pc) ∧
      (pc = LoopPc.exited →
        s' = endSession (sessionAtEnd exampleState) ∧
        s'.player.running = false ∧ s'.player.paused = false ∧
        s'.player.activeSentenceGlobalIndex = none ∧
        s'.player.steps = (sessionAtEnd exampleState).player.steps ∧
        s'.player.stepIndex = (sessionAtEnd exampleState).player.stepIndex ∧
        s'.player.qaId = (sessionAtEnd exampleState).player.qaId ∧
        s'.player.mainQaId = (sessionAtEnd exampleState).player.mainQaId ∧
        s'.state.currentQaId = (sessionAtEnd exampleState).state.currentQaId) ∧
      (((sessionAtEnd exampleState).state.settings.forceReciteCheck = true ∨
          (sessionAtEnd exampleState).state.settings.autoPlayNextQa = false) →
        pc = LoopPc.exited) :=
  ⟨by decide, by decide, by decide, by decide,
    loopTop_natural_completion (sessionAtEnd exampleState) (by decide) (by decide)
      (by decide) (by decide)⟩

/-- A whole session, evaluated: `startPlayer()` on the first record, then the loop runs
through the 15 steps of the plan (two events per step) and finds it exhausted; it returns
with `running = false` and the plan, the cursor and the ids still in place. -/
theorem scheduler_full_run_example :
    (runEvents (List.replicate 30 Event.loop) (startedSession, LoopPc.top)).map
        (fun c => (c.2, c.1.player.running, c.1.player.stepIndex)) =
      some (LoopPc.top, true, 15) ∧
    (runEvents (List.replicate 31 Event.loop) (startedSession, LoopPc.top)).map
        (fun c => (c.2, c.1.player.running, c.1.player.steps.length)) =
      some (LoopPc.exited, false, 15) ∧
    (runEvents (List.replicate 31 Event.loop) (startedSession, LoopPc.top)).map
        (fun c => (c.1.player.stepIndex, c.1.player.qaId, c.1.player.mainQaId)) =
      some (15, some "q1", some "q1") := by
  refine ⟨?_, ?_, ?_⟩ <;> decide

/-! ## The groups returned by `chunk` -/

theorem groupCountOf_mul_ge {α : Type} (n : Nat) (hn : 1 ≤ n) (xs : List α) :
    xs.length ≤ groupCountOf n xs * n ∧ groupCountOf n xs * n < xs.length + n := by
  unfold groupCountOf
  have h1 := Nat.div_mul_le_self (xs.length + n - 1) n
  have h2 := Nat.lt_div_mul_add (a := xs.length + n - 1) (b := n) (by omega)
  generalize (xs.length + n - 1) / n * n = p at h1 h2
  omega

theorem lt_of_lt_groupCountOf {α : Type} (n : Nat) (hn : 1 ≤ n) (xs : List α) (k : Nat)
    (hk : k < groupCountOf n xs) : k * n < xs.length := by
  have h := (groupCountOf_mul_ge n hn xs).2
  have h2 : (k + 1) * n ≤ groupCountOf n xs * n := Nat.mul_le_mul_right n hk
  rw [Nat.succ_mul] at h2
  omega

theorem full_of_not_last {α : Type} (n : Nat) (hn : 1 ≤ n) (xs : List α) (k : Nat)
    (hk : k + 1 < groupCountOf n xs) : k * n + n ≤ xs.length := by
  have h := lt_of_lt_groupCountOf n hn xs (k + 1) hk
  rw [Nat.succ_mul] at h
  omega

theorem consecutiveGroup_length {α : Type} (n : Nat) (xs : List α) (k : Nat) :
    (consecutiveGroup n xs k).length = min n (xs.length - k * n) := by
  unfold consecutiveGroup
  rw [List.length_take, List.length_drop]

theorem flatten_consecutive_take {α : Type} (n : Nat) (xs : List α) (m : Nat) :
    ((List.range m).map (consecutiveGroup n xs)).flatten = xs.take (m * n) := by
  induction m with
  | zero => simp
  | succ m ih =>
    rw [List.range_succ, List.map_append, List.flatten_append, ih, Nat.succ_mul,
      List.take_add]
    simp [consecutiveGroup]

theorem consecutiveGroups_flatten {α : Type} (n : Nat) (hn : 1 ≤ n) (xs : List α) :
    (consecutiveGroups n xs).flatten = xs := by
  unfold consecutiveGroups
  rw [flatten_consecutive_take]
  exact List.take_of_length_le (groupCountOf_mul_ge n hn xs).1

theorem mem_consecutiveGroups {α : Type} (n : Nat) (xs : List α) (g : List α) :
    g ∈ consecutiveGroups n xs ↔ ∃ k, k < groupCountOf n xs ∧ g = consecutiveGroup n xs k := by
  unfold consecutiveGroups
  simp only [List.mem_map, List.mem_range]
  constructor
  · rintro ⟨k, hk, rfl⟩
    exact ⟨k, hk, rfl⟩
  · rintro ⟨k, hk, rfl⟩
    exact ⟨k, hk, rfl⟩

/-- C21: for `size ≥ 1`, `chunk(xs, size)` returns (the loop ends within its
`xs.length + 1` iterations); the groups it returns concatenate to `xs` in order, every
group has between 1 and `size` elements, every group but the last has exactly `size`, and
the empty list gives no group.  The plan builder calls `chunk` with the clamped group
size, which lies in 1..10 whatever integer the settings hold. -/
theorem chunk_groups {α : Type} (xs : List α) (size : Nat) (hs : 1 ≤ size) :
    (∃ groups, chunk xs size = some groups ∧
      groups.flatten = xs ∧
      (∀ g ∈ groups, 1 ≤ g.length ∧ g.length ≤ size) ∧
      (∀ k, k + 1 < groups.length → (groups.getD k []).length = size) ∧
      (xs = [] → groups = [])) ∧
    (∀ (st : AppState) (qa : Qa) (review : Bool),
      1 ≤ (effGroupSize st).toNat ∧ (effGroupSize st).toNat ≤ 10 ∧
      buildStepsForQa st qa review =
        (chunk (splitSentences st qa.answerText) (effGroupSize st).toNat).map
          (fun groups => groupSteps qa review groups (effGroupSize st).toNat
            (effRoundCount st).toNat)) := by
  constructor
  · refine ⟨consecutiveGroups size xs, chunk_eq xs size hs,
      consecutiveGroups_flatten size hs xs, ?_, ?_, ?_⟩
    · intro g hg
      obtain ⟨k, hk, rfl⟩ := (mem_consecutiveGroups size xs g).1 hg
      rw [consecutiveGroup_length]
      have := lt_of_lt_groupCountOf size hs xs k hk
      omega
    · intro k hk
      rw [consecutiveGroups_length] at hk
      rw [consecutiveGroups_getD size xs k (by omega), consecutiveGroup_length]
      have := full_of_not_last size hs xs k hk
      omega
    · intro hnil
      subst hnil
      have h : groupCountOf size ([] : List α) = 0 := by
        unfold groupCountOf
        exact Nat.div_eq_of_lt (by simp; omega)
      unfold consecutiveGroups
      rw [h]
      rfl
  · intro st qa review
    have h := effGroupSize_bounds st
    refine ⟨by omega, by omega, rfl⟩

theorem chunk_groups_witness :
    1 ≤ 3 ∧
    (∃ groups, chunk ["s0", "s1", "s2", "s3", "s4"] 3 = some groups ∧
      groups.flatten = ["s0", "s1", "s2", "s3", "s4"] ∧
      (∀ g ∈ groups, 1 ≤ g.length ∧ g.length ≤ 3) ∧
      (∀ k, k + 1 < groups.length → (groups.getD k []).length = 3) ∧
      (["s0", "s1", "s2", "s3", "s4"] = [] → groups = [])) ∧
    (∀ (st : AppState) (qa : Qa) (review : Bool),
      1 ≤ (effGroupSize st).toNat ∧ (effGroupSize st).toNat ≤ 10 ∧
      buildStepsForQa st qa review =
        (chunk (splitSentences st qa.answerText) (effGroupSize st).toNat).map
          (fun groups => groupSteps qa review groups (effGroupSize st).toNat
            (effRoundCount st).toNat)) :=
  ⟨by decide, chunk_groups ["s0", "s1", "s2", "s3", "s4"] 3 (by decide)⟩

/-- The grouping example of the specification, evaluated; and the loop of `chunk` with
`size = 0` on a non-empty list, which never advances. -/
theorem chunk_example :
    chunk ["s0", "s1", "s2", "s3", "s4"] 3 = some [["s0", "s1", "s2"], ["s3", "s4"]] ∧
    chunk ([] : List String) 3 = some [] ∧
    chunk ["s0"] 0 = none := by
  refine ⟨?_, ?_, ?_⟩ <;> decide

/-! ## Watchdog of `speak` -/

theorem clamp_bounds {α : Type} [LinearOrder α] (v lo hi : α) (h : lo ≤ hi) :
    lo ≤ clamp v lo hi ∧ clamp v lo hi ≤ hi := by
  unfold clamp
  exact ⟨le_min (le_max_right _ _) h, min_le_right _ _⟩

theorem clamp_mono {α : Type} [LinearOrder α] (a b lo hi : α) (h : a ≤ b) :
    clamp a lo hi ≤ clamp b lo hi := by
  unfold clamp
  exact min_le_min (max_le_max h (le_refl _)) (le_refl _)

theorem jsRound_mono (x y : ℚ) (h : x ≤ y) : jsRound x ≤ jsRound y := by
  unfold jsRound
  exact Int.floor_le_floor (by linarith)

theorem roundDouble_eq_of_nat (x : ℚ) (c : Nat) (hx : x = (c : ℚ)) (hc : c < 2 ^ 53) :
    roundDouble x = x := by
  rw [hx]
  exact roundFloat_natCast 53 (by norm_num) c hc

theorem roundDouble_tenth : roundDouble (1 / 10) = 3602879701896397 / 36028797018963968 := by
  unfold roundDouble
  rw [roundFloat_eq_of_bounds 53 (1 / 10) (-4) 7205759403792794 (by norm_num) (by norm_num)
    (by norm_num) (by apply roundNearestEven_eq_of_lt <;> norm_num)]
  norm_num

theorem max_tenth_pos (r : ℚ) : 0 < max (roundDouble (1 / 10)) r := by
  rw [roundDouble_tenth]
  exact lt_of_lt_of_le (by norm_num) (le_max_left _ _)

theorem max_tenth_of_ge_half (r : ℚ) (h : 1 / 2 ≤ r) : max (roundDouble (1 / 10)) r = r := by
  rw [roundDouble_tenth]
  exact max_eq_right (le_trans (by norm_num) h)

theorem roundFloat_ge_half (p : Nat) (hp : 1 ≤ p) (x : ℚ) (hx : 1 / 2 ≤ x) :
    1 / 2 ≤ roundFloat p x := by
  have hpos : 0 < x := lt_of_lt_of_le (by norm_num) hx
  have hlog : (-1 : Int) ≤ Int.log 2 x :=
    (Int.zpow_le_iff_le_log (R := ℚ) (b := 2) (by norm_num) (x := -1) hpos).1
      (by norm_num; linarith)
  have h1 : (2 : ℚ) ^ (-1 : Int) ≤ (2 : ℚ) ^ Int.log 2 x :=
    zpow_le_zpow_right₀ (by norm_num) hlog
  have h2 := (roundFloat_bounds p hp x hpos).1
  norm_num at h1
  linarith

theorem utteranceRate_bounds (rateBits : Nat) (hb : 3 ≤ rateBits) (st : AppState) :
    1 / 2 ≤ utteranceRate rateBits st ∧ utteranceRate rateBits st ≤ 4 := by
  obtain ⟨c1, c2⟩ := clamp_bounds (numOr (roundDouble st.settings.rate) 1) (1 / 2 : ℚ) 4
    (by norm_num)
  unfold utteranceRate
  constructor
  · exact roundFloat_ge_half rateBits (by omega) _ c1
  · have h4 : (4 : Nat) < 2 ^ rateBits :=
      lt_of_lt_of_le (by norm_num : (4 : Nat) < 2 ^ 3) (Nat.pow_le_pow_right (by norm_num) hb)
    have := roundFloat_le_natCast rateBits (by omega) _ (lt_of_lt_of_le (by norm_num) c1) 4 h4
      (by push_cast; exact c2)
    simpa using this

theorem utteranceRate_of_one (rateBits : Nat) (hb : 1 ≤ rateBits) (st : AppState)
    (h : st.settings.rate = 1) : utteranceRate rateBits st = 1 := by
  unfold utteranceRate
  have h1 : roundDouble st.settings.rate = 1 := by
    rw [h]
    exact roundDouble_eq_of_nat 1 1 (by norm_num) (by norm_num)
  have h2 : clamp (numOr (1 : ℚ) 1) (1 / 2) 4 = ((1 : Nat) : ℚ) := by
    unfold clamp numOr
    norm_num
  rw [h1, h2]
  have hlt : (1 : Nat) < 2 ^ rateBits :=
    lt_of_lt_of_le (by norm_num : (1 : Nat) < 2 ^ 1) (Nat.pow_le_pow_right (by norm_num) hb)
  rw [roundFloat_natCast rateBits hb 1 hlt]
  norm_num

theorem estDouble_mono_length (n n' : Nat) (r : ℚ) (h : n ≤ n') :
    estDouble n r ≤ estDouble n' r := by
  have hm := max_tenth_pos r
  have hq : (n : ℚ) ≤ (n' : ℚ) := by exact_mod_cast h
  have hn : (0 : ℚ) ≤ (n : ℚ) := Nat.cast_nonneg n
  unfold estDouble roundDouble
  have a1 : roundFloat 53 ((n : ℚ) * 350) ≤ roundFloat 53 ((n' : ℚ) * 350) :=
    roundFloat_mono_nonneg 53 (by norm_num) _ _ (by positivity) (by linarith)
  have a0 : 0 ≤ roundFloat 53 ((n : ℚ) * 350) :=
    roundFloat_nonneg 53 (by norm_num) _ (by positivity)
  have b1 : roundFloat 53 (roundFloat 53 ((n : ℚ) * 350) / max (roundFloat 53 (1 / 10)) r) ≤
      roundFloat 53 (roundFloat 53 ((n' : ℚ) * 350) / max (roundFloat 53 (1 / 10)) r) :=
    roundFloat_mono_nonneg 53 (by norm_num) _ _ (div_nonneg a0 (le_of_lt hm))
      (div_le_div_of_nonneg_right a1 (le_of_lt hm))
  have b0 : 0 ≤ roundFloat 53 (roundFloat 53 ((n : ℚ) * 350) / max (roundFloat 53 (1 / 10)) r) :=
    roundFloat_nonneg 53 (by norm_num) _ (div_nonneg a0 (le_of_lt hm))
  exact roundFloat_mono_nonneg 53 (by norm_num) _ _ (by linarith) (by linarith)

theorem estDouble_anti_rate (n : Nat) (r r' : ℚ) (h : r ≤ r') :
    estDouble n r' ≤ estDouble n r := by
  have hm := max_tenth_pos r
  have hmm : max (roundDouble (1 / 10)) r ≤ max (roundDouble (1 / 10)) r' :=
    max_le_max (le_refl _) h
  unfold estDouble roundDouble at *
  have a0 : 0 ≤ roundFloat 53 ((n : ℚ) * 350) :=
    roundFloat_nonneg 53 (by norm_num) _ (by positivity)
  have hm' : 0 < max (roundFloat 53 (1 / 10)) r' := lt_of_lt_of_le hm hmm
  have b1 : roundFloat 53 (roundFloat 53 ((n : ℚ) * 350) / max (roundFloat 53 (1 / 10)) r') ≤
      roundFloat 53 (roundFloat 53 ((n : ℚ) * 350) / max (roundFloat 53 (1 / 10)) r) :=
    roundFloat_mono_nonneg 53 (by norm_num) _ _ (div_nonneg a0 (le_of_lt hm'))
      (div_le_div_of_nonneg_left a0 hm hmm)
  have b0 : 0 ≤ roundFloat 53 (roundFloat 53 ((n : ℚ) * 350) / max (roundFloat 53 (1 / 10)) r') :=
    roundFloat_nonneg 53 (by norm_num) _ (div_nonneg a0 (le_of_lt hm'))
  exact roundFloat_mono_nonneg 53 (by norm_num) _ _ (by linarith) (by linarith)

theorem watchdogMs_mono_length (n n' : Nat) (r : ℚ) (h : n ≤ n') :
    watchdogMs n r ≤ watchdogMs n' r :=
  clamp_mono _ _ _ _ (jsRound_mono _ _ (estDouble_mono_length n n' r h))

theorem watchdogMs_anti_rate (n : Nat) (r r' : ℚ) (h : r ≤ r') :
    watchdogMs n r' ≤ watchdogMs n r :=
  clamp_mono _ _ _ _ (jsRound_mono _ _ (estDouble_anti_rate n r r' h))

theorem jsRound_intCast (k : Int) : jsRound (k : ℚ) = k := by
  unfold jsRound
  rw [Int.floor_eq_iff]
  constructor <;> linarith

/-- For a text of at most 1100 code units the product `t.length * 350` is exact. -/
theorem estDouble_of_small (n : Nat) (hn : n ≤ 1100) (r : ℚ) (hr : 1 / 2 ≤ r) :
    estDouble n r = roundDouble (roundDouble ((350 * n : Nat) / r) + 1500) := by
  unfold estDouble
  rw [max_tenth_of_ge_half r hr,
    roundDouble_eq_of_nat ((n : ℚ) * 350) (350 * n) (by push_cast; ring) (by omega)]
  push_cast
  ring_nf

theorem estDouble_rate_one (n : Nat) (hn : n ≤ 1100) :
    estDouble n 1 = ((350 * n + 1500 : Nat) : ℚ) := by
  rw [estDouble_of_small n hn 1 (by norm_num), div_one,
    roundDouble_eq_of_nat _ (350 * n) rfl (by omega),
    roundDouble_eq_of_nat _ (350 * n + 1500) (by push_cast; ring) (by omega)]
  push_cast
  ring

theorem watchdogMs_ge_of_large (n : Nat) (hn : 1100 ≤ n) (r : ℚ) (hr : r ≤ 4) :
    watchdogMs n r = 90000 := by
  have h1 : watchdogMs 1100 4 ≤ watchdogMs n r :=
    le_trans (watchdogMs_anti_rate 1100 r 4 hr) (watchdogMs_mono_length 1100 n r hn)
  have h2 : watchdogMs 1100 4 = 90000 := by
    unfold watchdogMs estMs
    rw [estDouble_of_small 1100 (le_refl _) 4 (by norm_num),
      roundDouble_eq_of_nat (((350 * 1100 : Nat) : ℚ) / 4) 96250 (by norm_num) (by norm_num),
      roundDouble_eq_of_nat (((350 * 1100 : Nat) : ℚ) / 4 + 1500) 97750 (by norm_num)
        (by norm_num)]
    have : ((350 * 1100 : Nat) : ℚ) / 4 + 1500 = ((97750 : Int) : ℚ) := by norm_num
    rw [this, jsRound_intCast]
    decide
  have h3 := (clamp_bounds (estMs n r) 3000 90000 (by norm_num)).2
  unfold watchdogMs at h1 h2 h3 ⊢
  omega

/-- At rate 1 every operation of the estimate is exact. -/
theorem watchdogMs_rate_one (n : Nat) :
    watchdogMs n 1 = clamp (350 * (n : Int) + 1500) 3000 90000 := by
  rcases Nat.lt_or_ge n 1100 with h | h
  · unfold watchdogMs estMs
    rw [estDouble_rate_one n (le_of_lt h)]
    have : (((350 * n + 1500 : Nat)) : ℚ) = ((350 * (n : Int) + 1500 : Int) : ℚ) := by
      push_cast
      ring
    rw [this, jsRound_intCast]
  · rw [watchdogMs_ge_of_large n h 1 (by norm_num)]
    unfold clamp
    omega

theorem clamp_int_near (a b lo hi : Int) (h : |a - b| ≤ 1) :
    |clamp a lo hi - clamp b lo hi| ≤ 1 := by
  unfold clamp
  rw [abs_le] at h ⊢
  omega

/-- The double estimate stays within one millisecond of the exact formula taken at the
rate that the utterance holds. -/
theorem watchdogMs_near (n : Nat) (r : ℚ) (h1 : 1 / 2 ≤ r) (h2 : r ≤ 4) :
    |watchdogMs n r - clamp ⌊350 * (n : ℚ) / r + 1500 + 1 / 2⌋ 3000 90000| ≤ 1 := by
  have hr : 0 < r := lt_of_lt_of_le (by norm_num) h1
  rcases Nat.lt_or_ge n 1100 with h | h
  · apply clamp_int_near
    unfold estMs jsRound
    rw [estDouble_of_small n (le_of_lt h) r h1]
    have hnq : (n : ℚ) < 1100 := by exact_mod_cast h
    have hn0 : (0 : ℚ) ≤ (n : ℚ) := Nat.cast_nonneg n
    have hcast : ((350 * n : Nat) : ℚ) / r = 350 * (n : ℚ) / r := by push_cast; ring
    rw [hcast]
    have hQ0 : 0 ≤ 350 * (n : ℚ) / r := by positivity
    have hQ1 : 350 * (n : ℚ) / r < 770000 := by
      rw [div_lt_iff₀ hr]
      nlinarith
    have e1 : |roundDouble (350 * (n : ℚ) / r) - 350 * (n : ℚ) / r| ≤ 1 / 2 ^ 34 := by
      rcases lt_or_eq_of_le hQ0 with hp | hz
      · have := roundFloat_error_of_lt 53 _ hp 19 (by norm_num; linarith)
        norm_num at this ⊢
        exact this
      · rw [← hz]
        unfold roundDouble
        rw [roundFloat_zero]
        norm_num
    rw [abs_le] at e1
    have hq0 : 0 ≤ roundDouble (350 * (n : ℚ) / r) :=
      roundFloat_nonneg 53 (by norm_num) _ hQ0
    have e2 : |roundDouble (roundDouble (350 * (n : ℚ) / r) + 1500) -
        (roundDouble (350 * (n : ℚ) / r) + 1500)| ≤ 1 / 2 ^ 34 := by
      have := roundFloat_error_of_lt 53 (roundDouble (350 * (n : ℚ) / r) + 1500)
        (by linarith) 19 (by norm_num; linarith)
      norm_num at this ⊢
      exact this
    rw [abs_le] at e2
    generalize roundDouble (roundDouble (350 * (n : ℚ) / r) + 1500) = a at e2 ⊢
    generalize roundDouble (350 * (n : ℚ) / r) = q at e1 e2 hq0
    generalize 350 * (n : ℚ) / r = Q at e1 hQ0 hQ1 ⊢
    have hlo : ⌊Q + 1500 + 1 / 2⌋ - 1 ≤ ⌊a + 1 / 2⌋ := by
      rw [Int.le_floor]
      have := Int.floor_le (Q + 1500 + 1 / 2)
      push_cast
      linarith
    have hhi : ⌊a + 1 / 2⌋ - 1 ≤ ⌊Q + 1500 + 1 / 2⌋ := by
      rw [Int.le_floor]
      have := Int.floor_le (a + 1 / 2)
      push_cast
      linarith
    rw [abs_le]
    omega
  · rw [watchdogMs_ge_of_large n h r h2]
    have hnq : (1100 : ℚ) ≤ (n : ℚ) := by exact_mod_cast h
    have hX : (97750 : ℚ) ≤ 350 * (n : ℚ) / r + 1500 := by
      have : (96250 : ℚ) ≤ 350 * (n : ℚ) / r := by
        rw [le_div_iff₀ hr]
        nlinarith
      linarith
    have hf : (97750 : Int) ≤ ⌊350 * (n : ℚ) / r + 1500 + 1 / 2⌋ := by
      rw [Int.le_floor]
      push_cast
      linarith
    unfold clamp
    rw [abs_le]
    omega

theorem utteranceRate_example :
    utteranceRate 53 sessionRateFast.state = 1261007895663739 / 1125899906842624 ∧
    utteranceRate 24 sessionRateFast.state = 9395241 / 8388608 := by
  have h1 : roundDouble sessionRateFast.state.settings.rate =
      1261007895663739 / 1125899906842624 := by
    have : sessionRateFast.state.settings.rate = 28 / 25 := rfl
    rw [this]
    unfold roundDouble
    rw [roundFloat_eq_of_bounds 53 (28 / 25) 0 5044031582654956 (by norm_num) (by norm_num)
      (by norm_num) (by apply roundNearestEven_eq_of_lt <;> norm_num)]
    norm_num
  have h2 : clamp (numOr (1261007895663739 / 1125899906842624 : ℚ) 1) (1 / 2) 4 =
      1261007895663739 / 1125899906842624 := by
    unfold clamp numOr
    norm_num
  unfold utteranceRate
  rw [h1, h2]
  constructor
  · rw [roundFloat_eq_of_bounds 53 _ 0 5044031582654956 (by norm_num) (by norm_num)
      (by norm_num) (by apply roundNearestEven_eq_of_lt <;> norm_num)]
    norm_num
  · rw [roundFloat_eq_of_bounds 24 _ 0 9395241 (by norm_num) (by norm_num)
      (by norm_num) (by apply roundNearestEven_eq_of_lt <;> norm_num)]
    norm_num

theorem estMs_example_double : estMs 17 (1261007895663739 / 1125899906842624) = 6812 := by
  unfold estMs
  rw [estDouble_of_small 17 (by norm_num) _ (by norm_num)]
  have e1 : roundDouble (((350 * 17 : Nat) : ℚ) / (1261007895663739 / 1125899906842624)) =
      5841155522559999 / 1099511627776 := by
    unfold roundDouble
    rw [roundFloat_eq_of_bounds 53 _ 12 5841155522559999 (by norm_num) (by norm_num)
      (by norm_num) (by apply roundNearestEven_eq_of_lt <;> norm_num)]
    norm_num
  have e2 : roundDouble (5841155522559999 / 1099511627776 + 1500) =
      7490422964223999 / 1099511627776 := by
    unfold roundDouble
    rw [roundFloat_eq_of_bounds 53 _ 12 7490422964223999 (by norm_num) (by norm_num)
      (by norm_num) (by apply roundNearestEven_eq_of_lt <;> norm_num)]
    norm_num
  rw [e1, e2]
  unfold jsRound
  rw [Int.floor_eq_iff]
  norm_num

theorem estMs_example_single : estMs 17 (9395241 / 8388608) = 6812 := by
  unfold estMs
  rw [estDouble_of_small 17 (by norm_num) _ (by norm_num)]
  have e1 : roundDouble (((350 * 17 : Nat) : ℚ) / (9395241 / 8388608)) =
      5841155497691429 / 1099511627776 := by
    unfold roundDouble
    rw [roundFloat_eq_of_bounds 53 _ 12 5841155497691429 (by norm_num) (by norm_num)
      (by norm_num) (by apply roundNearestEven_eq_of_lt <;> norm_num)]
    norm_num
  have e2 : roundDouble (5841155497691429 / 1099511627776 + 1500) =
      7490422939355429 / 1099511627776 := by
    unfold roundDouble
    rw [roundFloat_eq_of_bounds 53 _ 12 7490422939355429 (by norm_num) (by norm_num)
      (by norm_num) (by apply roundNearestEven_eq_of_lt <;> norm_num)]
    norm_num
  rw [e1, e2]
  unfold jsRound
  rw [Int.floor_eq_iff]
  norm_num

/-- C22, counterexample: a text of 17 code units at the rate setting 1.12. The formula
`clamp(round(350 * n / r + 1500), 3000, 90000)` at `r = 1.12` is 6813 (the estimate is
exactly 6812.5), but `speak` arms its watchdog with 6812 ms, whether the utterance keeps
the rate as a double or as a 32-bit float: the number 1.12 is not a binary fraction and
the double quotient falls below 5312.5. -/
theorem speak_watchdog_rate_rounding :
    jsLength (jsTrim "abcdefghijklmnopq") = 17 ∧
    effRate sessionRateFast.state = 28 / 25 ∧
    clamp ⌊350 * (jsLength (jsTrim "abcdefghijklmnopq") : ℚ) / effRate sessionRateFast.state +
      1500 + 1 / 2⌋ 3000 90000 = 6813 ∧
    speakWatchdog 53 sessionRateFast "abcdefghijklmnopq" = some 6812 ∧
    speakWatchdog 24 sessionRateFast "abcdefghijklmnopq" = some 6812 := by
  have hlen : jsLength (jsTrim "abcdefghijklmnopq") = 17 := by decide
  have hrate : effRate sessionRateFast.state = 28 / 25 := by
    have : sessionRateFast.state.settings.rate = 28 / 25 := rfl
    unfold effRate clamp numOr
    rw [this]
    norm_num
  obtain ⟨u53, u24⟩ := utteranceRate_example
  have hblank : jsTrim "abcdefghijklmnopq" ≠ "" := by decide
  have htts : sessionRateFast.state.settings.ttsEnabled = true := rfl
  have hsup : sessionRateFast.speechSupported = true := rfl
  refine ⟨hlen, hrate, ?_, ?_, ?_⟩
  · rw [hlen, hrate]
    have : ⌊350 * ((17 : Nat) : ℚ) / (28 / 25) + 1500 + 1 / 2⌋ = 6813 := by
      rw [Int.floor_eq_iff]
      norm_num
    rw [this]
    decide
  · unfold speakWatchdog
    rw [if_neg hblank, if_neg (by rw [htts]; decide), if_neg (by rw [hsup]; decide), hlen, u53]
    unfold watchdogMs
    rw [estMs_example_double]
    decide
  · unfold speakWatchdog
    rw [if_neg hblank, if_neg (by rw [htts]; decide), if_neg (by rw [hsup]; decide), hlen, u24]
    unfold watchdogMs
    rw [estMs_example_single]
    decide

/-- C22: for a text that is not blank (speech on and supported, so that `speak` arms its
watchdog), with `n` the length of the trimmed text in code units and `r` the rate that the
utterance holds (the setting as a double, clamped to [0.5, 4], kept with 24 or 53
significant bits), the watchdog delay is `clamp(Math.round(e), 3000, 90000)` where `e` is
`350 * n / r + 1500` computed in double arithmetic. It is within one millisecond of
`clamp(round(350 * n / r + 1500), 3000, 90000)`, equal to it when the rate setting is 1,
lies between 3000 and 90000, does not decrease when `n` grows and does not increase when
`r` grows. -/
theorem speak_watchdog (rateBits : Nat) (hbits : 3 ≤ rateBits) (s : Session) (text : String)
    (hblank : jsTrim text ≠ "")
    (htts : s.state.settings.ttsEnabled = true) (hsup : s.speechSupported = true) :
    ∃ w, speakWatchdog rateBits s text = some w ∧
      w = clamp (jsRound (estDouble (jsLength (jsTrim text)) (utteranceRate rateBits s.state)))
        3000 90000 ∧
      (1 / 2 ≤ utteranceRate rateBits s.state ∧ utteranceRate rateBits s.state ≤ 4) ∧
      |w - clamp ⌊350 * (jsLength (jsTrim text) : ℚ) / utteranceRate rateBits s.state +
        1500 + 1 / 2⌋ 3000 90000| ≤ 1 ∧
      (s.state.settings.rate = 1 →
        w = clamp (350 * (jsLength (jsTrim text) : Int) + 1500) 3000 90000) ∧
      (3000 ≤ w ∧ w ≤ 90000) ∧
      (∀ (n n' : Nat) (r : ℚ), n ≤ n' → watchdogMs n r ≤ watchdogMs n' r) ∧
      (∀ (n : Nat) (r r' : ℚ), r ≤ r' → watchdogMs n r' ≤ watchdogMs n r) := by
  obtain ⟨r1, r2⟩ := utteranceRate_bounds rateBits hbits s.state
  refine ⟨watchdogMs (jsLength (jsTrim text)) (utteranceRate rateBits s.state), ?_, rfl,
    ⟨r1, r2⟩, watchdogMs_near _ _ r1 r2, ?_, clamp_bounds _ _ _ (by norm_num),
    watchdogMs_mono_length, watchdogMs_anti_rate⟩
  · unfold speakWatchdog
    simp [hblank, htts, hsup]
  · intro hone
    rw [utteranceRate_of_one rateBits (by omega) s.state hone]
    exact watchdogMs_rate_one _

theorem speak_watchdog_witness :
    3 ≤ 24 ∧ jsTrim " s0 s1 s2 s3 s4 " ≠ "" ∧
    exampleSession.state.settings.ttsEnabled = true ∧ exampleSession.speechSupported = true ∧
    ∃ w, speakWatchdog 24 exampleSession " s0 s1 s2 s3 s4 " = some w ∧
      w = clamp (jsRound (estDouble (jsLength (jsTrim " s0 s1 s2 s3 s4 "))
        (utteranceRate 24 exampleSession.state))) 3000 90000 ∧
      (1 / 2 ≤ utteranceRate 24 exampleSession.state ∧
        utteranceRate 24 exampleSession.state ≤ 4) ∧
      |w - clamp ⌊350 * (jsLength (jsTrim " s0 s1 s2 s3 s4 ") : ℚ) /
        utteranceRate 24 exampleSession.state + 1500 + 1 / 2⌋ 3000 90000| ≤ 1 ∧
      (exampleSession.state.settings.rate = 1 →
        w = clamp (350 * (jsLength (jsTrim " s0 s1 s2 s3 s4 ") : Int) + 1500) 3000 90000) ∧
      (3000 ≤ w ∧ w ≤ 90000) ∧
      (∀ (n n' : Nat) (r : ℚ), n ≤ n' → watchdogMs n r ≤ watchdogMs n' r) ∧
      (∀ (n : Nat) (r r' : ℚ), r ≤ r' → watchdogMs n r' ≤ watchdogMs n r) :=
  ⟨by decide, by decide, by decide, by decide,
    speak_watchdog 24 (by decide) exampleSession " s0 s1 s2 s3 s4 " (by decide) (by decide)
      (by decide)⟩

/-- The watchdog on concrete inputs: 14 code units at rate 1 give 350*14 + 1500 = 6400 ms;
2 code units give 2200, raised to the floor of 3000; 1000 code units at rate 0.5 give
701500, cut to the ceiling of 90000. -/
theorem watchdogMs_example :
    jsLength (jsTrim " s0 s1 s2 s3 s4 ") = 14 ∧
    speakWatchdog 24 exampleSession " s0 s1 s2 s3 s4 " = some 6400 ∧
    watchdogMs 14 1 = 6400 ∧ watchdogMs 2 1 = 3000 ∧ watchdogMs 1000 (1 / 2) = 90000 := by
  have hlen : jsLength (jsTrim " s0 s1 s2 s3 s4 ") = 14 := by decide
  refine ⟨hlen, ?_, ?_, ?_, ?_⟩
  · have hblank : jsTrim " s0 s1 s2 s3 s4 " ≠ "" := by decide
    have htts : exampleSession.state.settings.ttsEnabled = true := rfl
    have hsup : exampleSession.speechSupported = true := rfl
    unfold speakWatchdog
    rw [if_neg hblank, if_neg (by rw [htts]; decide), if_neg (by rw [hsup]; decide), hlen,
      utteranceRate_of_one 24 (by norm_num) exampleSession.state rfl, watchdogMs_rate_one]
    decide
  · rw [watchdogMs_rate_one]
    decide
  · rw [watchdogMs_rate_one]
    decide
  · have h : estMs 1000 (1 / 2) = 701500 := by
      unfold estMs
      rw [estDouble_of_small 1000 (by norm_num) _ (by norm_num),
        roundDouble_eq_of_nat (((350 * 1000 : Nat) : ℚ) / (1 / 2)) 700000 (by norm_num)
          (by norm_num),
        roundDouble_eq_of_nat (((350 * 1000 : Nat) : ℚ) / (1 / 2) + 1500) 701500 (by norm_num)
          (by norm_num)]
      have : ((350 * 1000 : Nat) : ℚ) / (1 / 2) + 1500 = ((701500 : Int) : ℚ) := by norm_num
      rw [this, jsRound_intCast]
    unfold watchdogMs clamp
    rw [h]
    decide

/-! ## Indices carried by the steps -/

theorem consecutiveGroup_getD (n : Nat) (xs : List String) (k i : Nat)
    (hi : i < (consecutiveGroup n xs k).length) :
    i < n ∧ k * n + i < xs.length ∧
      xs[k * n + i]? = some ((consecutiveGroup n xs k).getD i "") := by
  have hlen := consecutiveGroup_length n xs k
  have h1 : i < n := by rw [hlen] at hi; omega
  have h2 : k * n + i < xs.length := by rw [hlen] at hi; omega
  refine ⟨h1, h2, ?_⟩
  rw [List.getD_eq_getElem _ _ hi, List.getElem?_eq_getElem h2]
  congr 1
  unfold consecutiveGroup
  rw [List.getElem_take, List.getElem_drop]

theorem groupCountOf_eq_ceil {α : Type} (n : Nat) (hn : 1 ≤ n) (xs : List α) :
    groupCountOf n xs = ⌈(xs.length : ℚ) / (n : ℚ)⌉₊ := by
  obtain ⟨h1, h2⟩ := groupCountOf_mul_ge n hn xs
  have hpos : (0 : ℚ) < (n : ℚ) := by exact_mod_cast hn
  apply le_antisymm
  · have hc : (xs.length : ℚ) / (n : ℚ) ≤ (⌈(xs.length : ℚ) / (n : ℚ)⌉₊ : ℚ) :=
      Nat.le_ceil _
    rw [div_le_iff₀ hpos] at hc
    have hc2 : xs.length ≤ ⌈(xs.length : ℚ) / (n : ℚ)⌉₊ * n := by exact_mod_cast hc
    have h3 : groupCountOf n xs * n < (⌈(xs.length : ℚ) / (n : ℚ)⌉₊ + 1) * n := by
      rw [Nat.succ_mul]; omega
    have := Nat.lt_of_mul_lt_mul_right h3
    omega
  · rw [Nat.ceil_le, div_le_iff₀ hpos]
    exact_mod_cast h1

/-- C23: `buildStepsForQa` returns, and every step it returns carries a group index `g`
below the number of groups, a position `i` in the group below the group size, and
`globalSentenceIndex = g * groupSize + i`, which is a valid index into the list returned
by `splitSentences`, the text of the step being the segment at that index; `groupCount` is
the number of groups `⌈segments / groupSize⌉` in every step.  Here `groupSize` is the
clamped group size, always in 1..10. -/
theorem buildStepsForQa_indices (st : AppState) (qa : Qa) (review : Bool) :
    (1 ≤ (effGroupSize st).toNat ∧ (effGroupSize st).toNat ≤ 10) ∧
    groupCountOf (effGroupSize st).toNat (splitSentences st qa.answerText) =
      ⌈((splitSentences st qa.answerText).length : ℚ) / ((effGroupSize st).toNat : ℚ)⌉₊ ∧
    (splitSentences st qa.answerText).length ≤
      groupCountOf (effGroupSize st).toNat (splitSentences st qa.answerText) *
        (effGroupSize st).toNat ∧
    groupCountOf (effGroupSize st).toNat (splitSentences st qa.answerText) *
        (effGroupSize st).toNat <
      (splitSentences st qa.answerText).length + (effGroupSize st).toNat ∧
    ∃ steps, buildStepsForQa st qa review = some steps ∧
      ∀ s ∈ steps, ∃ g i : Nat,
        s.groupIndex = some g ∧ s.sentenceIndexInGroup = some i ∧
        s.globalSentenceIndex = some (g * (effGroupSize st).toNat + i) ∧
        g < groupCountOf (effGroupSize st).toNat (splitSentences st qa.answerText) ∧
        i < (effGroupSize st).toNat ∧
        g * (effGroupSize st).toNat + i < (splitSentences st qa.answerText).length ∧
        (splitSentences st qa.answerText)[g * (effGroupSize st).toNat + i]? = some s.text ∧
        s.groupCount =
          some (groupCountOf (effGroupSize st).toNat (splitSentences st qa.answerText)) := by
  have hb := effGroupSize_bounds st
  have hn : 1 ≤ (effGroupSize st).toNat := by omega
  refine ⟨⟨hn, by omega⟩, groupCountOf_eq_ceil _ hn _, (groupCountOf_mul_ge _ hn _).1,
    (groupCountOf_mul_ge _ hn _).2,
    _, buildStepsForQa_eq st qa review, ?_⟩
  intro s hs
  rw [groupSteps_eq] at hs
  simp only [List.mem_flatMap, List.mem_map, List.mem_range] at hs
  obtain ⟨g, hg, r, _, i, hi, rfl⟩ := hs
  rw [consecutiveGroups_length] at hg
  rw [consecutiveGroups_getD _ _ g hg] at hi
  obtain ⟨h1, h2, h3⟩ := consecutiveGroup_getD _ _ g i hi
  refine ⟨g, i, rfl, rfl, rfl, hg, h1, h2, ?_, ?_⟩
  · rw [h3]
    show some _ = some (((consecutiveGroups _ _).getD g []).getD i "")
    rw [consecutiveGroups_getD _ _ g hg]
  · show some (consecutiveGroups _ _).length = _
    rw [consecutiveGroups_length]

/-- The indices on a concrete plan: five segments in groups of three; the listing gives
group index, position in the group, global index and text of the steps of round 0. -/
theorem buildStepsForQa_indices_example :
    (buildStepsForQa exampleState exampleQa1 false).map
        (fun steps => (steps.filter (fun s => s.round == some 0)).map
          (fun s => (s.groupIndex, s.sentenceIndexInGroup, s.globalSentenceIndex, s.text))) =
      some [(some 0, some 0, some 0, "s0"), (some 0, some 1, some 1, "s1"),
        (some 0, some 2, some 2, "s2"), (some 1, some 0, some 3, "s3"),
        (some 1, some 1, some 4, "s4")] ∧
    (buildStepsForQa exampleState exampleQa1 false).map
        (fun steps => steps.map (fun s => s.groupCount)) =
      some (List.replicate 10 (some 2)) := by
  refine ⟨?_, ?_⟩ <;> decide

end Recite
